import Mathlib

/-! Kurnik IoT: mesh relay and store-and-forward telemetry.

A shallow embedding of the hub firmware (`Kurnik_IoT`) and of the two leaf
firmwares (`Czujnik_IoT`, `Czujnik_IoT_waga`).

Conventions of the embedding.

* Text (`String`, `char*`, file contents) is a list of characters.  The
  `c_str()` boundary is the identity: texts are taken to hold no NUL.
* `int` is `Int`; a record is valid when its integers lie in the 32-bit range.
  The two loop counters of the queue drain are `Nat`: they count lines of a
  file whose size is below `2^32` bytes, so they stay below `2^31`.
* `float` is a binary32 value given by sign, mantissa and binary exponent, or
  an infinity, or a NaN.  Decimal conversion is exact integer arithmetic:
  `%.2f` rounds the exact value to hundredths, ties to even; `%f` rounds the
  exact decimal to the nearest binary32, ties to even.
* The storage card is a mounted, working card: the two queue files are
  `Option Text` (`none`: the file does not exist).
* The broker client is the environment.  Each `publish` call is answered by a
  `PublishResult`: the packet id returned and what `connected()` says right
  after the call.
-/

namespace Kurnik

/-- Text of the firmware: the characters of a C string. -/
abbrev Text := List Char

/-! ## Character classes and decimal digits -/

/-- The C `isdigit`. -/
def isdigit (c : Char) : Bool := decide (48 ≤ c.toNat) && decide (c.toNat ≤ 57)

/-- The C `isspace`: space, and the control characters 9 to 13. -/
def isspace (c : Char) : Bool :=
  decide (c.toNat = 32) || (decide (9 ≤ c.toNat) && decide (c.toNat ≤ 13))

/-- The `tolower` of an ASCII letter. -/
def tolower (c : Char) : Char :=
  if 65 ≤ c.toNat ∧ c.toNat ≤ 90 then Char.ofNat (c.toNat + 32) else c

/-- The character of a decimal digit. -/
def digitChar (d : Nat) : Char := Char.ofNat (48 + d)

/-- The value of a digit character. -/
def digitVal (c : Char) : Nat := c.toNat - 48

/-- Decimal digits of `n`, least significant first (`fuel` bounds the length). -/
def digitsRev : Nat → Nat → Text
  | 0, _ => []
  | fuel + 1, n =>
    if n < 10 then [digitChar n] else digitChar (n % 10) :: digitsRev fuel (n / 10)

/-- Decimal text of a natural number (`%u`, `%lu`, `String(unsigned long)`). -/
def natToText (n : Nat) : Text := (digitsRev (n + 1) n).reverse

/-- Value of a run of decimal digits. -/
def natOfDigits (ds : Text) : Nat := ds.foldl (fun a c => 10 * a + digitVal c) 0

/-- Text printed by `%d`. -/
def fmtInt (i : Int) : Text :=
  if i < 0 then '-' :: natToText i.natAbs else natToText i.natAbs

/-- The 32-bit range of `int`. -/
def isInt32 (i : Int) : Prop := -2147483648 ≤ i ∧ i ≤ 2147483647

instance (i : Int) : Decidable (isInt32 i) := by unfold isInt32; infer_instance

/-- The saturation of `strtol` to the range of a 32-bit `long`. -/
def clampInt32 (i : Int) : Int :=
  if i < -2147483648 then -2147483648 else if 2147483647 < i then 2147483647 else i

/-- An optional sign in front of a number. -/
def scanSign : Text → Bool × Text
  | '-' :: t => (true, t)
  | '+' :: t => (false, t)
  | s => (false, s)

/-- The conversion `%d` of `sscanf`: white space is skipped, then an optional
sign and at least one digit.  Gives the value and the unread input. -/
def scanInt (s : Text) : Option (Int × Text) :=
  let s1 := s.dropWhile isspace
  let (neg, s2) := scanSign s1
  let ds := s2.takeWhile isdigit
  if ds = [] then none
  else
    let v : Int := natOfDigits ds
    some (clampInt32 (if neg then -v else v), s2.dropWhile isdigit)

/-! ## binary32 -/

/-- A `float`: `finite neg m e` is `(-1)^neg * m * 2^e`. -/
inductive Float32 where
  | finite (neg : Bool) (m : Nat) (e : Int)
  | inf (neg : Bool)
  | nan
  deriving DecidableEq

/-- The representable finite values: 24 bits of mantissa, the binary exponent of
the last mantissa bit between -149 and 104. -/
def Float32.valid : Float32 → Prop
  | .finite _ m e => m < 16777216 ∧ -149 ≤ e ∧ e ≤ 104
  | .inf _ => True
  | .nan => True

/-- Being a number (neither infinity nor NaN). -/
def Float32.isFinite : Float32 → Bool
  | .finite _ _ _ => true
  | _ => false

/-- The exact value of a finite float (0 for the others). -/
def Float32.toRat : Float32 → ℚ
  | .finite neg m e => (if neg then -1 else 1) * (m : ℚ) * (2 : ℚ) ^ e
  | _ => 0

/-- The quotient `P / Q` rounded to the nearest integer, ties to even. -/
def roundNearestEven (P Q : Nat) : Nat :=
  let q := P / Q
  let r := P % Q
  if 2 * r < Q then q
  else if Q < 2 * r then q + 1
  else if q % 2 = 0 then q else q + 1

/-- Decides `2^L ≤ P / Q`. -/
def pow2Le (L : Int) (P Q : Nat) : Bool :=
  if 0 ≤ L then decide (Q * 2 ^ L.toNat ≤ P) else decide (Q ≤ P * 2 ^ (-L).toNat)

/-- Binary logarithm by repeated halving (`fuel` bounds the number of steps). -/
def log2Fuel : Nat → Nat → Nat
  | 0, _ => 0
  | fuel + 1, n => if n < 2 then 0 else log2Fuel fuel (n / 2) + 1

/-- The integer part of the binary logarithm of a positive number. -/
def log2 (n : Nat) : Nat := log2Fuel n n

/-- The integer part of the binary logarithm of `P / Q` (both positive). -/
def floorLog2 (P Q : Nat) : Int :=
  let L : Int := (log2 P : Int) - (log2 Q : Int)
  if pow2Le L P Q then L else L - 1

/-- The quotient `P / (Q * 2^e)` rounded to the nearest integer, ties to even. -/
def scaledMantissa (P Q : Nat) (e : Int) : Nat :=
  if 0 ≤ e then roundNearestEven P (Q * 2 ^ e.toNat)
  else roundNearestEven (P * 2 ^ (-e).toNat) Q

/-- The binary32 nearest to `± P / Q`, ties to even; overflow gives infinity. -/
def roundFloat32 (neg : Bool) (P Q : Nat) : Float32 :=
  if P = 0 then .finite neg 0 0
  else
    let e : Int := max (floorLog2 P Q - 23) (-149)
    let m := scaledMantissa P Q e
    if 104 < e ∨ (e = 104 ∧ m = 16777216) then .inf neg
    else if m = 16777216 then .finite neg 8388608 (e + 1)
    else .finite neg m e

/-- The binary32 nearest to `± n * 10^x`. -/
def decimalToFloat32 (neg : Bool) (n : Nat) (x : Int) : Float32 :=
  if 0 ≤ x then roundFloat32 neg (n * 10 ^ x.toNat) 1
  else roundFloat32 neg n (10 ^ (-x).toNat)

/-- The exact value of `m * 2^e` in hundredths, rounded to the nearest integer,
ties to even. -/
def hundredths (m : Nat) (e : Int) : Nat :=
  if 0 ≤ e then 100 * m * 2 ^ e.toNat else roundNearestEven (100 * m) (2 ^ (-e).toNat)

/-- Text printed by `%.2f`. -/
def fmtFixed2 : Float32 → Text
  | .nan => "nan".toList
  | .inf neg => (if neg then ['-'] else []) ++ "inf".toList
  | .finite neg m e =>
    let n := hundredths m e
    (if neg then ['-'] else []) ++ natToText (n / 100)
      ++ ['.', digitChar (n % 100 / 10), digitChar (n % 10)]

/-- An optional exponent part `e[+-]ddd`; it is read only when at least one
digit follows. -/
def scanExponent (s : Text) : Int × Text :=
  match s with
  | [] => (0, [])
  | c :: t =>
    if c = 'e' ∨ c = 'E' then
      let (neg, t1) := scanSign t
      let ds := t1.takeWhile isdigit
      if ds = [] then (0, s)
      else
        let v : Int := natOfDigits ds
        ((if neg then -v else v), t1.dropWhile isdigit)
    else (0, s)

/-- The digits, optional fraction and optional exponent of a decimal float
constant, after the sign. -/
def scanDecimal (neg : Bool) (s : Text) : Option (Float32 × Text) :=
  let ip := s.takeWhile isdigit
  let s1 := s.dropWhile isdigit
  let (fp, s2) : Text × Text :=
    match s1 with
    | '.' :: t => (t.takeWhile isdigit, t.dropWhile isdigit)
    | _ => ([], s1)
  if ip = [] ∧ fp = [] then none
  else
    let (ex, s3) := scanExponent s2
    some (decimalToFloat32 neg (natOfDigits (ip ++ fp)) (ex - (fp.length : Int)), s3)

/-- The conversion `%f` of `sscanf`: white space is skipped, then an optional
sign and `infinity`, `inf`, `nan` (in any case) or a decimal constant.
Hexadecimal constants are outside the model. -/
def scanFloat (s : Text) : Option (Float32 × Text) :=
  let s1 := s.dropWhile isspace
  let (neg, s2) := scanSign s1
  if (s2.take 8).map tolower = "infinity".toList then some (.inf neg, s2.drop 8)
  else if (s2.take 3).map tolower = "inf".toList then some (.inf neg, s2.drop 3)
  else if (s2.take 3).map tolower = "nan".toList then some (.nan, s2.drop 3)
  else scanDecimal neg s2

/-- The conversion `%15[^;]`: between 1 and 15 characters other than `;`. -/
def scanSet15 (s : Text) : Option (Text × Text) :=
  let w := (s.takeWhile (fun c => c != ';')).take 15
  if w = [] then none else some (w, s.drop w.length)

/-- The directives of the two `sscanf` formats of the hub. -/
inductive Directive where
  | d
  | f
  | set15
  | lit (c : Char)
  deriving DecidableEq

/-- A value assigned by `sscanf`. -/
inductive Arg where
  | int (v : Int)
  | float (v : Float32)
  | str (v : Text)
  deriving DecidableEq

/-- The assignments `sscanf` makes, in order; it stops at the first directive
that does not match.  The value `sscanf` returns is the length of this list
(or `EOF` when it is empty because the input ran out). -/
def sscanf : Text → List Directive → List Arg
  | _, [] => []
  | s, .lit c :: ds =>
    match s with
    | x :: t => if x = c then sscanf t ds else []
    | [] => []
  | s, .d :: ds =>
    match scanInt s with
    | some (v, t) => .int v :: sscanf t ds
    | none => []
  | s, .f :: ds =>
    match scanFloat s with
    | some (v, t) => .float v :: sscanf t ds
    | none => []
  | s, .set15 :: ds =>
    match scanSet15 s with
    | some (v, t) => .str v :: sscanf t ds
    | none => []

/-- The output of `snprintf` into a buffer of `size` bytes: at most `size - 1`
characters are kept. -/
def snprintf (size : Nat) (s : Text) : Text := s.take (size - 1)

/-- `String::trim`: white space removed at both ends. -/
def trim (s : Text) : Text := ((s.dropWhile isspace).reverse.dropWhile isspace).reverse

/-- Scan of `String::lastIndexOf`: `i` is the index of the head, `acc` the last
match so far. -/
def lastIndexOfAux (c : Char) : Text → Nat → Int → Int
  | [], _, acc => acc
  | x :: t, i, acc => lastIndexOfAux c t (i + 1) (if x = c then (i : Int) else acc)

/-- `String::lastIndexOf(char)`: the index of the last `c`, or -1. -/
def lastIndexOf (s : Text) (c : Char) : Int := lastIndexOfAux c s 0 (-1)

/-! ## Records and their text form -/

/-- The environmental record (`Pakiet_Danych` of the hub and of the sensor
leaf). -/
structure Pakiet_Danych where
  ID_urzadzenia : Int
  temperatura : Float32
  wilgotnosc : Float32
  poziom_co2 : Int
  poziom_amoniaku : Int
  naslonecznienie : Int
  data_i_czas : Text

/-- The text of the format `%d;%.2f;%.2f;%d;%d;%d;%s` for a record, before the
buffer bound applies. -/
def csvLine (p : Pakiet_Danych) : Text :=
  fmtInt p.ID_urzadzenia ++ [';'] ++ fmtFixed2 p.temperatura ++ [';']
    ++ fmtFixed2 p.wilgotnosc ++ [';'] ++ fmtInt p.poziom_co2 ++ [';']
    ++ fmtInt p.poziom_amoniaku ++ [';'] ++ fmtInt p.naslonecznienie ++ [';']
    ++ p.data_i_czas

/-- The text of the format `%d;%s;%.2f;%s` of a tag-weight record, before the
buffer bound applies. -/
def kuraLine (id_urzadzenia : Int) (id_kury : Text) (waga : Float32) (timestamp : Text) :
    Text :=
  fmtInt id_urzadzenia ++ [';'] ++ id_kury ++ [';'] ++ fmtFixed2 waga ++ [';'] ++ timestamp

/-! ## The hub: storage card, broker client, state -/

/-- The two queue files of the storage card. -/
structure SD where
  backup_data : Option Text
  transfer_waitlist : Option Text

/-- Path of the archive. -/
def backup_path : Text := "/backup_data.txt".toList

/-- Path of the waitlist. -/
def waitlist_path : Text := "/transfer_waitlist.txt".toList

/-- `appendFile`: the file is opened with `FILE_APPEND` (created when missing)
and the message is written at its end.  Paths other than the two queue files
are outside the model. -/
def appendFile (sd : SD) (path : Text) (message : Text) : SD :=
  if path = backup_path then
    { sd with backup_data := some (sd.backup_data.getD [] ++ message) }
  else if path = waitlist_path then
    { sd with transfer_waitlist := some (sd.transfer_waitlist.getD [] ++ message) }
  else sd

/-- `deleteFile`: the file is removed. -/
def deleteFile (sd : SD) (path : Text) : SD :=
  if path = backup_path then { sd with backup_data := none }
  else if path = waitlist_path then { sd with transfer_waitlist := none }
  else sd

/-- What the broker client answers to one `publish` call: the packet id it
returns (0 on failure) and the value of `connected()` right after the call. -/
structure PublishResult where
  packetId : Nat
  connected : Bool

/-- Calls into collaborators and into the drain that the hub makes. -/
inductive Call where
  | PolaczZWiFi
  | PolaczDoMQTT
  | PonowWyslijZKolejki
  deriving DecidableEq

/-- State of the hub.  `published`, `broadcasts` and `calls` record, in order,
the `publish` calls (topic, payload), the mesh broadcasts and the calls listed
in `Call`. -/
structure Hub where
  sd : SD
  mqttByloPolaczone : Bool
  topic : Text
  published : List (Text × Text)
  broadcasts : List Text
  calls : List Call

/-- `ZapiszDanePakiet`: the line and a newline go to the archive when the
forward succeeded, to the waitlist otherwise. -/
def ZapiszDanePakiet (sd : SD) (data : Text) (mqttSuccess : Bool) : SD :=
  let filepath := if mqttSuccess then backup_path else waitlist_path
  let dataWithNewline := data ++ ['\n']
  appendFile sd filepath dataWithNewline

/-- `WyslijPakiet`: the record is formatted into a 150-byte buffer, published
on the base topic and recorded on the card. -/
def WyslijPakiet (h : Hub) (pakiet : Pakiet_Danych) (r : PublishResult) : Hub :=
  let message := snprintf 150 (csvLine pakiet)
  let packetId := r.packetId
  let mqttSuccess := decide (packetId ≠ 0) && r.connected
  { h with
    published := h.published ++ [(h.topic, message)]
    sd := ZapiszDanePakiet h.sd message mqttSuccess }

/-- `WyslijPakietKura`: the tag-weight record is formatted into a 150-byte
buffer and published on the topic `<base>/kury` (a 64-byte buffer); the card is
not touched. -/
def WyslijPakietKura (h : Hub) (id_urzadzenia : Int) (id_kury : Text) (waga : Float32)
    (timestamp : Text) (_r : PublishResult) : Hub :=
  let message := snprintf 150 (kuraLine id_urzadzenia id_kury waga timestamp)
  let kury_topic := snprintf 64 (h.topic ++ "/kury".toList)
  { h with published := h.published ++ [(kury_topic, message)] }

/-- The lines `readStringUntil` with the newline as terminator delivers while
the file has bytes available; `cur` is the line being read. -/
def readLines : Text → Text → List Text
  | [], cur => if cur = [] then [] else [cur]
  | c :: rest, cur => if c = '\n' then cur :: readLines rest [] else readLines rest (cur ++ [c])

/-- The loop of `PonowWyslijZKolejki` over the lines of the waitlist.
`wyslanoDanych` and `nieudanychDanych` are the two counters; `pub k` answers
the `k`-th publish call of this drain. -/
def drainLoop (pub : Nat → PublishResult) :
    List Text → Hub → Nat → Nat → Hub × Nat × Nat
  | [], h, wyslanoDanych, nieudanychDanych => (h, wyslanoDanych, nieudanychDanych)
  | l :: ls, h, wyslanoDanych, nieudanychDanych =>
    let linia := trim l
    if linia.length = 0 then drainLoop pub ls h wyslanoDanych nieudanychDanych
    else
      let r := pub (wyslanoDanych + nieudanychDanych)
      let h1 := { h with published := h.published ++ [(h.topic, linia)] }
      if r.packetId ≠ 0 ∧ r.connected = true then
        let sd1 := appendFile h1.sd backup_path linia
        let sd2 := appendFile sd1 backup_path ['\n']
        drainLoop pub ls { h1 with sd := sd2 } (wyslanoDanych + 1) nieudanychDanych
      else drainLoop pub ls h1 wyslanoDanych (nieudanychDanych + 1)

/-- `PonowWyslijZKolejki` (the drain).  `connected` is what the client reports
at entry, `pub k` answers the `k`-th publish call. -/
def PonowWyslijZKolejki (h : Hub) (connected : Bool) (pub : Nat → PublishResult) : Hub :=
  let h0 := { h with calls := h.calls ++ [Call.PonowWyslijZKolejki] }
  if !connected then h0
  else
    match h0.sd.transfer_waitlist with
    | none => h0
    | some waitlistFile =>
      let (h1, wyslanoDanych, nieudanychDanych) := drainLoop pub (readLines waitlistFile []) h0 0 0
      if 0 < wyslanoDanych ∧ nieudanychDanych = 0 then
        { h1 with sd := deleteFile h1.sd waitlist_path }
      else h1

/-! ## The hub: frames from the mesh -/

/-- The format `%d;%f;%f;%d;%d;%d` of the `DANE` branch. -/
def daneFormat : List Directive :=
  [.d, .lit ';', .f, .lit ';', .f, .lit ';', .d, .lit ';', .d, .lit ';', .d]

/-- The format `%d;%15[^;];%f` of the `KURA` branch. -/
def kuraFormat : List Directive := [.d, .lit ';', .set15, .lit ';', .f]

/-- The integer assigned at position `i` (0 when nothing was assigned). -/
def argInt (args : List Arg) (i : Nat) : Int :=
  match args.get? i with
  | some (.int v) => v
  | _ => 0

/-- The float assigned at position `i`. -/
def argFloat (args : List Arg) (i : Nat) : Float32 :=
  match args.get? i with
  | some (.float v) => v
  | _ => .finite false 0 0

/-- The text assigned at position `i`. -/
def argStr (args : List Arg) (i : Nat) : Text :=
  match args.get? i with
  | some (.str v) => v
  | _ => []

/-- Number of fields `sscanf` assigns from the payload of a `DANE` frame. -/
def daneParseCount (msg : Text) : Nat := (sscanf (msg.drop 5) daneFormat).length

/-- The decoding of the `DANE` branch of `receivedCallback`: the payload after
the five characters of the tag, six scanned fields, and the timestamp after the
last `;`.  `none`: fewer than six fields were assigned and the frame is dropped. -/
def dekodujDANE (msg : Text) : Option Pakiet_Danych :=
  let dane_str := msg.drop 5
  let args := sscanf dane_str daneFormat
  let parseCount := args.length
  let lastSemicolon := lastIndexOf dane_str ';'
  let data_i_czas : Text :=
    if lastSemicolon ≠ -1 then dane_str.drop (lastSemicolon + 1).toNat else []
  if 6 ≤ parseCount then
    some
      { ID_urzadzenia := argInt args 0
        temperatura := argFloat args 1
        wilgotnosc := argFloat args 2
        poziom_co2 := argInt args 3
        poziom_amoniaku := argInt args 4
        naslonecznienie := argInt args 5
        data_i_czas := data_i_czas }
  else none

/-- The loop of the `KURA` branch that finds the text after the third `;`
(`count` semicolons were seen so far); empty when there is no third `;`. -/
def kuraTimestamp : Text → Nat → Text
  | [], _ => []
  | x :: t, count =>
    if x = ';' then (if count + 1 = 3 then t else kuraTimestamp t (count + 1))
    else kuraTimestamp t count

/-- A decoded tag-weight frame. -/
structure Pakiet_Kura where
  id_urzadzenia : Int
  id_kury : Text
  waga : Float32
  timestamp : Text

/-- The decoding of the `KURA` branch of `receivedCallback`.  `none`: fewer
than three fields were assigned and the frame is dropped. -/
def dekodujKURA (msg : Text) : Option Pakiet_Kura :=
  let kura_str := msg.drop 5
  let args := sscanf kura_str kuraFormat
  let parseCount := args.length
  let timestamp := kuraTimestamp kura_str 0
  if 3 ≤ parseCount then
    some
      { id_urzadzenia := argInt args 0
        id_kury := argStr args 1
        waga := argFloat args 2
        timestamp := timestamp }
  else none

/-- `broadcastEpoch`: one broadcast of `SYNC` and the decimal local epoch. -/
def broadcastEpoch (h : Hub) (akt_czas : Nat) : Hub :=
  let reply := "SYNC".toList ++ natToText akt_czas
  { h with broadcasts := h.broadcasts ++ [reply] }

/-- `receivedCallback` of the root.  `r` answers the publish call the frame may
cause, `akt_czas` is the local epoch of the clock. -/
def receivedCallback (h : Hub) (msg : Text) (r : PublishResult) (akt_czas : Nat) : Hub :=
  let tag := msg.take 4
  if tag = "DANE".toList then
    match dekodujDANE msg with
    | some pakiet => WyslijPakiet h pakiet r
    | none => h
  else if tag = "KURA".toList then
    match dekodujKURA msg with
    | some k => WyslijPakietKura h k.id_urzadzenia k.id_kury k.waga k.timestamp r
    | none => h
  else if tag = "TIME".toList then broadcastEpoch h akt_czas
  else h

/-! ## The hub: connection monitor and start-up -/

/-- What one run of the connection check observes: the uplink, the broker, and
for the drain it may start the broker state at its entry and the answers to its
publish calls. -/
structure MonitorEnv where
  wifi : Bool
  mqtt : Bool
  drainConnected : Bool
  pub : Nat → PublishResult

/-- `PolaczZWiFi`, a call into the network collaborator. -/
def PolaczZWiFi (h : Hub) : Hub := { h with calls := h.calls ++ [Call.PolaczZWiFi] }

/-- `PolaczDoMQTT`, a call into the broker collaborator. -/
def PolaczDoMQTT (h : Hub) : Hub := { h with calls := h.calls ++ [Call.PolaczDoMQTT] }

/-- `monitorPolaczenCallback`, the periodic connection check. -/
def monitorPolaczenCallback (h : Hub) (env : MonitorEnv) : Hub :=
  let h1 := if !env.wifi then PolaczZWiFi h else h
  if !env.mqtt then
    let h2 := if h1.mqttByloPolaczone then { h1 with mqttByloPolaczone := false } else h1
    PolaczDoMQTT h2
  else if !h1.mqttByloPolaczone then
    PonowWyslijZKolejki { h1 with mqttByloPolaczone := true } env.drainConnected env.pub
  else h1

/-- What `setup` observes: whether credentials were stored, the uplink after
the connection attempt, the broker after the connection attempt, and for the
start-up drain the broker state at its entry and the answers to its publish
calls. -/
structure SetupEnv where
  had : Bool
  wifi : Bool
  mqtt : Bool
  drainConnected : Bool
  pub : Nat → PublishResult

/-- The connection part of `setup`: with stored credentials the uplink is
joined and, when it is up, the broker is contacted; without them provisioning
ends with the uplink up.  When the broker then reports connected the waitlist
is drained.  The latch `mqttByloPolaczone` is not touched. -/
def setup (h : Hub) (env : SetupEnv) : Hub :=
  if env.had = false then
    let h1 := PolaczDoMQTT h
    if env.mqtt then
      let h2 := { h1 with published := h1.published ++ [(h1.topic, "Wiadomosc inicjujaca".toList)] }
      PonowWyslijZKolejki h2 env.drainConnected env.pub
    else h1
  else
    let h1 := PolaczZWiFi h
    if env.wifi then
      let h2 := PolaczDoMQTT h1
      if env.mqtt then PonowWyslijZKolejki h2 env.drainConnected env.pub else h2
    else h1

/-- A run of the hub after `setup`: the connection checks in order. -/
def runChecks : List MonitorEnv → Hub → Hub
  | [], h => h
  | env :: envs, h => runChecks envs (monitorPolaczenCallback h env)

/-- Number of times the drain was called. -/
def drainCount (h : Hub) : Nat := h.calls.count Call.PonowWyslijZKolejki

end Kurnik

/-! ## The sensor leaf -/

namespace Czujnik

open Kurnik

/-- `pakietToCSV` of the sensor leaf: the record formatted into a buffer of
`bufferSize` bytes. -/
def pakietToCSV (pakiet : Pakiet_Danych) (bufferSize : Nat) : Text :=
  snprintf bufferSize (csvLine pakiet)

/-- State of the sensor leaf.  `sent` records the unicasts (destination, text),
`broadcasts` the broadcasts. -/
structure Leaf where
  root_id : Nat
  czy_ma_czas : Bool
  taskZapytajCzas : Bool
  rtc : Nat
  sent : List (Nat × Text)
  broadcasts : List Text

/-- The frame `wyslijOdczyt` builds from a reading: the tag `DANE;` and the
record formatted into a 150-byte buffer. -/
def ramkaDANE (odczyt : Pakiet_Danych) : Text :=
  let dane := pakietToCSV odczyt 150
  "DANE;".toList ++ dane

/-- `wyslijOdczyt`: without time or without a known root nothing is sent;
otherwise the reading is sent to the root. -/
def wyslijOdczyt (l : Leaf) (odczyt : Pakiet_Danych) : Leaf :=
  if !l.czy_ma_czas then l
  else if l.root_id = 0 then l
  else { l with sent := l.sent ++ [(l.root_id, ramkaDANE odczyt)] }

end Czujnik

/-! ## The scale leaf -/

namespace Waga

open Kurnik

/-- The tag-weight record (`Pakiet_Danych` of the scale leaf). -/
structure Pakiet_Danych where
  ID_urzadzenia : Int
  uid_rfid : Text
  waga : Float32
  data_i_czas : Text

/-- `pakietToCSV` of the scale leaf: the record formatted into a buffer of
`bufferSize` bytes. -/
def pakietToCSV (pakiet : Pakiet_Danych) (bufferSize : Nat) : Text :=
  snprintf bufferSize
    (kuraLine pakiet.ID_urzadzenia pakiet.uid_rfid pakiet.waga pakiet.data_i_czas)

end Waga

/-! ## Vocabulary of the statements -/

namespace Kurnik

/-- The lines a drain attempts: each line trimmed, the empty ones left out. -/
def pendingOf (ls : List Text) : List Text :=
  (ls.map trim).filter (fun l => decide (l.length ≠ 0))

/-- The lines a drain of the waitlist content `w` attempts, in file order. -/
def pendingLines (w : Text) : List Text := pendingOf (readLines w [])

/-- A forward that succeeds: a non-zero packet id and the client connected
right after the call. -/
def PublishResult.ok (r : PublishResult) : Prop := r.packetId ≠ 0 ∧ r.connected = true

instance (r : PublishResult) : Decidable r.ok := by unfold PublishResult.ok; infer_instance

/-- Of the attempted lines `ls`, those whose forward succeeds, when the first
attempt is the `k`-th publish call. -/
def forwarded (pub : Nat → PublishResult) : List Text → Nat → List Text
  | [], _ => []
  | l :: ls, k =>
    if (pub k).packetId ≠ 0 ∧ (pub k).connected = true then l :: forwarded pub ls (k + 1)
    else forwarded pub ls (k + 1)

/-- A file after the lines `ls` were appended one by one, each followed by a
newline (no append leaves it as it was, also when it does not exist). -/
def appendLines : Option Text → List Text → Option Text
  | b, [] => b
  | b, l :: ls => appendLines (some (b.getD [] ++ l ++ ['\n'])) ls

/-- The lines `ls`, each followed by a newline, as one text. -/
def joinLines (ls : List Text) : Text := (ls.map (fun l => l ++ ['\n'])).flatten

/-- A hub with the given archive and waitlist, base topic `kurnik/`, the latch
clear and nothing sent yet. -/
def hubWith (backup waitlist : Option Text) : Hub :=
  { sd := { backup_data := backup, transfer_waitlist := waitlist }
    mqttByloPolaczone := false
    topic := "kurnik/".toList
    published := []
    broadcasts := []
    calls := [] }

/-- A broker that accepts every publish call. -/
def pubOk : Nat → PublishResult := fun _ => { packetId := 1, connected := true }

/-- A connection check that sees uplink and broker connected. -/
def envConnected : MonitorEnv :=
  { wifi := true, mqtt := true, drainConnected := true, pub := pubOk }

/-- A start-up with stored credentials, uplink and broker connected. -/
def setupConnected : SetupEnv :=
  { had := true, wifi := true, mqtt := true, drainConnected := true, pub := pubOk }

end Kurnik

/-! ## Vocabulary of the round-trip statements -/

namespace Kurnik

instance (f : Float32) : Decidable f.valid := by
  cases f <;> unfold Float32.valid <;> infer_instance

/-- A record a leaf can hold: 32-bit integers and representable floats. -/
def Pakiet_Danych.valid (p : Pakiet_Danych) : Prop :=
  isInt32 p.ID_urzadzenia ∧ p.temperatura.valid ∧ p.wilgotnosc.valid ∧
    isInt32 p.poziom_co2 ∧ isInt32 p.poziom_amoniaku ∧ isInt32 p.naslonecznienie

instance (p : Pakiet_Danych) : Decidable p.valid := by
  unfold Pakiet_Danych.valid; infer_instance

/-- Two floats are within `tol` of each other: both are numbers and their exact
values differ by at most `tol`. -/
def Float32.within (a b : Float32) (tol : ℚ) : Prop :=
  a.isFinite = true ∧ b.isFinite = true ∧ |a.toRat - b.toRat| ≤ tol

end Kurnik

namespace Kurnik

/-- The unread input after a number is printed: nothing, or text that starts
with a character that cannot continue the number. -/
def stopsNumber (rest : Text) : Prop :=
  rest = [] ∨ ∃ t, rest = ';' :: t

/-- The C `isxdigit`. -/
def isxdigit (c : Char) : Bool :=
  isdigit c || (decide (65 ≤ c.toNat) && decide (c.toNat ≤ 70)) ||
    (decide (97 ≤ c.toNat) && decide (c.toNat ≤ 102))

/-- A hex string of 1 to 15 characters. -/
def isTagId (uid : Text) : Prop :=
  1 ≤ uid.length ∧ uid.length ≤ 15 ∧ ∀ c ∈ uid, isxdigit c = true

instance (uid : Text) : Decidable (isTagId uid) := by unfold isTagId; infer_instance

/-- The reading of scenario B (device 5, 22.32 °C, 61.65 %, 1220, 15, 51) with
the given temperature and timestamp. -/
def odczytB (temperatura : Float32) (data_i_czas : Text) : Pakiet_Danych :=
  { ID_urzadzenia := 5
    temperatura := temperatura
    wilgotnosc := .finite false 16161178 (-18)
    poziom_co2 := 1220
    poziom_amoniaku := 15
    naslonecznienie := 51
    data_i_czas := data_i_czas }

/-- The binary32 nearest to 22.32. -/
def temp2232 : Float32 := .finite false 11702108 (-19)

end Kurnik

namespace Waga

open Kurnik

/-- The frame of a tag-weight record: the tag `KURA;` and the record formatted
into a buffer of `bufferSize` bytes. -/
def ramkaKURA (pakiet : Pakiet_Danych) (bufferSize : Nat) : Text :=
  "KURA;".toList ++ pakietToCSV pakiet bufferSize

/-- The record of scenario E (device 7, tag AB12CD) with the given weight and
timestamp. -/
def odczytE (waga : Float32) (data_i_czas : Text) : Pakiet_Danych :=
  { ID_urzadzenia := 7
    uid_rfid := "AB12CD".toList
    waga := waga
    data_i_czas := data_i_czas }

/-- The binary32 nearest to -0.37. -/
def waga037 : Float32 := .finite true 12415140 (-25)

end Waga

/-! ## The sensor leaf: frames and tasks -/

namespace Czujnik

open Kurnik

/-- `strtoul` in base 10 on a 32-bit `unsigned long`: white space is skipped,
then an optional sign and the digits.  Without a digit the value is 0; a value
above `ULONG_MAX` gives `ULONG_MAX`; a minus sign negates modulo `2^32`. -/
def strtoul (s : Text) : Nat :=
  let s1 := s.dropWhile isspace
  let (neg, s2) := scanSign s1
  let ds := s2.takeWhile isdigit
  if ds = [] then 0
  else
    let v := natOfDigits ds
    if 4294967295 < v then 4294967295
    else if neg then (4294967296 - v) % 4294967296 else v

/-- `receivedCallback` of the leaf.  A `SYNC` frame records the sender as root,
sets the clock to the epoch plus 3600 (in a 32-bit `unsigned long`), marks the
time as known and disables the time-request task; any other frame is dropped. -/
def receivedCallback (l : Leaf) (sender : Nat) (msg : Text) : Leaf :=
  let tag := msg.take 4
  if tag = "SYNC".toList then
    let time := msg.drop 4
    let time_int := strtoul time
    let time_int := (time_int + 3600) % 4294967296
    { l with
      root_id := sender
      rtc := time_int
      czy_ma_czas := true
      taskZapytajCzas := false }
  else l

/-- `changedConnectionCallback`: with at least one peer and no time yet the
time-request task is enabled.  `nodes` is the size of the node list. -/
def changedConnectionCallback (l : Leaf) (nodes : Nat) : Leaf :=
  if 0 < nodes ∧ l.czy_ma_czas = false then { l with taskZapytajCzas := true } else l

/-- `zapytajOCzas`, the callback of the time-request task: without time a
`TIME` frame is broadcast. -/
def zapytajOCzas (l : Leaf) : Leaf :=
  if l.czy_ma_czas = false then { l with broadcasts := l.broadcasts ++ ["TIME".toList] }
  else l

/-- The leaf at boot: no root, no time, the time-request task not enabled. -/
def Leaf.boot : Leaf :=
  { root_id := 0
    czy_ma_czas := false
    taskZapytajCzas := false
    rtc := 0
    sent := []
    broadcasts := [] }

/-- What happens to a running leaf: a frame arrives, the connections change,
the time-request task is due, the send task is due (with the reading the
sensors would give). -/
inductive Zdarzenie where
  | odebrano (sender : Nat) (msg : Text)
  | zmianaPolaczen (nodes : Nat)
  | czasNaZapytanie
  | czasNaOdczyt (odczyt : Pakiet_Danych)

/-- One step of the leaf.  The scheduler runs the callback of the time-request
task only while that task is enabled. -/
def krok (l : Leaf) : Zdarzenie → Leaf
  | .odebrano sender msg => receivedCallback l sender msg
  | .zmianaPolaczen nodes => changedConnectionCallback l nodes
  | .czasNaZapytanie => if l.taskZapytajCzas then zapytajOCzas l else l
  | .czasNaOdczyt odczyt => wyslijOdczyt l odczyt

/-- An execution of the leaf: the events in order. -/
def przebieg (l : Leaf) (zdarzenia : List Zdarzenie) : Leaf := zdarzenia.foldl krok l

/-- The event is the arrival of a `SYNC` frame. -/
def Zdarzenie.jestSYNC : Zdarzenie → Bool
  | .odebrano _ msg => decide (msg.take 4 = "SYNC".toList)
  | _ => false

/-- The text begins with a decimal number as `strtoul` reads one: after
optional white space and an optional sign comes a digit. -/
def zaczynaSieLiczba (s : Text) : Bool :=
  match (scanSign (s.dropWhile isspace)).2 with
  | c :: _ => isdigit c
  | [] => false

end Czujnik

namespace Kurnik

/-- Number of fields `sscanf` assigns from the payload of a `KURA` frame. -/
def kuraParseCount (msg : Text) : Nat := (sscanf (msg.drop 5) kuraFormat).length

/-- The substring of a text after its last `;` (the whole text when it holds
none). -/
def afterLastSemicolon (s : Text) : Text :=
  (s.reverse.takeWhile (fun c => c != ';')).reverse

/-- The substring of a text after its `n`-th `;` (empty when it holds fewer). -/
def afterSemicolons : Nat → Text → Text
  | 0, s => s
  | n + 1, s =>
    match s.dropWhile (fun c => c != ';') with
    | [] => []
    | _ :: t => afterSemicolons n t

end Kurnik

/-! ## Persistent memory -/

namespace Kurnik

/-- The EEPROM: the byte stored at each address. -/
structure EEPROM where
  bajt : Nat → Nat

/-- `EEPROM.read`: the byte at the address. -/
def EEPROM.read (e : EEPROM) (address : Nat) : Nat := e.bajt address % 256

/-- `EEPROM.write`: the value, as a `uint8_t`, is stored at the address. -/
def EEPROM.write (e : EEPROM) (address : Nat) (value : Nat) : EEPROM :=
  { bajt := fun a => if a = address then value % 256 else e.bajt a }

/-- An erased EEPROM: every byte is `0xFF`. -/
def EEPROM.pusta : EEPROM := { bajt := fun _ => 255 }

/-- The bytes of a text written from `address` on, one `EEPROM.write` each. -/
def zapiszBajty (e : EEPROM) (address : Nat) : Text → EEPROM
  | [] => e
  | c :: t => zapiszBajty (e.write address c.toNat) (address + 1) t

/-- `count` bytes of value 0 written from `address` on. -/
def zerujBajty (e : EEPROM) (address : Nat) : Nat → EEPROM
  | 0 => e
  | count + 1 => zerujBajty (e.write address 0) (address + 1) count

/-- The bytes at `address`, `address + 1`, ..., `count` of them. -/
def czytajBajty (e : EEPROM) (address : Nat) (count : Nat) : List Nat :=
  (List.range count).map (fun i => e.read (address + i))

/-- The C string a `char` buffer holds: the characters before the first NUL. -/
def cstr (bytes : List Nat) : Text := (bytes.takeWhile (fun b => b != 0)).map Char.ofNat

/-- `strlen`: the number of characters before the first NUL. -/
def strlen (s : Text) : Nat := (s.takeWhile (fun c => c != Char.ofNat 0)).length

/-- A text a C string can hold: bytes other than NUL. -/
def jestCString (s : Text) : Prop := ∀ c ∈ s, 0 < c.toNat ∧ c.toNat < 256

instance (s : Text) : Decidable (jestCString s) := by unfold jestCString; infer_instance

/-! ### The credentials of the hub -/

def SSID_MAX : Nat := 32
def PASS_MAX : Nat := 64
def SSID_LEN_ADDR : Nat := 0
def SSID_ADDR : Nat := 1
def PASS_LEN_ADDR : Nat := SSID_ADDR + SSID_MAX
def PASS_ADDR : Nat := PASS_LEN_ADDR + 1

/-- The credential globals of the hub: the C strings in `wifi_ssid[33]` and
`wifi_password[65]`, and the flag `wifiConfigured`. -/
structure Wifi where
  wifi_ssid : Text
  wifi_password : Text
  wifiConfigured : Bool
  deriving DecidableEq

/-- `WczytanieDanychEEPROM`: the answer and the globals afterwards. -/
def WczytanieDanychEEPROM (e : EEPROM) (w : Wifi) : Bool × Wifi :=
  let ssid_len := e.read SSID_LEN_ADDR
  if ssid_len = 255 ∨ ssid_len = 0 ∨ ssid_len > SSID_MAX then (false, w)
  else
    let wifi_ssid := czytajBajty e SSID_ADDR (min ssid_len SSID_MAX)
    let pass_len := e.read PASS_LEN_ADDR
    let pass_len := if pass_len = 255 ∨ pass_len > PASS_MAX then 0 else pass_len
    let wifi_password := czytajBajty e PASS_ADDR (min pass_len PASS_MAX)
    (true,
      { wifi_ssid := cstr wifi_ssid
        wifi_password := cstr wifi_password
        wifiConfigured := true })

/-- `ZapiszDaneDoEEPROM`: the lengths are `byte`s, capped at the two maxima. -/
def ZapiszDaneDoEEPROM (e : EEPROM) (w : Wifi) : EEPROM :=
  let ssid_len := strlen w.wifi_ssid % 256
  let ssid_len := if ssid_len > SSID_MAX then SSID_MAX else ssid_len
  let e1 := e.write SSID_LEN_ADDR ssid_len
  let e2 := zapiszBajty e1 SSID_ADDR (w.wifi_ssid.take ssid_len)
  let pass_len := strlen w.wifi_password % 256
  let pass_len := if pass_len > PASS_MAX then PASS_MAX else pass_len
  let e3 := e2.write PASS_LEN_ADDR pass_len
  zapiszBajty e3 PASS_ADDR (w.wifi_password.take pass_len)

/-- `ResetPamiec`: both lengths become `0xFF`, the two texts are zeroed. -/
def ResetPamiec (e : EEPROM) : EEPROM :=
  let e1 := e.write SSID_LEN_ADDR 255
  let e2 := e1.write PASS_LEN_ADDR 255
  let e3 := zerujBajty e2 SSID_ADDR SSID_MAX
  zerujBajty e3 PASS_ADDR PASS_MAX

/-! ### The root directory of the storage card -/

/-- An entry of the root directory: what `file.name()` and
`file.isDirectory()` answer, and the content of a file. -/
structure Wpis where
  name : Text
  isDirectory : Bool
  zawartosc : Text
  deriving DecidableEq

/-- The path `WyczyscKarteSD` uses for an entry: the name, with `/` in front
unless it starts with one. -/
def sciezka (fileName : Text) : Text :=
  match fileName with
  | '/' :: _ => fileName
  | _ => '/' :: fileName

/-- The collecting loop of `WyczyscKarteSD`: it runs while there is a next
entry and fewer than 50 names are collected; directories are skipped. -/
def zbierzPliki : List Wpis → List Text → List Text
  | [], plikiDoUsuniecia => plikiDoUsuniecia
  | file :: rest, plikiDoUsuniecia =>
    if plikiDoUsuniecia.length < 50 then
      if !file.isDirectory then zbierzPliki rest (plikiDoUsuniecia ++ [sciezka file.name])
      else zbierzPliki rest plikiDoUsuniecia
    else plikiDoUsuniecia

/-- `deleteFile` on the root directory: the file at the path is removed. -/
def deleteFileKarta (katalog : List Wpis) (path : Text) : List Wpis :=
  katalog.filter (fun w => w.isDirectory || decide (sciezka w.name ≠ path))

/-- `WyczyscKarteSD`.  The card is `none` when its root directory cannot be
opened. -/
def WyczyscKarteSD (karta : Option (List Wpis)) : Option (List Wpis) :=
  match karta with
  | none => none
  | some root =>
    let plikiDoUsuniecia := zbierzPliki root []
    some (plikiDoUsuniecia.foldl deleteFileKarta root)

/-- The content of the file at a path of the root directory, `none` when there
is no such file. -/
def plik (karta : Option (List Wpis)) (path : Text) : Option Text :=
  match karta with
  | none => none
  | some root =>
    (root.find? (fun w => !w.isDirectory && decide (sciezka w.name = path))).map
      (fun w => w.zawartosc)

/-- The two queue files as the card holds them. -/
def kolejki (karta : Option (List Wpis)) : SD :=
  { backup_data := plik karta backup_path, transfer_waitlist := plik karta waitlist_path }

/-- Number of files (entries that are not directories) in the root directory. -/
def liczbaPlikow (karta : Option (List Wpis)) : Nat :=
  match karta with
  | none => 0
  | some root => (root.filter (fun w => !w.isDirectory)).length

/-- What the `reset` command acts on: the EEPROM, the storage card, the
credential globals and the topic. -/
structure Trwale where
  eeprom : EEPROM
  karta : Option (List Wpis)
  wifi : Wifi
  topic : Text

/-- `resetKurnik`, up to the restart: the EEPROM is reset, the card is
cleared, the globals are zeroed and the topic is the base topic again. -/
def resetKurnik (s : Trwale) : Trwale :=
  { eeprom := ResetPamiec s.eeprom
    karta := WyczyscKarteSD s.karta
    wifi := { wifi_ssid := [], wifi_password := [], wifiConfigured := false }
    topic := "kurnik/".toList }

/-- The globals of the hub after a restart. -/
def Wifi.boot : Wifi := { wifi_ssid := [], wifi_password := [], wifiConfigured := false }

/-- A card whose root directory lists `n` files `f0`, `f1`, ... in front of
the archive. -/
def kartaZPlikami (n : Nat) : Option (List Wpis) :=
  some ((List.range n).map (fun i => Wpis.mk ('f' :: natToText i) false []) ++
    [Wpis.mk "backup_data.txt".toList false "5;1.00\n".toList])

/-! ### The mesh name of the root -/

/-- `String::replace(":", "")`: the colons are removed. -/
def bezDwukropkow (macAddr : Text) : Text := macAddr.filter (fun c => c != ':')

/-- The mesh name the root hosts, `MESH_PREFIX` of `InicjalizacjaMesh`. -/
def MESH_PREFIX (macAddr : Text) : Text := "KurnikMesh_".toList ++ bezDwukropkow macAddr

/-- The tag id field of a `KURA` frame: the text between the first and the
second `;` of the payload. -/
def kuraTagField (msg : Text) : Text :=
  ((((msg.drop 5).dropWhile (fun c => c != ';')).drop 1).takeWhile (fun c => c != ';'))

end Kurnik

/-! ## The sensor leaf: persistent name and start-up -/

namespace Czujnik

open Kurnik

def EEPROM_SSID_ADDR : Nat := 0
def EEPROM_SSID_MAX_LEN : Nat := 64
def EEPROM_MAGIC_ADDR : Nat := 100
def EEPROM_MAGIC_VALUE : Nat := 171

/-- The writing loop of `zapiszSSIDDoEEPROM`: at index `i` the character of
the name, or 0 past its end. -/
def zapiszSSIDPetla (ssid : Text) (e : EEPROM) : Nat → Nat → EEPROM
  | _, 0 => e
  | i, n + 1 =>
    let e1 :=
      match ssid.get? i with
      | some c => e.write (EEPROM_SSID_ADDR + i) c.toNat
      | none => e.write (EEPROM_SSID_ADDR + i) 0
    zapiszSSIDPetla ssid e1 (i + 1) n

/-- `zapiszSSIDDoEEPROM` (pamiec.cpp): the magic value, then 64 bytes. -/
def zapiszSSIDDoEEPROM (e : EEPROM) (ssid : Text) : EEPROM :=
  let e1 := e.write EEPROM_MAGIC_ADDR EEPROM_MAGIC_VALUE
  zapiszSSIDPetla ssid e1 0 EEPROM_SSID_MAX_LEN

/-- The reading loop of `odczytajSSIDzEEPROM`: bytes are copied until a 0 is
read or 64 are. -/
def odczytajSSIDPetla (e : EEPROM) : Nat → Nat → List Nat
  | _, 0 => []
  | i, n + 1 =>
    let b := e.read (EEPROM_SSID_ADDR + i)
    if b = 0 then [] else b :: odczytajSSIDPetla e (i + 1) n

/-- `odczytajSSIDzEEPROM` (pamiec.cpp): empty without the magic value. -/
def odczytajSSIDzEEPROM (e : EEPROM) : Text :=
  if e.read EEPROM_MAGIC_ADDR ≠ EEPROM_MAGIC_VALUE then []
  else (odczytajSSIDPetla e 0 EEPROM_SSID_MAX_LEN).map Char.ofNat

/-- `wyczyscEEPROM` (pamiec.cpp): the magic value is overwritten with 0. -/
def wyczyscEEPROM (e : EEPROM) : EEPROM := e.write EEPROM_MAGIC_ADDR 0

/-- One network of a scan: `WiFi.SSID(i)`, `WiFi.RSSI(i)`, `WiFi.channel(i)`. -/
structure Siec where
  ssid : Text
  rssi : Int
  kanal : Int
  deriving DecidableEq

/-- `String::startsWith`. -/
def startsWith (s p : Text) : Bool := s.take p.length == p

/-- The name every mesh of the deployment starts with. -/
def KurnikMesh : Text := "KurnikMesh_".toList

/-- The scanning loop of `skanujSiecMesh` over the networks in scan order;
the state is `znaleziony_kanal`, `najlepsza_siec`, `najsilniejszy_rssi`. -/
def skanujPetla (szukaj_dowolnej : Bool) (mesh_ssid : Text) :
    List Siec → Int → Text → Int → Int × Text × Int
  | [], znaleziony_kanal, najlepsza_siec, najsilniejszy_rssi =>
    (znaleziony_kanal, najlepsza_siec, najsilniejszy_rssi)
  | n :: rest, znaleziony_kanal, najlepsza_siec, najsilniejszy_rssi =>
    if szukaj_dowolnej then
      if startsWith n.ssid KurnikMesh then
        if n.rssi > najsilniejszy_rssi then
          skanujPetla szukaj_dowolnej mesh_ssid rest n.kanal n.ssid n.rssi
        else
          skanujPetla szukaj_dowolnej mesh_ssid rest znaleziony_kanal najlepsza_siec
            najsilniejszy_rssi
      else
        skanujPetla szukaj_dowolnej mesh_ssid rest znaleziony_kanal najlepsza_siec
          najsilniejszy_rssi
    else
      if n.ssid = mesh_ssid then (n.kanal, najlepsza_siec, najsilniejszy_rssi)
      else
        skanujPetla szukaj_dowolnej mesh_ssid rest znaleziony_kanal najlepsza_siec
          najsilniejszy_rssi

/-- The tasks of the leaf. -/
inductive Zadanie where
  | taskWyslijOdczyt
  | taskZapytajCzas
  deriving DecidableEq

/-- The leaf while it starts: the EEPROM, the globals `mesh_ssid`,
`mesh_channel` and `polaczony_z_mesh`, the arguments of `mesh.init` once it
was called, the tasks added to the scheduler, and whether the send task is
enabled. -/
structure Start where
  eeprom : EEPROM
  mesh_ssid : Text
  mesh_channel : Int
  polaczony_z_mesh : Bool
  mesh_init : Option (Text × Int)
  zadania : List Zadanie
  taskWyslijOdczyt : Bool

/-- `skanujSiecMesh`: the value returned and the globals afterwards.  `sieci`
is what the scan found, in order. -/
def skanujSiecMesh (w : Start) (sieci : List Siec) : Int × Start :=
  let szukaj_dowolnej := decide (w.mesh_ssid.length = 0)
  let p := skanujPetla szukaj_dowolnej w.mesh_ssid sieci 0 [] (-100)
  let znaleziony_kanal := p.1
  let najlepsza_siec := p.2.1
  if szukaj_dowolnej then
    if znaleziony_kanal > 0 then
      (znaleziony_kanal, { w with mesh_ssid := najlepsza_siec, mesh_channel := znaleziony_kanal })
    else (znaleziony_kanal, { w with mesh_channel := 0 })
  else
    if znaleziony_kanal > 0 then (znaleziony_kanal, { w with mesh_channel := znaleziony_kanal })
    else (znaleziony_kanal, { w with mesh_channel := 0 })

/-- The part of `InicjalizacjaMesh` after the scan: `mesh.init` with the name
and the channel found, the wait for another node, the two tasks added to the
scheduler and the send task enabled. -/
def dolaczDoMesh (w : Start) (wykryto : Bool) : Start :=
  { w with
    mesh_init := some (w.mesh_ssid, w.mesh_channel)
    polaczony_z_mesh := w.polaczony_z_mesh || wykryto
    zadania := w.zadania ++ [Zadanie.taskWyslijOdczyt, Zadanie.taskZapytajCzas]
    taskWyslijOdczyt := true }

/-- `InicjalizacjaMesh` of the leaf.  `sieci` is what the scan finds,
`wykryto` whether another node shows up within the 15 seconds of waiting. -/
def InicjalizacjaMesh (w : Start) (sieci : List Siec) (wykryto : Bool) : Start :=
  let zapisany_ssid := odczytajSSIDzEEPROM w.eeprom
  if zapisany_ssid.length = 0 then
    let w1 : Start := { w with mesh_ssid := [] }
    let r := skanujSiecMesh w1 sieci
    let w2 : Start := { r.2 with mesh_channel := r.1 }
    if w2.mesh_channel = 0 ∨ w2.mesh_ssid.length = 0 then w2
    else dolaczDoMesh { w2 with eeprom := zapiszSSIDDoEEPROM w2.eeprom w2.mesh_ssid } wykryto
  else
    let w1 : Start := { w with mesh_ssid := zapisany_ssid }
    let r := skanujSiecMesh w1 sieci
    let w2 : Start := { r.2 with mesh_channel := r.1 }
    if w2.mesh_channel = 0 then w2
    else dolaczDoMesh w2 wykryto

/-- The leaf at power-up, with the EEPROM it finds. -/
def Start.boot (e : EEPROM) : Start :=
  { eeprom := e
    mesh_ssid := []
    mesh_channel := 0
    polaczony_z_mesh := false
    mesh_init := none
    zadania := []
    taskWyslijOdczyt := false }

/-- The networks of a scan whose name starts with `KurnikMesh_`. -/
def kandydaci (sieci : List Siec) : List Siec := sieci.filter (fun n => startsWith n.ssid KurnikMesh)

end Czujnik

/-! ## The durable queue -/

namespace Kurnik

theorem waitlist_path_ne_backup_path : waitlist_path ≠ backup_path := by decide

theorem appendFile_backup (sd : SD) (m : Text) :
    appendFile sd backup_path m =
      { sd with backup_data := some (sd.backup_data.getD [] ++ m) } := by
  simp [appendFile]

theorem appendFile_waitlist (sd : SD) (m : Text) :
    appendFile sd waitlist_path m =
      { sd with transfer_waitlist := some (sd.transfer_waitlist.getD [] ++ m) } := by
  simp [appendFile, waitlist_path_ne_backup_path]

theorem deleteFile_waitlist (sd : SD) :
    deleteFile sd waitlist_path = { sd with transfer_waitlist := none } := by
  simp [deleteFile, waitlist_path_ne_backup_path]

theorem pendingOf_cons (l : Text) (ls : List Text) :
    pendingOf (l :: ls) =
      if (trim l).length = 0 then pendingOf ls else trim l :: pendingOf ls := by
  unfold pendingOf
  by_cases h : (trim l).length = 0
  · simp [List.filter_cons, List.length_eq_zero.mp h]
  · have h2 : trim l ≠ [] := fun e => h (by simp [e])
    simp [List.filter_cons, h, h2]

theorem forwarded_length_le (pub : Nat → PublishResult) (ls : List Text) :
    ∀ k, (forwarded pub ls k).length ≤ ls.length := by
  induction ls with
  | nil => intro k; simp [forwarded]
  | cons l ls ih =>
    intro k
    unfold forwarded
    split
    · simpa using ih (k + 1)
    · exact Nat.le_succ_of_le (ih (k + 1))

theorem forwarded_all (pub : Nat → PublishResult) (hall : ∀ k, (pub k).ok) (ls : List Text) :
    ∀ k, forwarded pub ls k = ls := by
  induction ls with
  | nil => intro k; rfl
  | cons l ls ih =>
    intro k
    have hk := hall k
    unfold PublishResult.ok at hk
    simp [forwarded, hk, ih (k + 1)]

theorem forwarded_length_lt (pub : Nat → PublishResult) (ls : List Text) :
    ∀ k j, j < ls.length → ¬ (pub (k + j)).ok → (forwarded pub ls k).length < ls.length := by
  induction ls with
  | nil => intro k j hj; simp at hj
  | cons l ls ih =>
    intro k j hj hbad
    cases j with
    | zero =>
      have hb : ¬ ((pub k).packetId ≠ 0 ∧ (pub k).connected = true) := by
        simpa [PublishResult.ok] using hbad
      rw [forwarded, if_neg hb]
      exact Nat.lt_succ_of_le (forwarded_length_le pub ls (k + 1))
    | succ j =>
      have hj2 : j < ls.length := by simpa using hj
      have hbad2 : ¬ (pub (k + 1 + j)).ok := by
        have e : k + 1 + j = k + (j + 1) := by omega
        rw [e]; exact hbad
      have := ih (k + 1) j hj2 hbad2
      unfold forwarded
      split
      · simpa using this
      · exact Nat.lt_succ_of_lt this

theorem appendLines_eq (b : Option Text) (ls : List Text) (hne : ls ≠ []) :
    appendLines b ls = some (b.getD [] ++ joinLines ls) := by
  induction ls generalizing b with
  | nil => exact absurd rfl hne
  | cons l ls ih =>
    cases ls with
    | nil => simp [appendLines, joinLines]
    | cons l2 ls2 =>
      rw [appendLines, ih _ (by simp)]
      simp [joinLines]

theorem drainLoop_spec (pub : Nat → PublishResult) (ls : List Text) :
    ∀ (h : Hub) (s f : Nat),
      drainLoop pub ls h s f =
        ({ h with
            published := h.published ++ (pendingOf ls).map (fun l => (h.topic, l))
            sd := { backup_data :=
                      appendLines h.sd.backup_data (forwarded pub (pendingOf ls) (s + f))
                    transfer_waitlist := h.sd.transfer_waitlist } },
          s + (forwarded pub (pendingOf ls) (s + f)).length,
          f + ((pendingOf ls).length - (forwarded pub (pendingOf ls) (s + f)).length)) := by
  induction ls with
  | nil => intro h s f; simp [drainLoop, pendingOf, forwarded, appendLines]
  | cons l ls ih =>
    intro h s f
    rw [drainLoop, pendingOf_cons]
    by_cases hl : (trim l).length = 0
    · simp only [hl, if_true]
      exact ih h s f
    · simp only [hl, if_false]
      have hle := forwarded_length_le pub (pendingOf ls) (s + (f + 1))
      by_cases hr : (pub (s + f)).packetId ≠ 0 ∧ (pub (s + f)).connected = true
      · simp only [hr, and_self, if_true, ne_eq, not_false_eq_true]
        rw [ih]
        simp [forwarded, hr, appendLines, appendFile_backup, Nat.add_right_comm, Nat.add_assoc]
        omega
      · simp only [hr, if_false]
        rw [ih]
        simp [forwarded, hr, appendLines, Nat.add_right_comm, Nat.add_assoc]
        omega

/-- The drain when the client is not connected at entry: only the call is
recorded. -/
theorem PonowWyslijZKolejki_disconnected (h : Hub) (pub : Nat → PublishResult) :
    PonowWyslijZKolejki h false pub =
      { h with calls := h.calls ++ [Call.PonowWyslijZKolejki] } := by
  simp [PonowWyslijZKolejki]

/-- The drain when there is no waitlist file: only the call is recorded. -/
theorem PonowWyslijZKolejki_missing (h : Hub) (c : Bool) (pub : Nat → PublishResult)
    (hw : h.sd.transfer_waitlist = none) :
    PonowWyslijZKolejki h c pub =
      { h with calls := h.calls ++ [Call.PonowWyslijZKolejki] } := by
  cases c <;> simp [PonowWyslijZKolejki, hw]

/-- The drain of a waitlist `w` with the client connected at entry. -/
theorem PonowWyslijZKolejki_connected (h : Hub) (pub : Nat → PublishResult) (w : Text)
    (hw : h.sd.transfer_waitlist = some w) :
    PonowWyslijZKolejki h true pub =
      { h with
        calls := h.calls ++ [Call.PonowWyslijZKolejki]
        published := h.published ++ (pendingLines w).map (fun l => (h.topic, l))
        sd := { backup_data := appendLines h.sd.backup_data (forwarded pub (pendingLines w) 0)
                transfer_waitlist :=
                  if pendingLines w ≠ [] ∧
                      (forwarded pub (pendingLines w) 0).length = (pendingLines w).length
                  then none else some w } } := by
  have hle := forwarded_length_le pub (pendingLines w) 0
  have hpos : (pendingLines w ≠ []) ↔ 0 < (pendingLines w).length := by
    rw [List.length_pos]
  unfold PonowWyslijZKolejki
  simp only [Bool.not_true, Bool.false_eq_true, if_false, hw, drainLoop_spec, Nat.add_zero,
    Nat.zero_add, deleteFile_waitlist]
  unfold pendingLines at *
  by_cases hc : pendingOf (readLines w []) ≠ [] ∧
      (forwarded pub (pendingOf (readLines w [])) 0).length = (pendingOf (readLines w [])).length
  · have h1 : 0 < (forwarded pub (pendingOf (readLines w [])) 0).length ∧
        (pendingOf (readLines w [])).length -
          (forwarded pub (pendingOf (readLines w [])) 0).length = 0 := by
      have := hpos.mp hc.1
      omega
    rw [if_pos h1, if_pos hc]
  · have h1 : ¬ (0 < (forwarded pub (pendingOf (readLines w [])) 0).length ∧
        (pendingOf (readLines w [])).length -
          (forwarded pub (pendingOf (readLines w [])) 0).length = 0) := by
      intro hh
      apply hc
      constructor
      · rw [hpos]; omega
      · omega
    rw [if_neg h1, if_neg hc]

theorem PonowWyslijZKolejki_calls (h : Hub) (c : Bool) (pub : Nat → PublishResult) :
    (PonowWyslijZKolejki h c pub).calls = h.calls ++ [Call.PonowWyslijZKolejki] := by
  cases c
  · rw [PonowWyslijZKolejki_disconnected]
  · cases hw : h.sd.transfer_waitlist with
    | none => rw [PonowWyslijZKolejki_missing h true pub hw]
    | some w => rw [PonowWyslijZKolejki_connected h pub w hw]

theorem PonowWyslijZKolejki_latch (h : Hub) (c : Bool) (pub : Nat → PublishResult) :
    (PonowWyslijZKolejki h c pub).mqttByloPolaczone = h.mqttByloPolaczone := by
  cases c
  · rw [PonowWyslijZKolejki_disconnected]
  · cases hw : h.sd.transfer_waitlist with
    | none => rw [PonowWyslijZKolejki_missing h true pub hw]
    | some w => rw [PonowWyslijZKolejki_connected h pub w hw]

/-- C1. After the drain returns, either the waitlist file is exactly what it
was before, or it was deleted; and it is deleted only when every line of the
pre-drain waitlist that is non-empty after trimming was appended to the
archive (trimmed, followed by a newline, in file order).  This holds for every
waitlist content, every broker state at entry and every pattern of forward
outcomes. -/
theorem drain_keeps_every_line (h : Hub) (connected : Bool) (pub : Nat → PublishResult) :
    (PonowWyslijZKolejki h connected pub).sd.transfer_waitlist = h.sd.transfer_waitlist ∨
      ((PonowWyslijZKolejki h connected pub).sd.transfer_waitlist = none ∧
        ∃ w, h.sd.transfer_waitlist = some w ∧
          (PonowWyslijZKolejki h connected pub).sd.backup_data =
            some (h.sd.backup_data.getD [] ++ joinLines (pendingLines w))) := by
  cases connected
  · left; rw [PonowWyslijZKolejki_disconnected]
  · cases hw : h.sd.transfer_waitlist with
    | none => left; rw [PonowWyslijZKolejki_missing h true pub hw, ← hw]
    | some w =>
      rw [PonowWyslijZKolejki_connected h pub w hw]
      by_cases hc : pendingLines w ≠ [] ∧
          (forwarded pub (pendingLines w) 0).length = (pendingLines w).length
      · right
        refine ⟨by simp only [if_pos hc], w, rfl, ?_⟩
        have hall : forwarded pub (pendingLines w) 0 = pendingLines w := by
          have hsub : List.Sublist (forwarded pub (pendingLines w) 0) (pendingLines w) := by
            generalize pendingLines w = ls
            generalize 0 = k
            induction ls generalizing k with
            | nil => simp [forwarded]
            | cons l ls ih =>
              unfold forwarded
              split
              · exact (ih (k + 1)).cons₂ l
              · exact (ih (k + 1)).cons l
          exact hsub.eq_of_length hc.2
        simp only [hall]
        exact appendLines_eq _ _ hc.1
      · left
        simp only [if_neg hc]

/-- C9, as stated, fails: a waitlist whose single non-empty line ends in a
space is archived without that space, so the archive is not its previous
content followed by the line itself; and a waitlist whose single non-empty
line is one space is not attempted, so the waitlist file stays. -/
theorem drain_archives_trimmed_line :
    readLines "5;1.50;2.50;3;4;5;t \n".toList [] = ["5;1.50;2.50;3;4;5;t ".toList] ∧
      (PonowWyslijZKolejki (hubWith (some []) (some "5;1.50;2.50;3;4;5;t \n".toList))
          true pubOk).sd.backup_data = some "5;1.50;2.50;3;4;5;t\n".toList ∧
      (PonowWyslijZKolejki (hubWith (some []) (some "5;1.50;2.50;3;4;5;t \n".toList))
          true pubOk).sd.backup_data ≠
        some ([] ++ joinLines (readLines "5;1.50;2.50;3;4;5;t \n".toList [])) ∧
      readLines " \n".toList [] = [" ".toList] ∧
      (PonowWyslijZKolejki (hubWith (some []) (some " \n".toList))
          true pubOk).sd.transfer_waitlist = some " \n".toList := by
  decide

/-- C9, amended.  For every waitlist holding at least one line that is
non-empty after trimming, if the broker is connected and every forward attempt
succeeds, then after the drain the archive is its previous content followed by
those lines, each trimmed and terminated by a newline, in waitlist order, and
the waitlist file is deleted. -/
theorem drain_all_forwarded (h : Hub) (w : Text) (pub : Nat → PublishResult)
    (hw : h.sd.transfer_waitlist = some w) (hne : pendingLines w ≠ [])
    (hall : ∀ k, (pub k).ok) :
    (PonowWyslijZKolejki h true pub).sd.backup_data =
        some (h.sd.backup_data.getD [] ++ joinLines (pendingLines w)) ∧
      (PonowWyslijZKolejki h true pub).sd.transfer_waitlist = none := by
  rw [PonowWyslijZKolejki_connected h pub w hw, forwarded_all pub hall]
  exact ⟨appendLines_eq _ _ hne, by simp [hne]⟩

/-- Scenario D: three lines, all forwarded. -/
theorem drain_all_forwarded_witness :
    (hubWith (some "x\n".toList) (some "a;1\nb;2\nc;3\n".toList)).sd.transfer_waitlist =
        some "a;1\nb;2\nc;3\n".toList ∧
      pendingLines "a;1\nb;2\nc;3\n".toList ≠ [] ∧
      (∀ k, (pubOk k).ok) ∧
      ((PonowWyslijZKolejki (hubWith (some "x\n".toList) (some "a;1\nb;2\nc;3\n".toList))
            true pubOk).sd.backup_data =
          some ((hubWith (some "x\n".toList)
              (some "a;1\nb;2\nc;3\n".toList)).sd.backup_data.getD [] ++
            joinLines (pendingLines "a;1\nb;2\nc;3\n".toList)) ∧
        (PonowWyslijZKolejki (hubWith (some "x\n".toList) (some "a;1\nb;2\nc;3\n".toList))
            true pubOk).sd.transfer_waitlist = none) :=
  ⟨rfl, by decide, fun _ => ⟨Nat.one_ne_zero, rfl⟩,
    drain_all_forwarded _ _ pubOk rfl (by decide) (fun _ => ⟨Nat.one_ne_zero, rfl⟩)⟩

/-- C10. When at least one forward attempt of a drain fails, the waitlist file
after the drain is the file before it; the lines forwarded in that pass were
appended to the archive all the same. -/
theorem drain_failure_keeps_waitlist (h : Hub) (w : Text) (pub : Nat → PublishResult)
    (k : Nat) (hw : h.sd.transfer_waitlist = some w) (hk : k < (pendingLines w).length)
    (hbad : ¬ (pub k).ok) :
    (PonowWyslijZKolejki h true pub).sd.transfer_waitlist = some w ∧
      (PonowWyslijZKolejki h true pub).sd.backup_data =
        appendLines h.sd.backup_data (forwarded pub (pendingLines w) 0) := by
  rw [PonowWyslijZKolejki_connected h pub w hw]
  have hlt := forwarded_length_lt pub (pendingLines w) 0 k hk (by simpa using hbad)
  refine ⟨?_, rfl⟩
  have hc : ¬ (pendingLines w ≠ [] ∧
      (forwarded pub (pendingLines w) 0).length = (pendingLines w).length) := by
    intro hh; omega
  simp only [if_neg hc]

/-- Two lines, the second forward fails: the first line is archived and stays
in the waitlist. -/
theorem drain_failure_keeps_waitlist_witness :
    (hubWith (some []) (some "a;1\nb;2\n".toList)).sd.transfer_waitlist =
        some "a;1\nb;2\n".toList ∧
      1 < (pendingLines "a;1\nb;2\n".toList).length ∧
      ¬ (PublishResult.mk (if 1 = 1 then 0 else 1) true).ok ∧
      ((PonowWyslijZKolejki (hubWith (some []) (some "a;1\nb;2\n".toList)) true
            (fun k => PublishResult.mk (if k = 1 then 0 else 1) true)).sd.transfer_waitlist =
          some "a;1\nb;2\n".toList ∧
        (PonowWyslijZKolejki (hubWith (some []) (some "a;1\nb;2\n".toList)) true
            (fun k => PublishResult.mk (if k = 1 then 0 else 1) true)).sd.backup_data =
          appendLines (hubWith (some []) (some "a;1\nb;2\n".toList)).sd.backup_data
            (forwarded (fun k => PublishResult.mk (if k = 1 then 0 else 1) true)
              (pendingLines "a;1\nb;2\n".toList) 0)) :=
  ⟨rfl, by decide, by decide,
    drain_failure_keeps_waitlist _ _ _ 1 rfl (by decide) (by decide)⟩

/-! ## The publish bridge -/

/-- An optional text never equals itself extended by a line. -/
theorem option_ne_append_line (b : Option Text) (m : Text) :
    b ≠ some (b.getD [] ++ m ++ ['\n']) := by
  intro hb
  cases b with
  | none => simp at hb
  | some x =>
    have := congrArg (fun o => (o.getD []).length) hb
    simp at this

/-- A publish that succeeded appends the line to the archive only. -/
theorem WyslijPakiet_ok (h : Hub) (pakiet : Pakiet_Danych) (r : PublishResult) (hr : r.ok) :
    (WyslijPakiet h pakiet r).sd.backup_data =
        some (h.sd.backup_data.getD [] ++ snprintf 150 (csvLine pakiet) ++ ['\n']) ∧
      (WyslijPakiet h pakiet r).sd.transfer_waitlist = h.sd.transfer_waitlist := by
  have hr2 := hr
  unfold PublishResult.ok at hr2
  simp [WyslijPakiet, ZapiszDanePakiet, hr2.1, hr2.2, appendFile_backup]

/-- A publish that did not succeed appends the line to the waitlist only. -/
theorem WyslijPakiet_not_ok (h : Hub) (pakiet : Pakiet_Danych) (r : PublishResult)
    (hr : ¬ r.ok) :
    (WyslijPakiet h pakiet r).sd.transfer_waitlist =
        some (h.sd.transfer_waitlist.getD [] ++ snprintf 150 (csvLine pakiet) ++ ['\n']) ∧
      (WyslijPakiet h pakiet r).sd.backup_data = h.sd.backup_data := by
  have hr3 : ¬ (¬ r.packetId = 0 ∧ r.connected = true) := hr
  simp [WyslijPakiet, ZapiszDanePakiet, hr3, appendFile_waitlist]

/-- C6. `WyslijPakiet` records the line in the archive exactly when the publish
call returned a non-zero packet id and the client reports connected right after
the call; in every other case, a non-zero packet id with the client
disconnected included, the line is recorded in the waitlist. -/
theorem WyslijPakiet_forwarded_iff (h : Hub) (pakiet : Pakiet_Danych) (r : PublishResult) :
    (r.ok →
        (WyslijPakiet h pakiet r).sd.backup_data =
            some (h.sd.backup_data.getD [] ++ snprintf 150 (csvLine pakiet) ++ ['\n']) ∧
          (WyslijPakiet h pakiet r).sd.transfer_waitlist = h.sd.transfer_waitlist) ∧
      (¬ r.ok →
        (WyslijPakiet h pakiet r).sd.transfer_waitlist =
            some (h.sd.transfer_waitlist.getD [] ++ snprintf 150 (csvLine pakiet) ++ ['\n']) ∧
          (WyslijPakiet h pakiet r).sd.backup_data = h.sd.backup_data) ∧
      ((WyslijPakiet h pakiet r).sd.backup_data =
          some (h.sd.backup_data.getD [] ++ snprintf 150 (csvLine pakiet) ++ ['\n']) ↔ r.ok) := by
  refine ⟨WyslijPakiet_ok h pakiet r, WyslijPakiet_not_ok h pakiet r, fun hb => ?_,
    fun hr => (WyslijPakiet_ok h pakiet r hr).1⟩
  by_contra hr
  rw [(WyslijPakiet_not_ok h pakiet r hr).2] at hb
  exact option_ne_append_line _ _ hb

/-! ## The connection monitor -/

theorem drainCount_PonowWyslijZKolejki (h : Hub) (c : Bool) (pub : Nat → PublishResult) :
    drainCount (PonowWyslijZKolejki h c pub) = drainCount h + 1 := by
  simp [drainCount, PonowWyslijZKolejki_calls]

/-- A connection check that sees the broker connected while the latch is set
only attempts an uplink reconnect when the uplink is down. -/
theorem monitor_latched (h : Hub) (e : MonitorEnv) (hl : h.mqttByloPolaczone = true)
    (he : e.mqtt = true) :
    monitorPolaczenCallback h e = if e.wifi then h else PolaczZWiFi h := by
  cases hw : e.wifi <;> simp [monitorPolaczenCallback, hw, he, hl, PolaczZWiFi]

/-- A connection check that sees the broker connected while the latch is clear
sets the latch and calls the drain. -/
theorem monitor_edge (h : Hub) (e : MonitorEnv) (hl : h.mqttByloPolaczone = false)
    (he : e.mqtt = true) :
    (monitorPolaczenCallback h e).mqttByloPolaczone = true ∧
      drainCount (monitorPolaczenCallback h e) = drainCount h + 1 := by
  cases hw : e.wifi <;>
    simp [monitorPolaczenCallback, hw, he, hl, PolaczZWiFi, PonowWyslijZKolejki_latch,
      drainCount_PonowWyslijZKolejki] <;>
    simp [drainCount]

/-- C7. With the latch clear, two consecutive connection checks that both see
the broker connected call the drain exactly once in total: the first calls it
and sets the latch, the second leaves the hub as it is (but for an uplink
reconnect attempt when the uplink is down). -/
theorem monitor_edge_triggered (h : Hub) (e1 e2 : MonitorEnv)
    (hl : h.mqttByloPolaczone = false) (h1 : e1.mqtt = true) (h2 : e2.mqtt = true) :
    drainCount (monitorPolaczenCallback h e1) = drainCount h + 1 ∧
      (monitorPolaczenCallback h e1).mqttByloPolaczone = true ∧
      monitorPolaczenCallback (monitorPolaczenCallback h e1) e2 =
        (if e2.wifi then monitorPolaczenCallback h e1
          else PolaczZWiFi (monitorPolaczenCallback h e1)) ∧
      drainCount (monitorPolaczenCallback (monitorPolaczenCallback h e1) e2) =
        drainCount h + 1 := by
  obtain ⟨ha, hb⟩ := monitor_edge h e1 hl h1
  have hc := monitor_latched (monitorPolaczenCallback h e1) e2 ha h2
  refine ⟨hb, ha, hc, ?_⟩
  rw [hc]
  cases e2.wifi
  · simpa [PolaczZWiFi, drainCount] using hb
  · simpa using hb

/-- Two checks with uplink and broker up, on a hub with a one-line waitlist. -/
theorem monitor_edge_triggered_witness :
    (hubWith (some []) (some "a;1\n".toList)).mqttByloPolaczone = false ∧
      envConnected.mqtt = true ∧ envConnected.mqtt = true ∧
      (drainCount (monitorPolaczenCallback (hubWith (some []) (some "a;1\n".toList))
            envConnected) =
          drainCount (hubWith (some []) (some "a;1\n".toList)) + 1 ∧
        (monitorPolaczenCallback (hubWith (some []) (some "a;1\n".toList))
            envConnected).mqttByloPolaczone = true ∧
        monitorPolaczenCallback
            (monitorPolaczenCallback (hubWith (some []) (some "a;1\n".toList)) envConnected)
            envConnected =
          (if envConnected.wifi then
            monitorPolaczenCallback (hubWith (some []) (some "a;1\n".toList)) envConnected
          else
            PolaczZWiFi
              (monitorPolaczenCallback (hubWith (some []) (some "a;1\n".toList))
                envConnected)) ∧
        drainCount
            (monitorPolaczenCallback
              (monitorPolaczenCallback (hubWith (some []) (some "a;1\n".toList)) envConnected)
              envConnected) =
          drainCount (hubWith (some []) (some "a;1\n".toList)) + 1) :=
  ⟨rfl, rfl, rfl, monitor_edge_triggered _ envConnected envConnected rfl rfl rfl⟩

theorem runChecks_latched (es : List MonitorEnv) :
    ∀ h : Hub, h.mqttByloPolaczone = true → (∀ e ∈ es, e.mqtt = true) →
      drainCount (runChecks es h) = drainCount h := by
  induction es with
  | nil => intro h _ _; rfl
  | cons e es ih =>
    intro h hl hall
    have he : e.mqtt = true := hall e (by simp)
    have hes : ∀ x ∈ es, x.mqtt = true := fun x hx => hall x (by simp [hx])
    rw [runChecks, monitor_latched h e hl he]
    cases e.wifi
    · simpa [PolaczZWiFi, drainCount] using ih (PolaczZWiFi h) hl hes
    · simpa using ih h hl hes

theorem setup_connected (h : Hub) (env : SetupEnv) (hm : env.mqtt = true)
    (hw : env.had = true → env.wifi = true) :
    (setup h env).mqttByloPolaczone = h.mqttByloPolaczone ∧
      drainCount (setup h env) = drainCount h + 1 := by
  cases hh : env.had
  · simp [setup, hh, hm, PolaczDoMQTT, PonowWyslijZKolejki_latch,
      drainCount_PonowWyslijZKolejki]
    simp [drainCount]
  · simp [setup, hh, hm, hw hh, PolaczDoMQTT, PolaczZWiFi, PonowWyslijZKolejki_latch,
      drainCount_PonowWyslijZKolejki]
    simp [drainCount]

/-- C8, the code at the failing run.  The hub boots with the latch clear; the
broker is connected at start-up, so `setup` drains; the broker stays connected
at every later connection check.  The first check finds the latch still clear
and drains again: two drains in all, whatever the number of checks, where the
claim has one. -/
theorem startup_connected_drains_twice (h : Hub) (env : SetupEnv) (e : MonitorEnv)
    (es : List MonitorEnv) (hl : h.mqttByloPolaczone = false) (hm : env.mqtt = true)
    (hw : env.had = true → env.wifi = true) (he : e.mqtt = true)
    (hes : ∀ x ∈ es, x.mqtt = true) :
    drainCount (setup h env) = drainCount h + 1 ∧
      drainCount (runChecks (e :: es) (setup h env)) = drainCount h + 2 := by
  obtain ⟨hs1, hs2⟩ := setup_connected h env hm hw
  refine ⟨hs2, ?_⟩
  obtain ⟨ha, hb⟩ := monitor_edge (setup h env) e (by rw [hs1, hl]) he
  rw [runChecks, runChecks_latched es _ ha hes, hb, hs2]

/-- The failing run with three connection checks. -/
theorem startup_connected_drains_twice_witness :
    (hubWith (some []) (some [])).mqttByloPolaczone = false ∧
      setupConnected.mqtt = true ∧
      (setupConnected.had = true → setupConnected.wifi = true) ∧
      envConnected.mqtt = true ∧
      (∀ x ∈ [envConnected, envConnected], x.mqtt = true) ∧
      (drainCount (setup (hubWith (some []) (some [])) setupConnected) =
          drainCount (hubWith (some []) (some [])) + 1 ∧
        drainCount
            (runChecks (envConnected :: [envConnected, envConnected])
              (setup (hubWith (some []) (some [])) setupConnected)) =
          drainCount (hubWith (some []) (some [])) + 2) :=
  ⟨rfl, rfl, fun _ => rfl, rfl, fun x hx => by
      simp only [List.mem_cons, List.mem_singleton, List.not_mem_nil, or_false, or_self] at hx
      rw [hx]; rfl,
    startup_connected_drains_twice _ setupConnected envConnected [envConnected, envConnected]
      rfl rfl (fun _ => rfl) rfl (fun x hx => by
        simp only [List.mem_cons, List.mem_singleton, List.not_mem_nil, or_false,
          or_self] at hx
        rw [hx]; rfl)⟩

/-! ## Telemetry frames at the root -/

theorem dekodujDANE_isSome (msg : Text) (hc : 6 ≤ daneParseCount msg) :
    ∃ p, dekodujDANE msg = some p := by
  unfold daneParseCount at hc
  simp only [dekodujDANE, if_pos hc]
  exact ⟨_, rfl⟩

theorem receivedCallback_DANE (h : Hub) (msg : Text) (r : PublishResult) (akt_czas : Nat)
    (p : Pakiet_Danych) (ht : msg.take 4 = "DANE".toList) (hd : dekodujDANE msg = some p) :
    receivedCallback h msg r akt_czas = WyslijPakiet h p r := by
  simp [receivedCallback, ht, hd]

/-- C2, as stated, fails: the frame `DANE;5;1.5;2.5;3;4;5;t` parses to six
fields and is forwarded, and the line archived is `5;1.50;2.50;3;4;5;t`, not
the payload `5;1.5;2.5;3;4;5;t`. -/
theorem DANE_payload_not_verbatim :
    6 ≤ daneParseCount "DANE;5;1.5;2.5;3;4;5;t".toList ∧
      (receivedCallback (hubWith (some []) (some [])) "DANE;5;1.5;2.5;3;4;5;t".toList
          (PublishResult.mk 1 true) 0).sd.backup_data = some "5;1.50;2.50;3;4;5;t\n".toList ∧
      (receivedCallback (hubWith (some []) (some [])) "DANE;5;1.5;2.5;3;4;5;t".toList
          (PublishResult.mk 1 true) 0).sd.backup_data ≠
        some ([] ++ "5;1.5;2.5;3;4;5;t".toList ++ ['\n']) := by
  decide

/-- C2, amended.  For every `DANE` frame whose payload parses to at least six
fields, if the publish call returns a non-zero packet id and the broker reports
connected, then the decoded record, printed again by `WyslijPakiet` as
`%d;%.2f;%.2f;%d;%d;%d;%s` into its 150-byte buffer and followed by a newline,
is appended to the archive, and the waitlist is unchanged. -/
theorem DANE_forwarded_archived (h : Hub) (msg : Text) (r : PublishResult) (akt_czas : Nat)
    (ht : msg.take 4 = "DANE".toList) (hc : 6 ≤ daneParseCount msg) (hr : r.ok) :
    ∃ p, dekodujDANE msg = some p ∧
      (receivedCallback h msg r akt_czas).sd.backup_data =
        some (h.sd.backup_data.getD [] ++ snprintf 150 (csvLine p) ++ ['\n']) ∧
      (receivedCallback h msg r akt_czas).sd.transfer_waitlist = h.sd.transfer_waitlist := by
  obtain ⟨p, hp⟩ := dekodujDANE_isSome msg hc
  refine ⟨p, hp, ?_⟩
  rw [receivedCallback_DANE h msg r akt_czas p ht hp]
  exact WyslijPakiet_ok h p r hr

/-- Scenario B: for the frame of the scenario the line archived is the payload
itself. -/
theorem DANE_forwarded_archived_witness :
    ("DANE;5;22.32;61.65;1220;15;51;15:55:06 Wed, Jan 07 2026".toList).take 4 =
        "DANE".toList ∧
      6 ≤ daneParseCount "DANE;5;22.32;61.65;1220;15;51;15:55:06 Wed, Jan 07 2026".toList ∧
      (PublishResult.mk 1 true).ok ∧
      (∃ p, dekodujDANE "DANE;5;22.32;61.65;1220;15;51;15:55:06 Wed, Jan 07 2026".toList =
          some p ∧
        (receivedCallback (hubWith (some []) (some []))
            "DANE;5;22.32;61.65;1220;15;51;15:55:06 Wed, Jan 07 2026".toList
            (PublishResult.mk 1 true) 0).sd.backup_data =
          some ((hubWith (some []) (some [])).sd.backup_data.getD [] ++
            snprintf 150 (csvLine p) ++ ['\n']) ∧
        (receivedCallback (hubWith (some []) (some []))
            "DANE;5;22.32;61.65;1220;15;51;15:55:06 Wed, Jan 07 2026".toList
            (PublishResult.mk 1 true) 0).sd.transfer_waitlist =
          (hubWith (some []) (some [])).sd.transfer_waitlist) ∧
      (receivedCallback (hubWith (some []) (some []))
          "DANE;5;22.32;61.65;1220;15;51;15:55:06 Wed, Jan 07 2026".toList
          (PublishResult.mk 1 true) 0).sd.backup_data =
        some "5;22.32;61.65;1220;15;51;15:55:06 Wed, Jan 07 2026\n".toList :=
  ⟨by decide, by decide, by decide,
    DANE_forwarded_archived _ _ _ 0 (by decide) (by decide) (by decide), by decide⟩

/-- C3. For every `DANE` frame whose payload parses to at least six fields, if
the broker reports disconnected at the forward attempt, then the line a
successful forward would have appended to the archive is appended, with its
newline, to the waitlist, and the archive is unchanged. -/
theorem DANE_disconnected_waitlisted (h : Hub) (msg : Text) (r rOk : PublishResult)
    (akt_czas : Nat) (ht : msg.take 4 = "DANE".toList) (hc : 6 ≤ daneParseCount msg)
    (hr : r.connected = false) (hok : rOk.ok) :
    ∃ line,
      (receivedCallback h msg rOk akt_czas).sd.backup_data =
          some (h.sd.backup_data.getD [] ++ line ++ ['\n']) ∧
        (receivedCallback h msg r akt_czas).sd.transfer_waitlist =
          some (h.sd.transfer_waitlist.getD [] ++ line ++ ['\n']) ∧
        (receivedCallback h msg r akt_czas).sd.backup_data = h.sd.backup_data := by
  obtain ⟨p, hp⟩ := dekodujDANE_isSome msg hc
  refine ⟨snprintf 150 (csvLine p), ?_⟩
  rw [receivedCallback_DANE h msg r akt_czas p ht hp,
    receivedCallback_DANE h msg rOk akt_czas p ht hp]
  have hbad : ¬ r.ok := by
    unfold PublishResult.ok
    simp [hr]
  exact ⟨(WyslijPakiet_ok h p rOk hok).1, WyslijPakiet_not_ok h p r hbad⟩

/-- Scenario C: the frame of scenario B with the broker disconnected. -/
theorem DANE_disconnected_waitlisted_witness :
    ("DANE;5;22.32;61.65;1220;15;51;15:55:06 Wed, Jan 07 2026".toList).take 4 =
        "DANE".toList ∧
      6 ≤ daneParseCount "DANE;5;22.32;61.65;1220;15;51;15:55:06 Wed, Jan 07 2026".toList ∧
      (PublishResult.mk 1 false).connected = false ∧
      (PublishResult.mk 1 true).ok ∧
      ∃ line,
        (receivedCallback (hubWith (some []) (some []))
            "DANE;5;22.32;61.65;1220;15;51;15:55:06 Wed, Jan 07 2026".toList
            (PublishResult.mk 1 true) 0).sd.backup_data =
          some ((hubWith (some []) (some [])).sd.backup_data.getD [] ++ line ++ ['\n']) ∧
        (receivedCallback (hubWith (some []) (some []))
            "DANE;5;22.32;61.65;1220;15;51;15:55:06 Wed, Jan 07 2026".toList
            (PublishResult.mk 1 false) 0).sd.transfer_waitlist =
          some ((hubWith (some []) (some [])).sd.transfer_waitlist.getD [] ++ line ++ ['\n']) ∧
        (receivedCallback (hubWith (some []) (some []))
            "DANE;5;22.32;61.65;1220;15;51;15:55:06 Wed, Jan 07 2026".toList
            (PublishResult.mk 1 false) 0).sd.backup_data =
          (hubWith (some []) (some [])).sd.backup_data :=
  ⟨by decide, by decide, rfl, by decide,
    DANE_disconnected_waitlisted _ _ _ _ 0 (by decide) (by decide) rfl (by decide)⟩

end Kurnik

namespace Kurnik

/-! ## Decimal text -/

theorem digitChar_toNat (d : Nat) (h : d < 10) : (digitChar d).toNat = 48 + d := by
  interval_cases d <;> rfl

theorem isdigit_digitChar (d : Nat) (h : d < 10) : isdigit (digitChar d) = true := by
  simp [isdigit, digitChar_toNat d h]
  omega

theorem digitVal_digitChar (d : Nat) (h : d < 10) : digitVal (digitChar d) = d := by
  simp [digitVal, digitChar_toNat d h]

theorem digitsRev_spec :
    ∀ fuel n, n < fuel →
      (∀ c ∈ digitsRev fuel n, isdigit c = true) ∧ digitsRev fuel n ≠ [] ∧
        (digitsRev fuel n).foldr (fun c a => 10 * a + digitVal c) 0 = n := by
  intro fuel
  induction fuel with
  | zero => intro n hn; omega
  | succ fuel ih =>
    intro n hn
    unfold digitsRev
    by_cases h10 : n < 10
    · simp [h10, isdigit_digitChar n h10, digitVal_digitChar n h10]
    · have hlt : n / 10 < fuel := by omega
      obtain ⟨h1, _, h3⟩ := ih (n / 10) hlt
      have hm : n % 10 < 10 := Nat.mod_lt _ (by norm_num)
      simp only [h10, if_false, List.mem_cons, List.foldr_cons, h3, digitVal_digitChar _ hm]
      refine ⟨?_, by simp, by omega⟩
      intro c hc
      rcases hc with rfl | hc
      · exact isdigit_digitChar _ hm
      · exact h1 c hc

theorem natToText_isdigit (n : Nat) : ∀ c ∈ natToText n, isdigit c = true := by
  intro c hc
  unfold natToText at hc
  exact (digitsRev_spec (n + 1) n (Nat.lt_succ_self n)).1 c (List.mem_reverse.mp hc)

theorem natToText_ne_nil (n : Nat) : natToText n ≠ [] := by
  unfold natToText
  intro h
  exact (digitsRev_spec (n + 1) n (Nat.lt_succ_self n)).2.1 (List.reverse_eq_nil_iff.mp h)

theorem natOfDigits_natToText (n : Nat) : natOfDigits (natToText n) = n := by
  unfold natOfDigits natToText
  rw [List.foldl_reverse]
  exact (digitsRev_spec (n + 1) n (Nat.lt_succ_self n)).2.2

theorem natOfDigits_append_two (xs : Text) (a b : Char) :
    natOfDigits (xs ++ [a, b]) = natOfDigits xs * 100 + digitVal a * 10 + digitVal b := by
  unfold natOfDigits
  rw [List.foldl_append]
  simp only [List.foldl_cons, List.foldl_nil]
  ring

theorem takeWhile_append_cons (p : Char → Bool) (xs : Text) (c : Char) (t : Text)
    (hx : ∀ a ∈ xs, p a = true) (hc : p c = false) :
    (xs ++ c :: t).takeWhile p = xs ∧ (xs ++ c :: t).dropWhile p = c :: t := by
  induction xs with
  | nil => simp [List.takeWhile, List.dropWhile, hc]
  | cons a xs ih =>
    have ha : p a = true := hx a (by simp)
    have := ih (fun b hb => hx b (by simp [hb]))
    simp [List.takeWhile, List.dropWhile, ha, this]

theorem takeWhile_all (p : Char → Bool) (xs : Text) (hx : ∀ a ∈ xs, p a = true) :
    xs.takeWhile p = xs ∧ xs.dropWhile p = [] := by
  induction xs with
  | nil => simp
  | cons a xs ih =>
    have ha : p a = true := hx a (by simp)
    have := ih (fun b hb => hx b (by simp [hb]))
    simp [List.takeWhile, List.dropWhile, ha, this]

theorem isdigit_not_isspace (c : Char) (h : isdigit c = true) : isspace c = false := by
  simp [isdigit, isspace] at *
  omega

theorem fmtInt_head (i : Int) :
    ∃ c t, fmtInt i = c :: t ∧ isspace c = false := by
  unfold fmtInt
  split
  · exact ⟨'-', _, rfl, by decide⟩
  · obtain ⟨c, t, hct⟩ := List.exists_cons_of_ne_nil (natToText_ne_nil i.natAbs)
    refine ⟨c, t, hct, isdigit_not_isspace c ?_⟩
    exact natToText_isdigit i.natAbs c (by simp [hct])

theorem clampInt32_of_isInt32 (i : Int) (h : isInt32 i) : clampInt32 i = i := by
  unfold isInt32 at h
  unfold clampInt32
  split
  · omega
  · split
    · omega
    · rfl

theorem scanDigits_natToText (n : Nat) (rest : Text) (hr : stopsNumber rest) :
    (natToText n ++ rest).takeWhile isdigit = natToText n ∧
      (natToText n ++ rest).dropWhile isdigit = rest := by
  rcases hr with rfl | ⟨t, rfl⟩
  · simpa using takeWhile_all isdigit _ (natToText_isdigit n)
  · exact takeWhile_append_cons isdigit _ ';' t (natToText_isdigit n) (by decide)

theorem natToText_head (n : Nat) : ∃ c t, natToText n = c :: t ∧ isdigit c = true := by
  obtain ⟨c, t, hct⟩ := List.exists_cons_of_ne_nil (natToText_ne_nil n)
  exact ⟨c, t, hct, natToText_isdigit n c (by simp [hct])⟩

theorem scanSign_of_digit (c : Char) (t : Text) (hc : isdigit c = true) :
    scanSign (c :: t) = (false, c :: t) := by
  have h1 : c ≠ '-' := by rintro rfl; simp [isdigit] at hc
  have h2 : c ≠ '+' := by rintro rfl; simp [isdigit] at hc
  unfold scanSign
  split
  · rename_i heq; simp at heq; exact absurd heq.1 h1
  · rename_i heq; simp at heq; exact absurd heq.1 h2
  · rfl

/-- `%d` reads back what `%d` printed. -/
theorem scanInt_fmtInt (i : Int) (rest : Text) (hi : isInt32 i) (hr : stopsNumber rest) :
    scanInt (fmtInt i ++ rest) = some (i, rest) := by
  obtain ⟨hd1, hd2⟩ := scanDigits_natToText i.natAbs rest hr
  obtain ⟨c, t, hct, hcd⟩ := natToText_head i.natAbs
  have hne := natToText_ne_nil i.natAbs
  unfold scanInt fmtInt
  by_cases hneg : i < 0
  · simp only [hneg, if_true, List.cons_append, List.dropWhile_cons,
      show isspace '-' = false by decide, Bool.false_eq_true, if_false, scanSign, hd1, hd2, hne,
      natOfDigits_natToText]
    rw [show (-((i.natAbs : Nat) : Int)) = i by omega, clampInt32_of_isInt32 i hi]
  · simp only [hneg, if_false]
    rw [hct] at hd1 hd2 ⊢
    simp only [List.cons_append, List.dropWhile_cons, isdigit_not_isspace c hcd,
      Bool.false_eq_true, if_false, scanSign_of_digit c _ hcd]
    have hd2b : List.dropWhile isdigit (t ++ rest) = rest := by
      simpa [List.dropWhile_cons, hcd] using hd2
    simp only [hcd, if_true, hd2b]
    rw [List.cons_append] at hd1
    rw [hd1, if_neg (by simp), ← hct, natOfDigits_natToText,
      show (((i.natAbs : Nat) : Int)) = i by omega, clampInt32_of_isInt32 i hi]

end Kurnik

namespace Kurnik

/-! ## Rounding -/

theorem rne_int (A B : Nat) (hB : 0 < B) :
    2 * |((roundNearestEven A B : Nat) : ℤ) * (B : ℤ) - (A : ℤ)| ≤ (B : ℤ) := by
  have hA : (A : ℤ) = (B : ℤ) * ((A / B : Nat) : ℤ) + ((A % B : Nat) : ℤ) := by
    exact_mod_cast (Nat.div_add_mod A B).symm
  have hr : ((A % B : Nat) : ℤ) < B := by exact_mod_cast Nat.mod_lt A hB
  have hr0 : (0 : ℤ) ≤ ((A % B : Nat) : ℤ) := Int.natCast_nonneg _
  unfold roundNearestEven
  simp only
  split_ifs with h1 h2 h3
  · have h1b : 2 * ((A % B : Nat) : ℤ) < B := by exact_mod_cast h1
    have e : ((A / B : Nat) : ℤ) * (B : ℤ) - (A : ℤ) = -((A % B : Nat) : ℤ) := by
      linarith
    rw [e, abs_neg, abs_of_nonneg hr0]; linarith
  · have h2b : (B : ℤ) < 2 * ((A % B : Nat) : ℤ) := by exact_mod_cast h2
    have e : ((A / B + 1 : Nat) : ℤ) * (B : ℤ) - (A : ℤ) = (B : ℤ) - ((A % B : Nat) : ℤ) := by
      rw [Nat.cast_add, Nat.cast_one]; linarith
    rw [e, abs_of_nonneg (by linarith)]; linarith
  · have h1b : ¬ (2 * ((A % B : Nat) : ℤ) < B) := by exact_mod_cast h1
    have e : ((A / B : Nat) : ℤ) * (B : ℤ) - (A : ℤ) = -((A % B : Nat) : ℤ) := by
      linarith
    have h2b : ¬ ((B : ℤ) < 2 * ((A % B : Nat) : ℤ)) := by exact_mod_cast h2
    rw [e, abs_neg, abs_of_nonneg hr0]; linarith
  · have h2b : ¬ ((B : ℤ) < 2 * ((A % B : Nat) : ℤ)) := by exact_mod_cast h2
    have h1b : ¬ (2 * ((A % B : Nat) : ℤ) < B) := by exact_mod_cast h1
    have e : ((A / B + 1 : Nat) : ℤ) * (B : ℤ) - (A : ℤ) = (B : ℤ) - ((A % B : Nat) : ℤ) := by
      rw [Nat.cast_add, Nat.cast_one]; linarith
    rw [e, abs_of_nonneg (by linarith)]; linarith

theorem rne_ge_div (A B : Nat) : A / B ≤ roundNearestEven A B := by
  unfold roundNearestEven
  simp only
  split_ifs <;> omega

theorem rne_nearest_int (A B : Nat) (hB : 0 < B) (k : ℤ) :
    |((roundNearestEven A B : Nat) : ℤ) * (B : ℤ) - (A : ℤ)| ≤ |k * (B : ℤ) - (A : ℤ)| := by
  have h := rne_int A B hB
  by_cases hk : k = ((roundNearestEven A B : Nat) : ℤ)
  · rw [hk]
  · have h1 : (1 : ℤ) ≤ |k - ((roundNearestEven A B : Nat) : ℤ)| := by
      have : k - ((roundNearestEven A B : Nat) : ℤ) ≠ 0 := sub_ne_zero.mpr hk
      exact Int.one_le_abs this
    have hBz : (0 : ℤ) < B := by exact_mod_cast hB
    have h2 : (B : ℤ) ≤ |(k - ((roundNearestEven A B : Nat) : ℤ)) * (B : ℤ)| := by
      rw [abs_mul, abs_of_pos hBz]
      nlinarith
    have h3 : |(k - ((roundNearestEven A B : Nat) : ℤ)) * (B : ℤ)| ≤
        |k * (B : ℤ) - (A : ℤ)| + |((roundNearestEven A B : Nat) : ℤ) * (B : ℤ) - (A : ℤ)| := by
      have e : (k - ((roundNearestEven A B : Nat) : ℤ)) * (B : ℤ) =
          (k * (B : ℤ) - (A : ℤ)) - (((roundNearestEven A B : Nat) : ℤ) * (B : ℤ) - (A : ℤ)) := by
        ring
      rw [e]
      exact abs_sub _ _
    linarith

/-- In the rationals: the rounded quotient is within one half of the quotient
and no integer is nearer. -/
theorem rne_rat (A B : Nat) (hB : 0 < B) :
    |((roundNearestEven A B : Nat) : ℚ) - (A : ℚ) / B| ≤ 1 / 2 ∧
      ∀ k : ℤ, |((roundNearestEven A B : Nat) : ℚ) - (A : ℚ) / B| ≤ |(k : ℚ) - (A : ℚ) / B| := by
  have hBq : (0 : ℚ) < B := by exact_mod_cast hB
  have key : ∀ k : ℤ, |(k : ℚ) - (A : ℚ) / B| = ((|k * (B : ℤ) - (A : ℤ)| : ℤ) : ℚ) / B := by
    intro k
    have e : (k : ℚ) - (A : ℚ) / B = ((k * (B : ℤ) - (A : ℤ) : ℤ) : ℚ) / B := by
      push_cast
      field_simp
    rw [e, abs_div, abs_of_pos hBq]
    push_cast
    rfl
  have key0 := key ((roundNearestEven A B : Nat) : ℤ)
  simp only [Int.cast_natCast] at key0
  constructor
  · rw [key0, div_le_iff₀ hBq]
    have := rne_int A B hB
    have h2 : (2 : ℚ) * ((|((roundNearestEven A B : Nat) : ℤ) * (B : ℤ) - (A : ℤ)| : ℤ) : ℚ) ≤ B := by
      exact_mod_cast this
    linarith
  · intro k
    rw [key0, key k]
    apply div_le_div_of_nonneg_right _ hBq.le
    exact_mod_cast rne_nearest_int A B hB k

theorem log2Fuel_spec :
    ∀ fuel n, n ≤ fuel → 0 < n →
      2 ^ log2Fuel fuel n ≤ n ∧ n < 2 ^ (log2Fuel fuel n + 1) := by
  intro fuel
  induction fuel with
  | zero => intro n h1 h2; omega
  | succ fuel ih =>
    intro n h1 h2
    unfold log2Fuel
    by_cases hn : n < 2
    · simp only [hn, if_true]
      omega
    · simp only [hn, if_false]
      obtain ⟨ha, hb⟩ := ih (n / 2) (by omega) (by omega)
      constructor
      · rw [pow_succ]; omega
      · rw [pow_succ]; omega

theorem log2_spec (n : Nat) (hn : 0 < n) : 2 ^ log2 n ≤ n ∧ n < 2 ^ (log2 n + 1) :=
  log2Fuel_spec n n (le_refl n) hn

/-- A lower bound: two to the computed logarithm is at most the quotient. -/
theorem floorLog2_le (P Q : Nat) (hP : 0 < P) (hQ : 0 < Q) :
    (2 : ℚ) ^ floorLog2 P Q ≤ (P : ℚ) / Q := by
  have hQq : (0 : ℚ) < Q := by exact_mod_cast hQ
  unfold floorLog2
  simp only
  split_ifs with hp
  · -- the test succeeded
    unfold pow2Le at hp
    split_ifs at hp with hL
    · have hp2 : Q * 2 ^ ((log2 P : Int) - (log2 Q : Int)).toNat ≤ P := by simpa using hp
      have hp3 : (Q : ℚ) * (2 : ℚ) ^ ((log2 P : Int) - (log2 Q : Int)).toNat ≤ P := by
        exact_mod_cast hp2
      rw [le_div_iff₀ hQq]
      have e : (2 : ℚ) ^ ((log2 P : Int) - (log2 Q : Int)) =
          (2 : ℚ) ^ ((log2 P : Int) - (log2 Q : Int)).toNat := by
        rw [← zpow_natCast, Int.toNat_of_nonneg hL]
      rw [e]; linarith
    · have hp2 : Q ≤ P * 2 ^ (-((log2 P : Int) - (log2 Q : Int))).toNat := by simpa using hp
      have hp3 : (Q : ℚ) ≤ P * (2 : ℚ) ^ (-((log2 P : Int) - (log2 Q : Int))).toNat := by
        exact_mod_cast hp2
      have hneg : 0 ≤ -((log2 P : Int) - (log2 Q : Int)) := by omega
      have e : (2 : ℚ) ^ ((log2 P : Int) - (log2 Q : Int)) =
          ((2 : ℚ) ^ (-((log2 P : Int) - (log2 Q : Int))).toNat)⁻¹ := by
        rw [← zpow_natCast, Int.toNat_of_nonneg hneg, zpow_neg, inv_inv]
      rw [e, le_div_iff₀ hQq]
      have hpos : (0 : ℚ) < (2 : ℚ) ^ (-((log2 P : Int) - (log2 Q : Int))).toNat := by positivity
      rw [inv_mul_le_iff₀ hpos]
      linarith
  · have h1 := (log2_spec P hP).1
    have h2 := (log2_spec Q hQ).2
    have h1q : (2 : ℚ) ^ (log2 P) ≤ P := by exact_mod_cast h1
    have h2q : (Q : ℚ) < (2 : ℚ) ^ (log2 Q + 1) := by exact_mod_cast h2
    have e : (2 : ℚ) ^ ((log2 P : Int) - (log2 Q : Int) - 1) =
        (2 : ℚ) ^ (log2 P) / (2 : ℚ) ^ (log2 Q + 1) := by
      rw [show ((log2 P : Int) - (log2 Q : Int) - 1) = (log2 P : Int) - ((log2 Q + 1 : Nat) : Int) by
        push_cast; ring]
      rw [zpow_sub₀ (by norm_num), zpow_natCast, zpow_natCast]
    rw [e]
    have hpos : (0 : ℚ) < (2 : ℚ) ^ (log2 Q + 1) := by positivity
    rw [div_le_div_iff₀ hpos hQq]
    have hP0 : (0 : ℚ) ≤ P := by positivity
    nlinarith

end Kurnik

namespace Kurnik

theorem scaledMantissa_rat (P Q : Nat) (hQ : 0 < Q) (e : Int) :
    ∀ k : ℤ, |((scaledMantissa P Q e : Nat) : ℚ) - (P : ℚ) / Q / 2 ^ e| ≤
      |(k : ℚ) - (P : ℚ) / Q / 2 ^ e| := by
  have hQq : (0 : ℚ) < Q := by exact_mod_cast hQ
  unfold scaledMantissa
  split_ifs with he
  · have hB : 0 < Q * 2 ^ e.toNat := by positivity
    have e1 : (P : ℚ) / Q / 2 ^ e = (P : ℚ) / ((Q * 2 ^ e.toNat : Nat) : ℚ) := by
      rw [show (2 : ℚ) ^ e = (2 : ℚ) ^ e.toNat by rw [← zpow_natCast, Int.toNat_of_nonneg he]]
      push_cast
      rw [div_div]
    rw [e1]
    exact (rne_rat P (Q * 2 ^ e.toNat) hB).2
  · have hneg : 0 ≤ -e := by omega
    have e1 : (P : ℚ) / Q / 2 ^ e = ((P * 2 ^ (-e).toNat : Nat) : ℚ) / (Q : ℚ) := by
      have : (2 : ℚ) ^ e = ((2 : ℚ) ^ (-e).toNat)⁻¹ := by
        rw [← zpow_natCast, Int.toNat_of_nonneg hneg, zpow_neg, inv_inv]
      rw [this]
      push_cast
      field_simp
    rw [e1]
    exact (rne_rat (P * 2 ^ (-e).toNat) Q hQ).2

/-- The float `%f` reads from a decimal that lies within 1/200 of a
representable magnitude is finite and no farther from the decimal than that
magnitude. -/
theorem roundFloat32_near (neg : Bool) (P Q : Nat) (hQ : 0 < Q) (mg : Nat) (eg : Int)
    (hm : mg < 16777216) (he1 : -149 ≤ eg) (he2 : eg ≤ 104)
    (hclose : |(mg : ℚ) * 2 ^ eg - (P : ℚ) / Q| ≤ 1 / 200) :
    ∃ m e, roundFloat32 neg P Q = .finite neg m e ∧
      |(m : ℚ) * 2 ^ e - (P : ℚ) / Q| ≤ |(mg : ℚ) * 2 ^ eg - (P : ℚ) / Q| := by
  have hQq : (0 : ℚ) < Q := by exact_mod_cast hQ
  by_cases hP : P = 0
  · refine ⟨0, 0, by simp [roundFloat32, hP], ?_⟩
    subst hP
    simp
  · have hPpos : 0 < P := Nat.pos_of_ne_zero hP
    have hx : (0 : ℚ) < (P : ℚ) / Q := by positivity
    obtain ⟨e, hedef⟩ : ∃ e : Int, e = max (floorLog2 P Q - 23) (-149) := ⟨_, rfl⟩
    obtain ⟨m, hmdef⟩ : ∃ m : Nat, m = scaledMantissa P Q e := ⟨_, rfl⟩
    have hE : -149 ≤ e := by rw [hedef]; exact le_max_right _ _
    have h2e : (0 : ℚ) < 2 ^ e := by positivity
    -- the scaled quotient is at least 2^23 unless the exponent is the least one
    have hA : e = -149 ∨ (8388608 : ℚ) ≤ (P : ℚ) / Q / 2 ^ e := by
      by_cases hc : floorLog2 P Q - 23 ≤ -149
      · left; rw [hedef]; exact max_eq_right hc
      · right
        have he : e = floorLog2 P Q - 23 := by rw [hedef]; exact max_eq_left (by omega)
        have hfl := floorLog2_le P Q hPpos hQ
        rw [le_div_iff₀ h2e]
        have e2 : (8388608 : ℚ) * 2 ^ e = 2 ^ floorLog2 P Q := by
          rw [show (8388608 : ℚ) = 2 ^ (23 : ℤ) by norm_num,
            ← zpow_add₀ (by norm_num : (2 : ℚ) ≠ 0), he]
          congr 1
          ring
        rw [e2]; exact hfl
    have hnear := scaledMantissa_rat P Q hQ e
    rw [← hmdef] at hnear
    -- nearest to the given magnitude, in scaled form
    have hscaled : |(m : ℚ) - (P : ℚ) / Q / 2 ^ e| ≤
        |(mg : ℚ) * 2 ^ eg / 2 ^ e - (P : ℚ) / Q / 2 ^ e| := by
      by_cases hge : e ≤ eg
      · have hk : (((mg * 2 ^ (eg - e).toNat : Nat) : ℤ) : ℚ) = (mg : ℚ) * 2 ^ eg / 2 ^ e := by
          push_cast
          rw [mul_div_assoc, ← zpow_sub₀ (by norm_num : (2 : ℚ) ≠ 0), ← zpow_natCast,
            Int.toNat_of_nonneg (by omega)]
        rw [← hk]
        exact hnear _
      · have hne : e ≠ -149 := by omega
        have hs : (8388608 : ℚ) ≤ (P : ℚ) / Q / 2 ^ e := hA.resolve_left hne
        have hg : (mg : ℚ) * 2 ^ eg / 2 ^ e ≤ (8388608 : ℚ) := by
          rw [mul_div_assoc, ← zpow_sub₀ (by norm_num : (2 : ℚ) ≠ 0)]
          have h1 : (2 : ℚ) ^ (eg - e) ≤ 2 ^ (-1 : ℤ) :=
            zpow_le_zpow_right₀ (by norm_num) (by omega)
          have h2 : (mg : ℚ) ≤ 16777216 := by exact_mod_cast hm.le
          have h3 : (0 : ℚ) < 2 ^ (eg - e) := by positivity
          have h4 : (2 : ℚ) ^ (-1 : ℤ) = 1 / 2 := by norm_num
          rw [h4] at h1
          have h5 : (0 : ℚ) ≤ mg := by positivity
          nlinarith
        have h23 := hnear 8388608
        simp only [Int.cast_ofNat] at h23
        have hR : |(8388608 : ℚ) - (P : ℚ) / Q / 2 ^ e| = (P : ℚ) / Q / 2 ^ e - 8388608 := by
          rw [abs_sub_comm]; exact abs_of_nonneg (by linarith)
        have hG : (P : ℚ) / Q / 2 ^ e - (mg : ℚ) * 2 ^ eg / 2 ^ e ≤
            |(mg : ℚ) * 2 ^ eg / 2 ^ e - (P : ℚ) / Q / 2 ^ e| := by
          rw [abs_sub_comm]; exact le_abs_self _
        rw [hR] at h23
        linarith
    -- the same, unscaled
    have hN : |(m : ℚ) * 2 ^ e - (P : ℚ) / Q| ≤ |(mg : ℚ) * 2 ^ eg - (P : ℚ) / Q| := by
      have e1 : (m : ℚ) * 2 ^ e - (P : ℚ) / Q = ((m : ℚ) - (P : ℚ) / Q / 2 ^ e) * 2 ^ e := by
        field_simp
        ring
      have e2 : (mg : ℚ) * 2 ^ eg - (P : ℚ) / Q =
          ((mg : ℚ) * 2 ^ eg / 2 ^ e - (P : ℚ) / Q / 2 ^ e) * 2 ^ e := by
        field_simp
        ring
      rw [e1, e2, abs_mul, abs_mul, abs_of_pos h2e]
      exact mul_le_mul_of_nonneg_right hscaled h2e.le
    -- no overflow
    have hov : ¬ (104 < e ∨ (e = 104 ∧ m = 16777216)) := by
      intro hov
      have hbig : (2 : ℚ) ^ (128 : ℕ) ≤ (m : ℚ) * 2 ^ e := by
        rcases hov with h104 | ⟨h104, hm24⟩
        · have hne : e ≠ -149 := by omega
          have hs : (8388608 : ℚ) ≤ (P : ℚ) / Q / 2 ^ e := hA.resolve_left hne
          have hm23 : (8388608 : ℚ) ≤ (m : ℚ) := by
            by_contra hlt
            push_neg at hlt
            have h23 := hnear 8388608
            simp only [Int.cast_ofNat] at h23
            have hR : |(8388608 : ℚ) - (P : ℚ) / Q / 2 ^ e| = (P : ℚ) / Q / 2 ^ e - 8388608 := by
              rw [abs_sub_comm]; exact abs_of_nonneg (by linarith)
            have hG : (P : ℚ) / Q / 2 ^ e - (m : ℚ) ≤ |(m : ℚ) - (P : ℚ) / Q / 2 ^ e| := by
              rw [abs_sub_comm]; exact le_abs_self _
            rw [hR] at h23
            linarith
          have h105 : (2 : ℚ) ^ (105 : ℕ) ≤ 2 ^ e := by
            rw [← zpow_natCast]
            exact zpow_le_zpow_right₀ (by norm_num) (by push_cast; omega)
          calc (2 : ℚ) ^ (128 : ℕ) = 8388608 * 2 ^ (105 : ℕ) := by norm_num
            _ ≤ (m : ℚ) * 2 ^ e := by
              apply mul_le_mul hm23 h105 (by positivity) (by positivity)
        · rw [hm24, h104]
          norm_num
      have hgle : (mg : ℚ) * 2 ^ eg ≤ (16777215 : ℚ) * 2 ^ (104 : ℕ) := by
        have h1 : (2 : ℚ) ^ eg ≤ 2 ^ (104 : ℕ) := by
          rw [← zpow_natCast]
          exact zpow_le_zpow_right₀ (by norm_num) (by push_cast; omega)
        have h2 : (mg : ℚ) ≤ 16777215 := by
          have : mg ≤ 16777215 := by omega
          exact_mod_cast this
        apply mul_le_mul h2 h1 (by positivity) (by norm_num)
      have h3 := abs_le.mp (le_trans hN hclose)
      have h4 := abs_le.mp hclose
      have h5 : (2 : ℚ) ^ (128 : ℕ) - (16777215 : ℚ) * 2 ^ (104 : ℕ) = 2 ^ (104 : ℕ) := by norm_num
      have h6 : (1 : ℚ) ≤ 2 ^ (104 : ℕ) := one_le_pow₀ (by norm_num)
      linarith [h3.1, h3.2, h4.1, h4.2]
    by_cases hm24 : m = 16777216
    · refine ⟨8388608, e + 1, ?_, ?_⟩
      · unfold roundFloat32
        simp only [hP, if_false, ← hedef, ← hmdef]
        rw [if_neg hov, if_pos hm24]
      · have e3 : ((8388608 : ℕ) : ℚ) * 2 ^ (e + 1) = (m : ℚ) * 2 ^ e := by
          rw [zpow_add₀ (by norm_num : (2 : ℚ) ≠ 0), hm24]
          norm_num
          ring
        rw [e3]; exact hN
    · refine ⟨m, e, ?_, hN⟩
      unfold roundFloat32
      simp only [hP, if_false, ← hedef, ← hmdef]
      rw [if_neg hov, if_neg hm24]

end Kurnik

namespace Kurnik

/-- `%.2f` prints a value within 1/200 of the float. -/
theorem hundredths_near (m : Nat) (e : Int) :
    |(m : ℚ) * 2 ^ e - ((hundredths m e : Nat) : ℚ) / 100| ≤ 1 / 200 := by
  unfold hundredths
  split_ifs with he
  · have e1 : (2 : ℚ) ^ e = (2 : ℚ) ^ e.toNat := by
      rw [← zpow_natCast, Int.toNat_of_nonneg he]
    rw [e1]
    push_cast
    have : (m : ℚ) * 2 ^ e.toNat - 100 * (m : ℚ) * 2 ^ e.toNat / 100 = 0 := by ring
    rw [this]; norm_num
  · have hneg : 0 ≤ -e := by omega
    have hB : 0 < 2 ^ (-e).toNat := by positivity
    have h := (rne_rat (100 * m) (2 ^ (-e).toNat) hB).1
    have e1 : (2 : ℚ) ^ e = ((2 : ℚ) ^ (-e).toNat)⁻¹ := by
      rw [← zpow_natCast, Int.toNat_of_nonneg hneg, zpow_neg, inv_inv]
    have e2 : (m : ℚ) * 2 ^ e - ((roundNearestEven (100 * m) (2 ^ (-e).toNat) : Nat) : ℚ) / 100 =
        -(((roundNearestEven (100 * m) (2 ^ (-e).toNat) : Nat) : ℚ) -
          ((100 * m : Nat) : ℚ) / ((2 ^ (-e).toNat : Nat) : ℚ)) / 100 := by
      rw [e1]
      push_cast
      field_simp
      ring
    rw [e2, abs_div, abs_neg, abs_of_pos (by norm_num : (0 : ℚ) < 100)]
    rw [div_le_iff₀ (by norm_num : (0 : ℚ) < 100)]
    linarith

theorem isdigit_tolower (c : Char) (hc : isdigit c = true) : tolower c = c := by
  simp [isdigit] at hc
  unfold tolower
  rw [if_neg (by omega)]

theorem isdigit_ne (c d : Char) (hc : isdigit c = true) (hd : isdigit d = false) : c ≠ d := by
  rintro rfl
  rw [hc] at hd
  exact absurd hd (by decide)

theorem scanDecimal_fixed2 (neg : Bool) (k a b : Nat) (ha : a < 10) (hb : b < 10)
    (rest : Text) :
    scanDecimal neg (natToText k ++ '.' :: digitChar a :: digitChar b :: ';' :: rest) =
      some (decimalToFloat32 neg (k * 100 + a * 10 + b) (-2), ';' :: rest) := by
  obtain ⟨h1, h2⟩ := takeWhile_append_cons isdigit (natToText k) '.'
    (digitChar a :: digitChar b :: ';' :: rest) (natToText_isdigit k) (by decide)
  have hne := natToText_ne_nil k
  have hda := isdigit_digitChar a ha
  have hdb := isdigit_digitChar b hb
  have h3 : List.takeWhile isdigit (digitChar a :: digitChar b :: ';' :: rest) =
      [digitChar a, digitChar b] := by
    simp [List.takeWhile, hda, hdb, show isdigit ';' = false by decide]
  have h4 : List.dropWhile isdigit (digitChar a :: digitChar b :: ';' :: rest) = ';' :: rest := by
    simp [List.dropWhile, hda, hdb, show isdigit ';' = false by decide]
  have h5 : scanExponent (';' :: rest) = (0, ';' :: rest) := by
    simp [scanExponent]
  unfold scanDecimal
  simp only [h1, h2, h3, h4, h5]
  rw [if_neg (by simp [hne])]
  simp only [natOfDigits_append_two, natOfDigits_natToText, digitVal_digitChar a ha,
    digitVal_digitChar b hb, List.length_cons, List.length_nil]
  norm_num

theorem not_special (c : Char) (t : Text) (hc : isdigit c = true) (n : Nat) (w : Text)
    (hw : ∃ d u, w = d :: u ∧ isdigit d = false) :
    ¬ ((c :: t).take (n + 1)).map tolower = w := by
  obtain ⟨d, u, rfl, hd⟩ := hw
  simp only [List.take_succ_cons, List.map_cons, isdigit_tolower c hc]
  intro h
  exact isdigit_ne c d hc hd (List.cons.inj h).1

theorem scanFloat_digits (neg : Bool) (c : Char) (t : Text) (hc : isdigit c = true) :
    scanFloat ((if neg then ['-'] else []) ++ c :: t) = scanDecimal neg (c :: t) := by
  have hsp := isdigit_not_isspace c hc
  have hs : scanSign (((if neg then ['-'] else []) ++ c :: t).dropWhile isspace) =
      (neg, c :: t) := by
    cases neg
    · simp [List.dropWhile, hsp, scanSign_of_digit c t hc]
    · simp [List.dropWhile, show isspace '-' = false by decide, scanSign]
  unfold scanFloat
  simp only [hs]
  have h8 : ¬ (List.map tolower (List.take 8 (c :: t)) = "infinity".toList) :=
    not_special c t hc 7 _ ⟨'i', "nfinity".toList, rfl, by decide⟩
  have h3 : ¬ (List.map tolower (List.take 3 (c :: t)) = "inf".toList) :=
    not_special c t hc 2 _ ⟨'i', "nf".toList, rfl, by decide⟩
  have h3n : ¬ (List.map tolower (List.take 3 (c :: t)) = "nan".toList) :=
    not_special c t hc 2 _ ⟨'n', "an".toList, rfl, by decide⟩
  rw [if_neg h8, if_neg h3, if_neg h3n]

/-- `%f` reads what `%.2f` printed for a finite float: the decimal in
hundredths, rounded to binary32. -/
theorem scanFloat_fmtFixed2 (neg : Bool) (m : Nat) (e : Int) (rest : Text) :
    scanFloat (fmtFixed2 (.finite neg m e) ++ ';' :: rest) =
      some (roundFloat32 neg (hundredths m e) 100, ';' :: rest) := by
  obtain ⟨c, t, hct, hcd⟩ := natToText_head (hundredths m e / 100)
  have ha : hundredths m e % 100 / 10 < 10 := by omega
  have hb : hundredths m e % 10 < 10 := by omega
  have hbody : fmtFixed2 (.finite neg m e) ++ ';' :: rest =
      (if neg then ['-'] else []) ++
        (c :: (t ++ '.' :: digitChar (hundredths m e % 100 / 10) ::
          digitChar (hundredths m e % 10) :: ';' :: rest)) := by
    simp [fmtFixed2, hct]
  rw [hbody, scanFloat_digits neg c _ hcd, ← List.cons_append, ← hct,
    scanDecimal_fixed2 neg _ _ _ ha hb]
  have hn : hundredths m e / 100 * 100 + hundredths m e % 100 / 10 * 10 + hundredths m e % 10 =
      hundredths m e := by omega
  rw [hn]
  simp [decimalToFloat32]

/-- Reading back a printed finite float gives a finite float within 0.01. -/
theorem scanFloat_fmtFixed2_near (neg : Bool) (m : Nat) (e : Int) (rest : Text)
    (hv : (Float32.finite neg m e).valid) :
    ∃ g, scanFloat (fmtFixed2 (.finite neg m e) ++ ';' :: rest) = some (g, ';' :: rest) ∧
      g.isFinite = true ∧ |g.toRat - (Float32.finite neg m e).toRat| ≤ 1 / 100 := by
  obtain ⟨hm, he1, he2⟩ := hv
  have hclose := hundredths_near m e
  obtain ⟨m2, e2, hr, hnear⟩ := roundFloat32_near neg (hundredths m e) 100 (by norm_num) m e hm
    he1 he2 (by simpa using hclose)
  refine ⟨.finite neg m2 e2, by rw [scanFloat_fmtFixed2, hr], rfl, ?_⟩
  have hc2 : |(m : ℚ) * 2 ^ e - ((hundredths m e : Nat) : ℚ) / ((100 : Nat) : ℚ)| ≤ 1 / 200 := by
    simpa using hclose
  have h1 := abs_le.mp (le_trans hnear hc2)
  have h2 := abs_le.mp hc2
  have key : |(m2 : ℚ) * 2 ^ e2 - (m : ℚ) * 2 ^ e| ≤ 1 / 100 := by
    rw [abs_le]
    constructor <;> linarith [h1.1, h1.2, h2.1, h2.2]
  unfold Float32.toRat
  cases neg
  · simpa using key
  · simp only [if_true]
    have : (-1 : ℚ) * (m2 : ℚ) * 2 ^ e2 - (-1 : ℚ) * (m : ℚ) * 2 ^ e =
        -((m2 : ℚ) * 2 ^ e2 - (m : ℚ) * 2 ^ e) := by ring
    rw [this, abs_neg]
    exact key

end Kurnik

namespace Kurnik

/-! ## Round trip of the environmental record -/

theorem sscanf_d (s t : Text) (v : Int) (ds : List Directive) (h : scanInt s = some (v, t)) :
    sscanf s (.d :: ds) = .int v :: sscanf t ds := by
  simp [sscanf, h]

theorem sscanf_f (s t : Text) (v : Float32) (ds : List Directive)
    (h : scanFloat s = some (v, t)) :
    sscanf s (.f :: ds) = .float v :: sscanf t ds := by
  simp [sscanf, h]

theorem sscanf_set15 (s t : Text) (v : Text) (ds : List Directive)
    (h : scanSet15 s = some (v, t)) :
    sscanf s (.set15 :: ds) = .str v :: sscanf t ds := by
  simp [sscanf, h]

theorem sscanf_lit (c : Char) (t : Text) (ds : List Directive) :
    sscanf (c :: t) (.lit c :: ds) = sscanf t ds := by
  simp [sscanf]

theorem lastIndexOfAux_not_mem (c : Char) (ts : Text) (h : c ∉ ts) :
    ∀ (i : Nat) (acc : Int), lastIndexOfAux c ts i acc = acc := by
  induction ts with
  | nil => intro i acc; rfl
  | cons x ts ih =>
    intro i acc
    have hx : x ≠ c := fun e => h (by simp [e])
    have hts : c ∉ ts := fun e => h (by simp [e])
    simp [lastIndexOfAux, hx, ih hts]

theorem lastIndexOfAux_append (c : Char) (ts : Text) (h : c ∉ ts) (pre : Text) :
    ∀ (i : Nat) (acc : Int),
      lastIndexOfAux c (pre ++ c :: ts) i acc = ((i + pre.length : Nat) : Int) := by
  induction pre with
  | nil =>
    intro i acc
    simp [lastIndexOfAux, lastIndexOfAux_not_mem c ts h]
  | cons x pre ih =>
    intro i acc
    show lastIndexOfAux c (pre ++ c :: ts) (i + 1) _ = _
    rw [ih]
    simp only [List.length_cons]
    congr 1
    omega

/-- The text after the last `;` of `pre;ts` is `ts` when `ts` has no `;`. -/
theorem timestamp_after_last (pre ts : Text) (h : ';' ∉ ts) :
    (if lastIndexOf (pre ++ ';' :: ts) ';' ≠ -1 then
        (pre ++ ';' :: ts).drop (lastIndexOf (pre ++ ';' :: ts) ';' + 1).toNat
      else []) = ts := by
  have hl : lastIndexOf (pre ++ ';' :: ts) ';' = (pre.length : Int) := by
    unfold lastIndexOf
    rw [lastIndexOfAux_append ';' ts h pre 0 (-1)]
    simp
  rw [hl, if_pos (by omega)]
  have : ((pre.length : Int) + 1).toNat = pre.length + 1 := by omega
  rw [this]
  simp

theorem csvLine_assoc (p : Pakiet_Danych) :
    csvLine p =
      fmtInt p.ID_urzadzenia ++ ';' :: (fmtFixed2 p.temperatura ++ ';' ::
        (fmtFixed2 p.wilgotnosc ++ ';' :: (fmtInt p.poziom_co2 ++ ';' ::
          (fmtInt p.poziom_amoniaku ++ ';' :: (fmtInt p.naslonecznienie ++ ';' ::
            p.data_i_czas))))) := by
  simp [csvLine, List.append_assoc]

theorem csvLine_split (p : Pakiet_Danych) :
    csvLine p =
      (fmtInt p.ID_urzadzenia ++ [';'] ++ fmtFixed2 p.temperatura ++ [';']
        ++ fmtFixed2 p.wilgotnosc ++ [';'] ++ fmtInt p.poziom_co2 ++ [';']
        ++ fmtInt p.poziom_amoniaku ++ [';'] ++ fmtInt p.naslonecznienie) ++ ';' ::
          p.data_i_czas := by
  simp [csvLine, List.append_assoc]

theorem Float32.exists_of_isFinite (f : Float32) (h : f.isFinite = true) :
    ∃ neg m e, f = .finite neg m e := by
  cases f with
  | finite neg m e => exact ⟨neg, m, e, rfl⟩
  | inf neg => simp [Float32.isFinite] at h
  | nan => simp [Float32.isFinite] at h

/-- C4, amended.  For every environmental record whose integers are 32-bit,
whose temperature and humidity are finite binary32 numbers, whose timestamp
holds no `;` and whose text fits the 150-byte buffer (at most 149 characters),
the root decodes the frame the leaf builds for it into a record with the same
device id, CO2, volatile-organic value, light level and timestamp, and with
temperature and humidity within 0.01 of the record. -/
theorem DANE_roundtrip (R : Pakiet_Danych) (hv : R.valid)
    (hft : R.temperatura.isFinite = true) (hfw : R.wilgotnosc.isFinite = true)
    (hts : ';' ∉ R.data_i_czas) (hfit : (csvLine R).length ≤ 149) :
    ∃ p, dekodujDANE (Czujnik.ramkaDANE R) = some p ∧
      p.ID_urzadzenia = R.ID_urzadzenia ∧ p.poziom_co2 = R.poziom_co2 ∧
      p.poziom_amoniaku = R.poziom_amoniaku ∧ p.naslonecznienie = R.naslonecznienie ∧
      p.data_i_czas = R.data_i_czas ∧
      p.temperatura.within R.temperatura (1 / 100) ∧
      p.wilgotnosc.within R.wilgotnosc (1 / 100) := by
  obtain ⟨hid, hvt, hvw, hco, hnh, hsun⟩ := hv
  obtain ⟨n1, m1, e1, ht⟩ := Float32.exists_of_isFinite _ hft
  obtain ⟨n2, m2, e2, hw⟩ := Float32.exists_of_isFinite _ hfw
  have hdrop : (Czujnik.ramkaDANE R).drop 5 = csvLine R := by
    have h5 : "DANE;".toList = ['D', 'A', 'N', 'E', ';'] := rfl
    simp [Czujnik.ramkaDANE, Czujnik.pakietToCSV, snprintf, h5, List.take_of_length_le hfit]
  rw [ht] at hvt
  rw [hw] at hvw
  obtain ⟨g1, hg1, hg1f, hg1n⟩ := scanFloat_fmtFixed2_near n1 m1 e1
    (fmtFixed2 R.wilgotnosc ++ ';' :: (fmtInt R.poziom_co2 ++ ';' ::
      (fmtInt R.poziom_amoniaku ++ ';' :: (fmtInt R.naslonecznienie ++ ';' ::
        R.data_i_czas)))) hvt
  obtain ⟨g2, hg2, hg2f, hg2n⟩ := scanFloat_fmtFixed2_near n2 m2 e2
    (fmtInt R.poziom_co2 ++ ';' ::
      (fmtInt R.poziom_amoniaku ++ ';' :: (fmtInt R.naslonecznienie ++ ';' ::
        R.data_i_czas))) hvw
  have hargs : sscanf (csvLine R) daneFormat =
      [.int R.ID_urzadzenia, .float g1, .float g2, .int R.poziom_co2,
        .int R.poziom_amoniaku, .int R.naslonecznienie] := by
    rw [csvLine_assoc, daneFormat]
    rw [sscanf_d _ _ _ _ (scanInt_fmtInt _ _ hid (Or.inr ⟨_, rfl⟩)), sscanf_lit]
    rw [ht, sscanf_f _ _ _ _ hg1, sscanf_lit]
    rw [hw, sscanf_f _ _ _ _ hg2, sscanf_lit]
    rw [sscanf_d _ _ _ _ (scanInt_fmtInt _ _ hco (Or.inr ⟨_, rfl⟩)), sscanf_lit]
    rw [sscanf_d _ _ _ _ (scanInt_fmtInt _ _ hnh (Or.inr ⟨_, rfl⟩)), sscanf_lit]
    rw [sscanf_d _ _ _ _ (scanInt_fmtInt _ _ hsun (Or.inr ⟨_, rfl⟩))]
    rfl
  have hstamp := timestamp_after_last
    (fmtInt R.ID_urzadzenia ++ [';'] ++ fmtFixed2 R.temperatura ++ [';']
        ++ fmtFixed2 R.wilgotnosc ++ [';'] ++ fmtInt R.poziom_co2 ++ [';']
        ++ fmtInt R.poziom_amoniaku ++ [';'] ++ fmtInt R.naslonecznienie) R.data_i_czas hts
  rw [← csvLine_split] at hstamp
  refine ⟨{ ID_urzadzenia := R.ID_urzadzenia, temperatura := g1, wilgotnosc := g2,
            poziom_co2 := R.poziom_co2, poziom_amoniaku := R.poziom_amoniaku,
            naslonecznienie := R.naslonecznienie, data_i_czas := R.data_i_czas },
    ?_, rfl, rfl, rfl, rfl, rfl, ⟨hg1f, hft, ?_⟩, ⟨hg2f, hfw, ?_⟩⟩
  · unfold dekodujDANE
    simp only [hdrop, hargs, List.length_cons, List.length_nil, hstamp]
    rw [if_pos (by norm_num)]
    simp [argInt, argFloat]
  · rw [ht]; exact hg1n
  · rw [hw]; exact hg2n

end Kurnik

namespace Kurnik

set_option maxRecDepth 100000 in
/-- C4, as stated, fails.  A record whose timestamp (150 characters, no `;`)
does not fit the 150-byte buffer of the leaf is decoded with a shortened
timestamp; and a record whose temperature is NaN is decoded with a NaN, which
is within 0.01 of nothing. -/
theorem DANE_roundtrip_fails :
    (odczytB temp2232 (List.replicate 150 'x')).valid ∧
      ';' ∉ List.replicate 150 'x' ∧
      (dekodujDANE (Czujnik.ramkaDANE (odczytB temp2232 (List.replicate 150 'x')))).map
          (fun p => p.data_i_czas) = some (List.replicate 124 'x') ∧
      (dekodujDANE (Czujnik.ramkaDANE (odczytB temp2232 (List.replicate 150 'x')))).map
          (fun p => p.data_i_czas) ≠
        some (odczytB temp2232 (List.replicate 150 'x')).data_i_czas ∧
      (dekodujDANE (Czujnik.ramkaDANE (odczytB Float32.nan "15:55:06".toList))).map
          (fun p => p.temperatura) = some Float32.nan ∧
      ¬ Float32.within Float32.nan (odczytB Float32.nan "15:55:06".toList).temperatura
          (1 / 100) :=
  ⟨by decide, by decide, by decide, by decide, by decide, fun h => absurd h.1 (by decide)⟩

set_option maxRecDepth 100000 in
/-- The reading of scenario B. -/
theorem DANE_roundtrip_witness :
    (odczytB temp2232 "15:55:06 Wed, Jan 07 2026".toList).valid ∧
      (odczytB temp2232 "15:55:06 Wed, Jan 07 2026".toList).temperatura.isFinite = true ∧
      (odczytB temp2232 "15:55:06 Wed, Jan 07 2026".toList).wilgotnosc.isFinite = true ∧
      ';' ∉ (odczytB temp2232 "15:55:06 Wed, Jan 07 2026".toList).data_i_czas ∧
      (csvLine (odczytB temp2232 "15:55:06 Wed, Jan 07 2026".toList)).length ≤ 149 ∧
      ∃ p, dekodujDANE
            (Czujnik.ramkaDANE (odczytB temp2232 "15:55:06 Wed, Jan 07 2026".toList)) =
          some p ∧
        p.ID_urzadzenia = (odczytB temp2232 "15:55:06 Wed, Jan 07 2026".toList).ID_urzadzenia ∧
        p.poziom_co2 = (odczytB temp2232 "15:55:06 Wed, Jan 07 2026".toList).poziom_co2 ∧
        p.poziom_amoniaku =
          (odczytB temp2232 "15:55:06 Wed, Jan 07 2026".toList).poziom_amoniaku ∧
        p.naslonecznienie =
          (odczytB temp2232 "15:55:06 Wed, Jan 07 2026".toList).naslonecznienie ∧
        p.data_i_czas = (odczytB temp2232 "15:55:06 Wed, Jan 07 2026".toList).data_i_czas ∧
        p.temperatura.within
          (odczytB temp2232 "15:55:06 Wed, Jan 07 2026".toList).temperatura (1 / 100) ∧
        p.wilgotnosc.within
          (odczytB temp2232 "15:55:06 Wed, Jan 07 2026".toList).wilgotnosc (1 / 100) :=
  ⟨by decide, rfl, rfl, by decide, by decide,
    DANE_roundtrip _ (by decide) rfl rfl (by decide) (by decide)⟩

end Kurnik

namespace Kurnik

/-! ## Round trip of the tag-weight record -/

theorem semicolon_not_mem_natToText (n : Nat) : ';' ∉ natToText n := by
  intro h
  have := natToText_isdigit n ';' h
  exact absurd this (by decide)

theorem semicolon_not_mem_fmtInt (i : Int) : ';' ∉ fmtInt i := by
  unfold fmtInt
  split
  · simp only [List.mem_cons, not_or]
    exact ⟨by decide, semicolon_not_mem_natToText _⟩
  · exact semicolon_not_mem_natToText _

theorem semicolon_not_mem_fmtFixed2 (neg : Bool) (m : Nat) (e : Int) :
    ';' ∉ fmtFixed2 (.finite neg m e) := by
  have ha : hundredths m e % 100 / 10 < 10 := by omega
  have hb : hundredths m e % 10 < 10 := by omega
  have h1 : ';' ≠ digitChar (hundredths m e % 100 / 10) :=
    fun h => absurd (h ▸ isdigit_digitChar _ ha) (by decide)
  have h2 : ';' ≠ digitChar (hundredths m e % 10) :=
    fun h => absurd (h ▸ isdigit_digitChar _ hb) (by decide)
  have h3 := semicolon_not_mem_natToText (hundredths m e / 100)
  cases neg <;> simp [fmtFixed2, h1, h2, h3]

theorem isxdigit_ne_semicolon (c : Char) (h : isxdigit c = true) : (c != ';') = true := by
  have : c ≠ ';' := by
    rintro rfl
    exact absurd h (by decide)
  simpa using this

theorem scanSet15_tag (uid rest : Text) (h : isTagId uid) :
    scanSet15 (uid ++ ';' :: rest) = some (uid, ';' :: rest) := by
  obtain ⟨h1, h15, hx⟩ := h
  obtain ⟨ht, _⟩ := takeWhile_append_cons (fun c => c != ';') uid ';' rest
    (fun a ha => isxdigit_ne_semicolon a (hx a ha)) (by decide)
  have hne : uid ≠ [] := by
    intro e; rw [e] at h1; simp at h1
  unfold scanSet15
  simp only [ht, List.take_of_length_le h15, hne, if_false]
  simp

theorem kuraTimestamp_skip (a rest : Text) (h : ';' ∉ a) :
    ∀ count, kuraTimestamp (a ++ ';' :: rest) count =
      if count + 1 = 3 then rest else kuraTimestamp rest (count + 1) := by
  induction a with
  | nil => intro count; simp [kuraTimestamp]
  | cons x a ih =>
    intro count
    have hx : x ≠ ';' := fun e => h (by simp [e])
    have ha : ';' ∉ a := fun e => h (by simp [e])
    simp [kuraTimestamp, hx, ih ha]

theorem kuraLine_assoc (id : Int) (uid : Text) (w : Float32) (ts : Text) :
    kuraLine id uid w ts = fmtInt id ++ ';' :: (uid ++ ';' :: (fmtFixed2 w ++ ';' :: ts)) := by
  simp [kuraLine, List.append_assoc]

/-- C5, amended.  For every tag-weight record whose device id is 32-bit, whose
tag id is a hex string of 1 to 15 characters, whose weight is a finite binary32
number and whose text fits the buffer it is formatted into (fewer characters
than `bufferSize`), the root decodes the frame `KURA;` followed by that text
into the same device id, the same tag id and the same timestamp, and a weight
within 0.01 of the record. -/
theorem KURA_roundtrip (R : Waga.Pakiet_Danych) (bufferSize : Nat)
    (hid : isInt32 R.ID_urzadzenia) (htag : isTagId R.uid_rfid) (hv : R.waga.valid)
    (hf : R.waga.isFinite = true)
    (hfit : (kuraLine R.ID_urzadzenia R.uid_rfid R.waga R.data_i_czas).length < bufferSize) :
    ∃ k, dekodujKURA (Waga.ramkaKURA R bufferSize) = some k ∧
      k.id_urzadzenia = R.ID_urzadzenia ∧ k.id_kury = R.uid_rfid ∧
      k.timestamp = R.data_i_czas ∧ k.waga.within R.waga (1 / 100) := by
  obtain ⟨n1, m1, e1, hw⟩ := Float32.exists_of_isFinite _ hf
  have hdrop : (Waga.ramkaKURA R bufferSize).drop 5 =
      kuraLine R.ID_urzadzenia R.uid_rfid R.waga R.data_i_czas := by
    have h5 : "KURA;".toList = ['K', 'U', 'R', 'A', ';'] := rfl
    simp [Waga.ramkaKURA, Waga.pakietToCSV, snprintf, h5,
      List.take_of_length_le (Nat.le_sub_one_of_lt hfit)]
  rw [hw] at hv
  obtain ⟨g, hg, hgf, hgn⟩ := scanFloat_fmtFixed2_near n1 m1 e1 R.data_i_czas hv
  have hargs : sscanf (kuraLine R.ID_urzadzenia R.uid_rfid R.waga R.data_i_czas) kuraFormat =
      [.int R.ID_urzadzenia, .str R.uid_rfid, .float g] := by
    rw [kuraLine_assoc, kuraFormat]
    rw [sscanf_d _ _ _ _ (scanInt_fmtInt _ _ hid (Or.inr ⟨_, rfl⟩)), sscanf_lit]
    rw [sscanf_set15 _ _ _ _ (scanSet15_tag _ _ htag), sscanf_lit]
    rw [hw, sscanf_f _ _ _ _ hg]
    rfl
  have hstamp : kuraTimestamp (kuraLine R.ID_urzadzenia R.uid_rfid R.waga R.data_i_czas) 0 =
      R.data_i_czas := by
    have hx : ';' ∉ R.uid_rfid := by
      intro hmem
      have := isxdigit_ne_semicolon _ (htag.2.2 _ hmem)
      simp at this
    rw [kuraLine_assoc, hw, kuraTimestamp_skip _ _ (semicolon_not_mem_fmtInt _),
      if_neg (by norm_num), kuraTimestamp_skip _ _ hx, if_neg (by norm_num),
      kuraTimestamp_skip _ _ (semicolon_not_mem_fmtFixed2 _ _ _), if_pos (by norm_num)]
  refine ⟨{ id_urzadzenia := R.ID_urzadzenia, id_kury := R.uid_rfid, waga := g,
            timestamp := R.data_i_czas }, ?_, rfl, rfl, rfl, ⟨hgf, hf, ?_⟩⟩
  · unfold dekodujKURA
    simp only [hdrop, hargs, List.length_cons, List.length_nil, hstamp]
    rw [if_pos (by norm_num)]
    simp [argInt, argFloat, argStr]
  · rw [hw]; exact hgn

set_option maxRecDepth 100000 in
/-- The record of scenario E, formatted into a 150-byte buffer. -/
theorem KURA_roundtrip_witness :
    isInt32 (Waga.odczytE Waga.waga037 "23:44:15 Wed, Jan 28 2026".toList).ID_urzadzenia ∧
      isTagId (Waga.odczytE Waga.waga037 "23:44:15 Wed, Jan 28 2026".toList).uid_rfid ∧
      (Waga.odczytE Waga.waga037 "23:44:15 Wed, Jan 28 2026".toList).waga.valid ∧
      (Waga.odczytE Waga.waga037 "23:44:15 Wed, Jan 28 2026".toList).waga.isFinite = true ∧
      (kuraLine (Waga.odczytE Waga.waga037 "23:44:15 Wed, Jan 28 2026".toList).ID_urzadzenia
          (Waga.odczytE Waga.waga037 "23:44:15 Wed, Jan 28 2026".toList).uid_rfid
          (Waga.odczytE Waga.waga037 "23:44:15 Wed, Jan 28 2026".toList).waga
          (Waga.odczytE Waga.waga037 "23:44:15 Wed, Jan 28 2026".toList).data_i_czas).length <
        150 ∧
      ∃ k, dekodujKURA
            (Waga.ramkaKURA (Waga.odczytE Waga.waga037 "23:44:15 Wed, Jan 28 2026".toList)
              150) = some k ∧
        k.id_urzadzenia =
          (Waga.odczytE Waga.waga037 "23:44:15 Wed, Jan 28 2026".toList).ID_urzadzenia ∧
        k.id_kury = (Waga.odczytE Waga.waga037 "23:44:15 Wed, Jan 28 2026".toList).uid_rfid ∧
        k.timestamp =
          (Waga.odczytE Waga.waga037 "23:44:15 Wed, Jan 28 2026".toList).data_i_czas ∧
        k.waga.within (Waga.odczytE Waga.waga037 "23:44:15 Wed, Jan 28 2026".toList).waga
          (1 / 100) :=
  ⟨by decide, by decide, by decide, rfl, by decide,
    KURA_roundtrip _ 150 (by decide) (by decide) (by decide) rfl (by decide)⟩

set_option maxRecDepth 100000 in
/-- C5, as stated, fails.  A record whose text does not fit the buffer (here
150 bytes, a timestamp of 150 characters) is decoded with a shortened
timestamp; and a record whose weight is NaN is decoded with a NaN weight, which
is within 0.01 of nothing. -/
theorem KURA_roundtrip_fails :
    isTagId (Waga.odczytE Waga.waga037 (List.replicate 150 'x')).uid_rfid ∧
      (dekodujKURA (Waga.ramkaKURA (Waga.odczytE Waga.waga037 (List.replicate 150 'x'))
          150)).map (fun k => k.timestamp) = some (List.replicate 134 'x') ∧
      (dekodujKURA (Waga.ramkaKURA (Waga.odczytE Waga.waga037 (List.replicate 150 'x'))
          150)).map (fun k => k.timestamp) ≠
        some (Waga.odczytE Waga.waga037 (List.replicate 150 'x')).data_i_czas ∧
      (dekodujKURA (Waga.ramkaKURA (Waga.odczytE Float32.nan "23:44:15".toList)
          150)).map (fun k => k.waga) = some Float32.nan ∧
      ¬ Float32.within Float32.nan (Waga.odczytE Float32.nan "23:44:15".toList).waga
          (1 / 100) :=
  ⟨by decide, by decide, by decide, by decide, fun h => absurd h.1 (by decide)⟩

end Kurnik


/-! ## An empty queue, isolated frames, tag-weight frames -/

namespace Kurnik

/-- C11. Draining when the waitlist is empty (the file is missing, holds no
line, or holds only lines that are empty after trimming) changes nothing: no
publish is attempted, nothing is appended to the archive and no archive file
is created, the waitlist is neither modified nor deleted.  Only the record
that the drain was called grows; so draining twice leaves what draining once
leaves. -/
theorem drain_empty_noop (h : Hub) (c c2 : Bool) (pub pub2 : Nat → PublishResult)
    (hempty : pendingLines (h.sd.transfer_waitlist.getD []) = []) :
    PonowWyslijZKolejki h c pub =
        { h with calls := h.calls ++ [Call.PonowWyslijZKolejki] } ∧
      (PonowWyslijZKolejki h c pub).published = h.published ∧
      (PonowWyslijZKolejki h c pub).sd = h.sd ∧
      (PonowWyslijZKolejki (PonowWyslijZKolejki h c pub) c2 pub2).sd =
        (PonowWyslijZKolejki h c pub).sd ∧
      (PonowWyslijZKolejki (PonowWyslijZKolejki h c pub) c2 pub2).published =
        (PonowWyslijZKolejki h c pub).published := by
  have key : ∀ (g : Hub) (d : Bool) (q : Nat → PublishResult),
      pendingLines (g.sd.transfer_waitlist.getD []) = [] →
      PonowWyslijZKolejki g d q = { g with calls := g.calls ++ [Call.PonowWyslijZKolejki] } := by
    intro g d q hg
    cases d
    · rw [PonowWyslijZKolejki_disconnected]
    · cases hw : g.sd.transfer_waitlist with
      | none => rw [PonowWyslijZKolejki_missing g true q hw]
      | some w =>
        rw [hw] at hg
        simp only [Option.getD_some] at hg
        rw [PonowWyslijZKolejki_connected g q w hw, hg]
        simp [forwarded, appendLines, ← hw]
  have h1 := key h c pub hempty
  have h2 := key (PonowWyslijZKolejki h c pub) c2 pub2 (by rw [h1]; exact hempty)
  refine ⟨h1, ?_, ?_, ?_, ?_⟩
  · rw [h1]
  · rw [h1]
  · rw [h2]
  · rw [h2]

/-- A waitlist of blank lines, and no archive file: nothing is created. -/
theorem drain_empty_noop_witness :
    pendingLines ((hubWith none (some " \n\n\t\n".toList)).sd.transfer_waitlist.getD []) = [] ∧
      (PonowWyslijZKolejki (hubWith none (some " \n\n\t\n".toList)) true pubOk =
          { hubWith none (some " \n\n\t\n".toList) with
            calls := (hubWith none (some " \n\n\t\n".toList)).calls ++
              [Call.PonowWyslijZKolejki] } ∧
        (PonowWyslijZKolejki (hubWith none (some " \n\n\t\n".toList)) true pubOk).published =
          (hubWith none (some " \n\n\t\n".toList)).published ∧
        (PonowWyslijZKolejki (hubWith none (some " \n\n\t\n".toList)) true pubOk).sd =
          (hubWith none (some " \n\n\t\n".toList)).sd ∧
        (PonowWyslijZKolejki (PonowWyslijZKolejki (hubWith none (some " \n\n\t\n".toList))
            true pubOk) true pubOk).sd =
          (PonowWyslijZKolejki (hubWith none (some " \n\n\t\n".toList)) true pubOk).sd ∧
        (PonowWyslijZKolejki (PonowWyslijZKolejki (hubWith none (some " \n\n\t\n".toList))
            true pubOk) true pubOk).published =
          (PonowWyslijZKolejki (hubWith none (some " \n\n\t\n".toList)) true
            pubOk).published) :=
  ⟨by decide, drain_empty_noop _ true true pubOk pubOk (by decide)⟩

theorem dekodujKURA_isSome (msg : Text) (hc : 3 ≤ kuraParseCount msg) :
    ∃ k, dekodujKURA msg = some k ∧ k.timestamp = kuraTimestamp (msg.drop 5) 0 := by
  unfold kuraParseCount at hc
  simp only [dekodujKURA, if_pos hc]
  exact ⟨_, rfl, rfl⟩

theorem dekodujKURA_isNone (msg : Text) (hc : kuraParseCount msg < 3) :
    dekodujKURA msg = none := by
  unfold kuraParseCount at hc
  simp only [dekodujKURA, if_neg (Nat.not_le.mpr hc)]

theorem receivedCallback_KURA (h : Hub) (msg : Text) (r : PublishResult) (akt_czas : Nat)
    (k : Pakiet_Kura) (ht : msg.take 4 = "KURA".toList) (hk : dekodujKURA msg = some k) :
    receivedCallback h msg r akt_czas =
      WyslijPakietKura h k.id_urzadzenia k.id_kury k.waga k.timestamp r := by
  have hne : ¬ ("KURA".toList = "DANE".toList) := by decide
  simp [receivedCallback, ht, hne, hk]

theorem receivedCallback_KURA_dropped (h : Hub) (msg : Text) (r : PublishResult)
    (akt_czas : Nat) (ht : msg.take 4 = "KURA".toList) (hk : dekodujKURA msg = none) :
    receivedCallback h msg r akt_czas = h := by
  have hne : ¬ ("KURA".toList = "DANE".toList) := by decide
  simp [receivedCallback, ht, hne, hk]

theorem kury_topic_fits (topic : Text) (htopic : topic.length < 48) :
    snprintf 64 (topic ++ "/kury".toList) = topic ++ "/kury".toList := by
  unfold snprintf
  apply List.take_of_length_le
  have : ("/kury".toList).length = 5 := rfl
  rw [List.length_append, this]
  omega

/-- C13. For every `KURA` frame whose first three fields parse, received while
the base topic fits its 48-byte buffer, the root makes one publish, of the
decoded record printed as `%d;%s;%.2f;%s`, on the base topic followed by
`/kury`, and the storage card is as before, whatever the publish call
answers. -/
theorem KURA_published_not_stored (h : Hub) (msg : Text) (r : PublishResult) (akt_czas : Nat)
    (ht : msg.take 4 = "KURA".toList) (hc : 3 ≤ kuraParseCount msg)
    (htopic : h.topic.length < 48) :
    ∃ k, dekodujKURA msg = some k ∧
      (receivedCallback h msg r akt_czas).published =
        h.published ++
          [(h.topic ++ "/kury".toList,
            snprintf 150 (kuraLine k.id_urzadzenia k.id_kury k.waga k.timestamp))] ∧
      (receivedCallback h msg r akt_czas).sd = h.sd := by
  obtain ⟨k, hk, _⟩ := dekodujKURA_isSome msg hc
  refine ⟨k, hk, ?_⟩
  rw [receivedCallback_KURA h msg r akt_czas k ht hk]
  unfold WyslijPakietKura
  simp only [kury_topic_fits h.topic htopic]
  exact ⟨trivial, trivial⟩

set_option maxRecDepth 100000 in
/-- Scenario E, with the publish call failing. -/
theorem KURA_published_not_stored_witness :
    ("KURA;7;AB12CD;-0.37;23:44:15 Wed, Jan 28 2026".toList).take 4 = "KURA".toList ∧
      3 ≤ kuraParseCount "KURA;7;AB12CD;-0.37;23:44:15 Wed, Jan 28 2026".toList ∧
      (hubWith (some []) (some [])).topic.length < 48 ∧
      (∃ k, dekodujKURA "KURA;7;AB12CD;-0.37;23:44:15 Wed, Jan 28 2026".toList = some k ∧
        (receivedCallback (hubWith (some []) (some []))
            "KURA;7;AB12CD;-0.37;23:44:15 Wed, Jan 28 2026".toList
            (PublishResult.mk 0 false) 0).published =
          (hubWith (some []) (some [])).published ++
            [((hubWith (some []) (some [])).topic ++ "/kury".toList,
              snprintf 150 (kuraLine k.id_urzadzenia k.id_kury k.waga k.timestamp))] ∧
        (receivedCallback (hubWith (some []) (some []))
            "KURA;7;AB12CD;-0.37;23:44:15 Wed, Jan 28 2026".toList
            (PublishResult.mk 0 false) 0).sd = (hubWith (some []) (some [])).sd) ∧
      (receivedCallback (hubWith (some []) (some []))
          "KURA;7;AB12CD;-0.37;23:44:15 Wed, Jan 28 2026".toList
          (PublishResult.mk 0 false) 0).published =
        [("kurnik//kury".toList, "7;AB12CD;-0.37;23:44:15 Wed, Jan 28 2026".toList)] :=
  ⟨by decide, by decide, by decide,
    KURA_published_not_stored _ _ _ 0 (by decide) (by decide) (by decide), by decide⟩

end Kurnik

namespace Kurnik

theorem kuraTimestamp_few (s : Text) :
    ∀ count, s.count ';' + count < 3 → kuraTimestamp s count = [] := by
  induction s with
  | nil => intro count _; rfl
  | cons x s ih =>
    intro count hlt
    unfold kuraTimestamp
    by_cases hx : x = ';'
    · subst hx
      simp only [List.count_cons_self] at hlt
      rw [if_pos rfl, if_neg (by omega)]
      exact ih (count + 1) (by omega)
    · have hx2 : (x == ';') = false := by simpa using hx
      simp only [List.count_cons, hx2, Bool.false_eq_true, if_false, Nat.add_zero] at hlt
      rw [if_neg hx]
      exact ih count hlt

/-- C14. A `KURA` frame is forwarded by the root exactly when its first three
fields (device id, tag id, weight) parse: then one publish is made, otherwise
the hub is left as it is.  When such a frame has no fourth field (its payload
holds fewer than three `;`), the record is forwarded all the same and its
timestamp is the empty string. -/
theorem KURA_forwarded_iff (h : Hub) (msg : Text) (r : PublishResult) (akt_czas : Nat)
    (ht : msg.take 4 = "KURA".toList) :
    ((receivedCallback h msg r akt_czas).published ≠ h.published ↔ 3 ≤ kuraParseCount msg) ∧
      (kuraParseCount msg < 3 → receivedCallback h msg r akt_czas = h) ∧
      (3 ≤ kuraParseCount msg →
        ∃ k, dekodujKURA msg = some k ∧
          (receivedCallback h msg r akt_czas).published =
            h.published ++
              [(snprintf 64 (h.topic ++ "/kury".toList),
                snprintf 150 (kuraLine k.id_urzadzenia k.id_kury k.waga k.timestamp))] ∧
          ((msg.drop 5).count ';' < 3 → k.timestamp = [])) := by
  have hsome : 3 ≤ kuraParseCount msg →
      ∃ k, dekodujKURA msg = some k ∧
        (receivedCallback h msg r akt_czas).published =
          h.published ++
            [(snprintf 64 (h.topic ++ "/kury".toList),
              snprintf 150 (kuraLine k.id_urzadzenia k.id_kury k.waga k.timestamp))] ∧
        ((msg.drop 5).count ';' < 3 → k.timestamp = []) := by
    intro hc
    obtain ⟨k, hk, hts⟩ := dekodujKURA_isSome msg hc
    refine ⟨k, hk, ?_, ?_⟩
    · rw [receivedCallback_KURA h msg r akt_czas k ht hk]
      rfl
    · intro hfew
      rw [hts]
      exact kuraTimestamp_few _ 0 (by omega)
  have hnone : kuraParseCount msg < 3 → receivedCallback h msg r akt_czas = h :=
    fun hc => receivedCallback_KURA_dropped h msg r akt_czas ht (dekodujKURA_isNone msg hc)
  refine ⟨⟨?_, ?_⟩, hnone, hsome⟩
  · intro hne
    by_contra hc
    exact hne (by rw [hnone (Nat.lt_of_not_le hc)])
  · intro hc
    obtain ⟨k, _, hp, _⟩ := hsome hc
    rw [hp]
    intro he
    have := congrArg List.length he
    simp at this

set_option maxRecDepth 100000 in
/-- The frame of scenario E without its timestamp. -/
theorem KURA_forwarded_iff_witness :
    ("KURA;7;AB12CD;-0.37".toList).take 4 = "KURA".toList ∧
      (((receivedCallback (hubWith (some []) (some [])) "KURA;7;AB12CD;-0.37".toList
              (PublishResult.mk 1 true) 0).published ≠
            (hubWith (some []) (some [])).published ↔
          3 ≤ kuraParseCount "KURA;7;AB12CD;-0.37".toList) ∧
        (kuraParseCount "KURA;7;AB12CD;-0.37".toList < 3 →
          receivedCallback (hubWith (some []) (some [])) "KURA;7;AB12CD;-0.37".toList
              (PublishResult.mk 1 true) 0 = hubWith (some []) (some [])) ∧
        (3 ≤ kuraParseCount "KURA;7;AB12CD;-0.37".toList →
          ∃ k, dekodujKURA "KURA;7;AB12CD;-0.37".toList = some k ∧
            (receivedCallback (hubWith (some []) (some [])) "KURA;7;AB12CD;-0.37".toList
                (PublishResult.mk 1 true) 0).published =
              (hubWith (some []) (some [])).published ++
                [(snprintf 64 ((hubWith (some []) (some [])).topic ++ "/kury".toList),
                  snprintf 150 (kuraLine k.id_urzadzenia k.id_kury k.waga k.timestamp))] ∧
            ((("KURA;7;AB12CD;-0.37".toList).drop 5).count ';' < 3 → k.timestamp = []))) ∧
      3 ≤ kuraParseCount "KURA;7;AB12CD;-0.37".toList ∧
      (("KURA;7;AB12CD;-0.37".toList).drop 5).count ';' < 3 ∧
      (receivedCallback (hubWith (some []) (some [])) "KURA;7;AB12CD;-0.37".toList
          (PublishResult.mk 1 true) 0).published =
        [("kurnik//kury".toList, "7;AB12CD;-0.37;".toList)] :=
  ⟨by decide, KURA_forwarded_iff _ _ _ 0 (by decide), by decide, by decide, by decide⟩

/-- C17. On a `TIME` frame the root makes exactly one broadcast, `SYNC`
followed by the decimal text of its current local epoch, and nothing else:
the storage card, the connection latch and the record of publishes are as
before. -/
theorem TIME_broadcasts_epoch (h : Hub) (msg : Text) (r : PublishResult) (akt_czas : Nat)
    (ht : msg.take 4 = "TIME".toList) :
    receivedCallback h msg r akt_czas =
        { h with broadcasts := h.broadcasts ++ ["SYNC".toList ++ natToText akt_czas] } ∧
      (receivedCallback h msg r akt_czas).broadcasts =
        h.broadcasts ++ ["SYNC".toList ++ natToText akt_czas] ∧
      (receivedCallback h msg r akt_czas).sd = h.sd ∧
      (receivedCallback h msg r akt_czas).mqttByloPolaczone = h.mqttByloPolaczone ∧
      (receivedCallback h msg r akt_czas).published = h.published := by
  have h1 : ¬ ("TIME".toList = "DANE".toList) := by decide
  have h2 : ¬ ("TIME".toList = "KURA".toList) := by decide
  have key : receivedCallback h msg r akt_czas =
      { h with broadcasts := h.broadcasts ++ ["SYNC".toList ++ natToText akt_czas] } := by
    simp only [receivedCallback, ht, h1, h2, if_false, if_true, broadcastEpoch]
  rw [key]
  exact ⟨rfl, rfl, rfl, rfl, rfl⟩

/-- A time request at local epoch 1767801306. -/
theorem TIME_broadcasts_epoch_witness :
    ("TIME".toList).take 4 = "TIME".toList ∧
      (receivedCallback (hubWith (some []) (some [])) "TIME".toList (PublishResult.mk 1 true)
            1767801306 =
          { hubWith (some []) (some []) with
            broadcasts := (hubWith (some []) (some [])).broadcasts ++
              ["SYNC".toList ++ natToText 1767801306] } ∧
        (receivedCallback (hubWith (some []) (some [])) "TIME".toList (PublishResult.mk 1 true)
            1767801306).broadcasts =
          (hubWith (some []) (some [])).broadcasts ++
            ["SYNC".toList ++ natToText 1767801306] ∧
        (receivedCallback (hubWith (some []) (some [])) "TIME".toList (PublishResult.mk 1 true)
            1767801306).sd = (hubWith (some []) (some [])).sd ∧
        (receivedCallback (hubWith (some []) (some [])) "TIME".toList (PublishResult.mk 1 true)
            1767801306).mqttByloPolaczone =
          (hubWith (some []) (some [])).mqttByloPolaczone ∧
        (receivedCallback (hubWith (some []) (some [])) "TIME".toList (PublishResult.mk 1 true)
            1767801306).published = (hubWith (some []) (some [])).published) ∧
      (receivedCallback (hubWith (some []) (some [])) "TIME".toList (PublishResult.mk 1 true)
          1767801306).broadcasts = ["SYNC1767801306".toList] :=
  ⟨by decide, TIME_broadcasts_epoch _ _ _ 1767801306 (by decide), by decide⟩

end Kurnik

/-! ## The sensor leaf -/

namespace Czujnik

open Kurnik

theorem krok_without_time (l : Leaf) (z : Zdarzenie) (hz : z.jestSYNC = false)
    (hl : l.czy_ma_czas = false) :
    (krok l z).czy_ma_czas = false ∧ (krok l z).sent = l.sent := by
  cases z with
  | odebrano sender msg =>
    have hne : ¬ (msg.take 4 = "SYNC".toList) := by
      simpa [Zdarzenie.jestSYNC] using hz
    simp only [krok, receivedCallback, if_neg hne]
    exact ⟨hl, trivial⟩
  | zmianaPolaczen nodes =>
    simp only [krok, changedConnectionCallback]
    split <;> simp [hl]
  | czasNaZapytanie =>
    simp only [krok, zapytajOCzas]
    split <;> simp [hl]
  | czasNaOdczyt odczyt =>
    simp [krok, wyslijOdczyt, hl]

theorem przebieg_without_time (zdarzenia : List Zdarzenie) :
    ∀ l : Leaf, l.czy_ma_czas = false → (∀ z ∈ zdarzenia, z.jestSYNC = false) →
      (przebieg l zdarzenia).czy_ma_czas = false ∧ (przebieg l zdarzenia).sent = l.sent := by
  induction zdarzenia with
  | nil => intro l hl _; exact ⟨hl, rfl⟩
  | cons z zs ih =>
    intro l hl hall
    obtain ⟨h1, h2⟩ := krok_without_time l z (hall z (by simp)) hl
    obtain ⟨h3, h4⟩ := ih (krok l z) h1 (fun y hy => hall y (by simp [hy]))
    exact ⟨h3, by rw [← h2, ← h4]; rfl⟩

/-- C15. In every execution of the leaf from boot in which no `SYNC` frame is
received, whatever other frames arrive, however the connections change and
however many times the send task and the time-request task run, the leaf has
no time and has sent nothing to any node: no `DANE` frame leaves it. -/
theorem no_SYNC_no_DANE (zdarzenia : List Zdarzenie)
    (hno : ∀ z ∈ zdarzenia, z.jestSYNC = false) :
    (przebieg Leaf.boot zdarzenia).sent = [] ∧
      (przebieg Leaf.boot zdarzenia).czy_ma_czas = false := by
  obtain ⟨h1, h2⟩ := przebieg_without_time zdarzenia Leaf.boot rfl hno
  exact ⟨h2, h1⟩

set_option maxRecDepth 100000 in
/-- Scenario A: a peer appears, the time request runs, a foreign frame
arrives, the send task runs twice. -/
theorem no_SYNC_no_DANE_witness :
    (∀ z ∈ [Zdarzenie.zmianaPolaczen 1, Zdarzenie.czasNaZapytanie,
          Zdarzenie.odebrano 7 "DANE;1;2".toList,
          Zdarzenie.czasNaOdczyt (odczytB temp2232 "15:55:06".toList),
          Zdarzenie.czasNaOdczyt (odczytB temp2232 "15:55:11".toList)],
        z.jestSYNC = false) ∧
      ((przebieg Leaf.boot [Zdarzenie.zmianaPolaczen 1, Zdarzenie.czasNaZapytanie,
            Zdarzenie.odebrano 7 "DANE;1;2".toList,
            Zdarzenie.czasNaOdczyt (odczytB temp2232 "15:55:06".toList),
            Zdarzenie.czasNaOdczyt (odczytB temp2232 "15:55:11".toList)]).sent = [] ∧
        (przebieg Leaf.boot [Zdarzenie.zmianaPolaczen 1, Zdarzenie.czasNaZapytanie,
            Zdarzenie.odebrano 7 "DANE;1;2".toList,
            Zdarzenie.czasNaOdczyt (odczytB temp2232 "15:55:06".toList),
            Zdarzenie.czasNaOdczyt (odczytB temp2232 "15:55:11".toList)]).czy_ma_czas =
          false) :=
  ⟨by decide, no_SYNC_no_DANE _ (by decide)⟩

theorem strtoul_natToText (e : Nat) (he : e < 4294967296) : strtoul (natToText e) = e := by
  obtain ⟨c, t, hct, hcd⟩ := natToText_head e
  obtain ⟨h1, _⟩ := takeWhile_all isdigit (natToText e) (natToText_isdigit e)
  have hsp : (natToText e).dropWhile isspace = natToText e := by
    rw [hct]
    simp [List.dropWhile, isdigit_not_isspace c hcd]
  have hs : scanSign (natToText e) = (false, natToText e) := by
    rw [hct]; exact scanSign_of_digit c t hcd
  unfold strtoul
  simp only [hsp, hs, h1, natToText_ne_nil e, if_false, natOfDigits_natToText]
  rw [if_neg (by omega)]
  simp

theorem receivedCallback_SYNC (l : Leaf) (sender : Nat) (payload : Text) :
    receivedCallback l sender ("SYNC".toList ++ payload) =
      { l with
        root_id := sender
        rtc := (strtoul payload + 3600) % 4294967296
        czy_ma_czas := true
        taskZapytajCzas := false } := by
  have h4 : ("SYNC".toList ++ payload).take 4 = "SYNC".toList := by
    have : "SYNC".toList = ['S', 'Y', 'N', 'C'] := rfl
    simp [this]
  have h5 : ("SYNC".toList ++ payload).drop 4 = payload := by
    have : "SYNC".toList = ['S', 'Y', 'N', 'C'] := rfl
    simp [this]
  simp only [receivedCallback, h4, h5, if_true]

/-- C16, as stated, fails at the top of the 32-bit range: for the epoch
4294967295 the sum with 3600 wraps in the 32-bit `unsigned long` and the clock
is set to 3599, not to the epoch plus 3600. -/
theorem SYNC_clock_wraps :
    (receivedCallback Leaf.boot 7 ("SYNC".toList ++ natToText 4294967295)).rtc = 3599 ∧
      (receivedCallback Leaf.boot 7 ("SYNC".toList ++ natToText 4294967295)).rtc ≠
        4294967295 + 3600 := by
  decide

/-- C16, amended.  For every sender and every unsigned 32-bit epoch `e`, when
the leaf receives from the sender the frame `SYNC` followed by the decimal text
of `e`, afterwards the known root is the sender, the leaf has time, the
time-request task is disabled and the clock is set to `e + 3600` reduced modulo
`2^32`: to `e + 3600` itself whenever that fits 32 bits. -/
theorem SYNC_sets_clock (l : Leaf) (sender e : Nat) (he : e < 4294967296) :
    receivedCallback l sender ("SYNC".toList ++ natToText e) =
        { l with
          root_id := sender
          rtc := (e + 3600) % 4294967296
          czy_ma_czas := true
          taskZapytajCzas := false } ∧
      (e + 3600 < 4294967296 →
        (receivedCallback l sender ("SYNC".toList ++ natToText e)).rtc = e + 3600) := by
  rw [receivedCallback_SYNC, strtoul_natToText e he]
  exact ⟨rfl, fun hfit => Nat.mod_eq_of_lt hfit⟩

/-- The epoch 1767801306 sent by node 7. -/
theorem SYNC_sets_clock_witness :
    1767801306 < 4294967296 ∧
      (receivedCallback Leaf.boot 7 ("SYNC".toList ++ natToText 1767801306) =
          { Leaf.boot with
            root_id := 7
            rtc := (1767801306 + 3600) % 4294967296
            czy_ma_czas := true
            taskZapytajCzas := false } ∧
        (1767801306 + 3600 < 4294967296 →
          (receivedCallback Leaf.boot 7 ("SYNC".toList ++ natToText 1767801306)).rtc =
            1767801306 + 3600)) :=
  ⟨by decide, SYNC_sets_clock Leaf.boot 7 1767801306 (by decide)⟩

theorem strtoul_no_number (payload : Text) (hn : zaczynaSieLiczba payload = false) :
    strtoul payload = 0 := by
  unfold zaczynaSieLiczba at hn
  have hds : (scanSign (payload.dropWhile isspace)).2.takeWhile isdigit = [] := by
    cases hs : (scanSign (payload.dropWhile isspace)).2 with
    | nil => rfl
    | cons c t =>
      rw [hs] at hn
      simp only at hn
      simp [List.takeWhile, hn]
  unfold strtoul
  simp only [hds, if_true]

/-- C18. For every `SYNC` frame whose payload does not begin with a decimal
number (after the white space and the sign `strtoul` accepts there is no
digit; the empty payload is such), the leaf reads the epoch as 0 and handles
the frame like any other `SYNC`: the sender is recorded as root, the leaf has
time, the time-request task is disabled, the clock is set to 0 + 3600. -/
theorem SYNC_unparsable_is_zero (l : Leaf) (sender : Nat) (payload : Text)
    (hn : zaczynaSieLiczba payload = false) :
    strtoul payload = 0 ∧
      receivedCallback l sender ("SYNC".toList ++ payload) =
        { l with
          root_id := sender
          rtc := 3600
          czy_ma_czas := true
          taskZapytajCzas := false } := by
  have h0 := strtoul_no_number payload hn
  refine ⟨h0, ?_⟩
  rw [receivedCallback_SYNC, h0]

/-- The empty payload and a payload of letters. -/
theorem SYNC_unparsable_is_zero_witness :
    zaczynaSieLiczba "abc".toList = false ∧
      (strtoul "abc".toList = 0 ∧
        receivedCallback Leaf.boot 7 ("SYNC".toList ++ "abc".toList) =
          { Leaf.boot with
            root_id := 7
            rtc := 3600
            czy_ma_czas := true
            taskZapytajCzas := false }) ∧
      zaczynaSieLiczba [] = false ∧
      (receivedCallback Leaf.boot 7 "SYNC".toList).czy_ma_czas = true ∧
      (receivedCallback Leaf.boot 7 "SYNC".toList).root_id = 7 :=
  ⟨by decide, SYNC_unparsable_is_zero Leaf.boot 7 "abc".toList (by decide), by decide,
    by decide, by decide⟩

end Czujnik

/-! ## The line buffer and the timestamp -/

namespace Kurnik

set_option maxRecDepth 100000 in
/-- C19, as stated, fails: for a record whose line has 175 characters the
encoding reports nothing and produces a line, the first 149 characters; the
leaf sends it as a `DANE` frame. -/
theorem encoding_overflow_produces_line :
    (csvLine (odczytB temp2232 (List.replicate 150 'x'))).length = 175 ∧
      (Czujnik.pakietToCSV (odczytB temp2232 (List.replicate 150 'x')) 150).length = 149 ∧
      Czujnik.pakietToCSV (odczytB temp2232 (List.replicate 150 'x')) 150 =
        "5;22.32;61.65;1220;15;51;".toList ++ List.replicate 124 'x' ∧
      (Czujnik.wyslijOdczyt
          { Czujnik.Leaf.boot with root_id := 7, czy_ma_czas := true }
          (odczytB temp2232 (List.replicate 150 'x'))).sent =
        [(7, "DANE;5;22.32;61.65;1220;15;51;".toList ++ List.replicate 124 'x')] := by
  decide

/-- C19, amended.  Encoding a record whose line would exceed the 150-byte
buffer does not fail: `pakietToCSV` produces the first 149 characters of the
line, a leaf with time and a known root sends them as a `DANE` frame, and
`WyslijPakiet` at the hub publishes the first 149 characters as well. -/
theorem encoding_overflow_truncates (R : Pakiet_Danych) (l : Czujnik.Leaf) (h : Hub)
    (r : PublishResult) (hlong : 149 < (csvLine R).length)
    (ht : l.czy_ma_czas = true) (hroot : l.root_id ≠ 0) :
    Czujnik.pakietToCSV R 150 = (csvLine R).take 149 ∧
      (Czujnik.pakietToCSV R 150).length = 149 ∧
      (Czujnik.wyslijOdczyt l R).sent =
        l.sent ++ [(l.root_id, "DANE;".toList ++ (csvLine R).take 149)] ∧
      (WyslijPakiet h R r).published = h.published ++ [(h.topic, (csvLine R).take 149)] := by
  have h1 : Czujnik.pakietToCSV R 150 = (csvLine R).take 149 := rfl
  refine ⟨h1, ?_, ?_, rfl⟩
  · rw [h1, List.length_take]
    omega
  · simp [Czujnik.wyslijOdczyt, ht, hroot, Czujnik.ramkaDANE, h1]

set_option maxRecDepth 100000 in
/-- The record with a timestamp of 150 characters. -/
theorem encoding_overflow_truncates_witness :
    149 < (csvLine (odczytB temp2232 (List.replicate 150 'x'))).length ∧
      ({ Czujnik.Leaf.boot with root_id := 7, czy_ma_czas := true } : Czujnik.Leaf).czy_ma_czas =
        true ∧
      ({ Czujnik.Leaf.boot with root_id := 7, czy_ma_czas := true } : Czujnik.Leaf).root_id ≠ 0 ∧
      (Czujnik.pakietToCSV (odczytB temp2232 (List.replicate 150 'x')) 150 =
          (csvLine (odczytB temp2232 (List.replicate 150 'x'))).take 149 ∧
        (Czujnik.pakietToCSV (odczytB temp2232 (List.replicate 150 'x')) 150).length = 149 ∧
        (Czujnik.wyslijOdczyt { Czujnik.Leaf.boot with root_id := 7, czy_ma_czas := true }
            (odczytB temp2232 (List.replicate 150 'x'))).sent =
          ({ Czujnik.Leaf.boot with root_id := 7, czy_ma_czas := true } : Czujnik.Leaf).sent ++
            [(({ Czujnik.Leaf.boot with root_id := 7, czy_ma_czas := true } :
                Czujnik.Leaf).root_id,
              "DANE;".toList ++
                (csvLine (odczytB temp2232 (List.replicate 150 'x'))).take 149)] ∧
        (WyslijPakiet (hubWith (some []) (some []))
            (odczytB temp2232 (List.replicate 150 'x')) (PublishResult.mk 1 true)).published =
          (hubWith (some []) (some [])).published ++
            [((hubWith (some []) (some [])).topic,
              (csvLine (odczytB temp2232 (List.replicate 150 'x'))).take 149)]) :=
  ⟨by decide, rfl, by decide,
    encoding_overflow_truncates _ _ (hubWith (some []) (some [])) (PublishResult.mk 1 true)
      (by decide) rfl (by decide)⟩

theorem exists_last_semicolon (s : Text) (h : ';' ∈ s) :
    ∃ pre ts, s = pre ++ ';' :: ts ∧ ';' ∉ ts := by
  induction s with
  | nil => simp at h
  | cons x s ih =>
    by_cases hs : ';' ∈ s
    · obtain ⟨pre, ts, he, hts⟩ := ih hs
      exact ⟨x :: pre, ts, by rw [he]; rfl, hts⟩
    · have hx : x = ';' := by
        rcases List.mem_cons.mp h with h1 | h1
        · exact h1.symm
        · exact absurd h1 hs
      exact ⟨[], s, by rw [hx]; rfl, hs⟩

theorem afterLastSemicolon_append (pre ts : Text) (h : ';' ∉ ts) :
    afterLastSemicolon (pre ++ ';' :: ts) = ts := by
  unfold afterLastSemicolon
  have hr : (pre ++ ';' :: ts).reverse = ts.reverse ++ ';' :: pre.reverse := by simp
  rw [hr]
  obtain ⟨h1, _⟩ := takeWhile_append_cons (fun c => c != ';') ts.reverse ';' pre.reverse
    (fun a ha => by
      have : a ≠ ';' := fun e => h (by rw [← e]; exact List.mem_reverse.mp ha)
      simpa using this) (by decide)
  rw [h1, List.reverse_reverse]

theorem scanSign_suffix (s : Text) : (scanSign s).2 <:+ s := by
  unfold scanSign
  split
  · exact List.suffix_cons _ _
  · exact List.suffix_cons _ _
  · exact List.suffix_refl _

theorem scanInt_suffix (s t : Text) (v : Int) (h : scanInt s = some (v, t)) : t <:+ s := by
  unfold scanInt at h
  simp only at h
  split at h
  · exact absurd h (by simp)
  · simp only [Option.some.injEq, Prod.mk.injEq] at h
    rw [← h.2]
    exact (List.dropWhile_suffix _).trans
      ((scanSign_suffix _).trans (List.dropWhile_suffix _))

theorem semicolon_mem_of_two_fields (s : Text) (ds : List Directive)
    (h : 2 ≤ (sscanf s (.d :: .lit ';' :: ds)).length) : ';' ∈ s := by
  unfold sscanf at h
  cases hi : scanInt s with
  | none => simp [hi] at h
  | some p =>
    obtain ⟨v, t⟩ := p
    simp only [hi] at h
    have hsuf := scanInt_suffix s t v hi
    cases t with
    | nil => simp [sscanf] at h
    | cons x t2 =>
      by_cases hx : x = ';'
      · subst hx
        exact hsuf.subset (by simp)
      · simp [sscanf, hx] at h

/-- The timestamp the `DANE` branch recovers is the text after the last `;`
of the payload. -/
theorem dekodujDANE_timestamp (msg : Text) (p : Pakiet_Danych) (h : dekodujDANE msg = some p) :
    p.data_i_czas = afterLastSemicolon (msg.drop 5) := by
  unfold dekodujDANE at h
  simp only at h
  split at h
  · rename_i hc
    have hmem : ';' ∈ msg.drop 5 :=
      semicolon_mem_of_two_fields (msg.drop 5)
        [.f, .lit ';', .f, .lit ';', .d, .lit ';', .d, .lit ';', .d]
        (Nat.le_trans (by norm_num) hc)
    obtain ⟨pre, ts, he, hts⟩ := exists_last_semicolon _ hmem
    simp only [Option.some.injEq] at h
    rw [← h]
    simp only
    rw [he, timestamp_after_last pre ts hts, afterLastSemicolon_append pre ts hts]
  · exact absurd h (by simp)

theorem kuraTimestamp_eq (s : Text) :
    ∀ count, count < 3 → kuraTimestamp s count = afterSemicolons (3 - count) s := by
  induction s with
  | nil =>
    intro count hc
    obtain ⟨n, hn⟩ : ∃ n, 3 - count = n + 1 := ⟨2 - count, by omega⟩
    rw [hn]
    rfl
  | cons x s ih =>
    intro count hc
    obtain ⟨n, hn⟩ : ∃ n, 3 - count = n + 1 := ⟨2 - count, by omega⟩
    rw [hn]
    unfold kuraTimestamp afterSemicolons
    by_cases hx : x = ';'
    · subst hx
      simp only [if_true, List.dropWhile_cons, bne_self_eq_false, Bool.false_eq_true, if_false]
      by_cases h3 : count + 1 = 3
      · have : n = 0 := by omega
        rw [if_pos h3, this]
        rfl
      · rw [if_neg h3, ih (count + 1) (by omega)]
        congr 1
        omega
    · have hb : (x != ';') = true := by simpa using hx
      simp only [if_neg hx, List.dropWhile_cons, hb, if_true]
      rw [ih count hc, hn]
      rfl

end Kurnik

namespace Kurnik

theorem dropWhile_semicolon (s : Text) (h : ';' ∈ s) :
    ∃ t, s.dropWhile (fun c => c != ';') = ';' :: t ∧
      s = s.takeWhile (fun c => c != ';') ++ ';' :: t ∧ t.count ';' + 1 = s.count ';' := by
  induction s with
  | nil => simp at h
  | cons x s ih =>
    by_cases hx : x = ';'
    · subst hx
      exact ⟨s, by simp, by simp, by simp⟩
    · have hs : ';' ∈ s := by
        rcases List.mem_cons.mp h with h1 | h1
        · exact absurd h1.symm hx
        · exact h1
      obtain ⟨t, h1, h2, h3⟩ := ih hs
      have hb : (x != ';') = true := by simpa using hx
      have hb2 : (x == ';') = false := by simpa using hx
      refine ⟨t, by simp [List.dropWhile_cons, hb, h1], ?_, ?_⟩
      · simp only [List.takeWhile_cons, hb, if_true, List.cons_append]
        rw [← h2]
      · simp [List.count_cons, hb2, h3]

theorem afterSemicolons_split (n : Nat) :
    ∀ s : Text, n < s.count ';' → ∃ pre, s = pre ++ ';' :: afterSemicolons (n + 1) s := by
  induction n with
  | zero =>
    intro s hs
    obtain ⟨t, h1, h2, _⟩ := dropWhile_semicolon s (List.count_pos_iff.mp (by omega))
    refine ⟨s.takeWhile (fun c => c != ';'), ?_⟩
    simp only [afterSemicolons, h1]
    exact h2
  | succ n ih =>
    intro s hs
    obtain ⟨t, h1, h2, h3⟩ := dropWhile_semicolon s (List.count_pos_iff.mp (by omega))
    obtain ⟨pre, hpre⟩ := ih t (by omega)
    refine ⟨s.takeWhile (fun c => c != ';') ++ ';' :: pre, ?_⟩
    have e : afterSemicolons (n + 1 + 1) s = afterSemicolons (n + 1) t := by
      rw [afterSemicolons, h1]
    rw [e, List.append_assoc, List.cons_append, ← hpre]
    exact h2

/-- When the payload holds at least three `;` and the text after the third
holds none, that text is also the text after the last `;`. -/
theorem afterSemicolons_eq_afterLast (s : Text) (h3 : 3 ≤ s.count ';')
    (hts : ';' ∉ afterSemicolons 3 s) : afterSemicolons 3 s = afterLastSemicolon s := by
  obtain ⟨pre, hpre⟩ := afterSemicolons_split 2 s (by omega)
  have := afterLastSemicolon_append pre (afterSemicolons 3 s) hts
  rw [← hpre] at this
  exact this.symm

end Kurnik

namespace Kurnik

set_option maxRecDepth 100000 in
/-- C20, as stated, fails for `KURA` frames: the timestamp decoded from
`KURA;7;AB12CD;-0.37;a;b` is `a;b`, while the text after the last `;` of the
payload is `b`. -/
theorem KURA_timestamp_not_after_last :
    (dekodujKURA "KURA;7;AB12CD;-0.37;a;b".toList).map (fun k => k.timestamp) =
        some "a;b".toList ∧
      afterLastSemicolon ("KURA;7;AB12CD;-0.37;a;b".toList.drop 5) = "b".toList ∧
      (dekodujKURA "KURA;7;AB12CD;-0.37;a;b".toList).map (fun k => k.timestamp) ≠
        some (afterLastSemicolon ("KURA;7;AB12CD;-0.37;a;b".toList.drop 5)) := by
  decide

/-- C20, amended.  For every `DANE` frame the root decodes, the timestamp of
the decoded record is the substring of the payload after its last `;`.  For
every `KURA` frame the root decodes, the timestamp is the substring of the
payload after its third `;`, empty when the payload holds fewer than three;
it is the substring after the last `;` when the payload holds three or more
and the timestamp itself holds none. -/
theorem decoded_timestamp (msg : Text) :
    (∀ p, dekodujDANE msg = some p → p.data_i_czas = afterLastSemicolon (msg.drop 5)) ∧
      (∀ k, dekodujKURA msg = some k → k.timestamp = afterSemicolons 3 (msg.drop 5)) ∧
      (∀ k, dekodujKURA msg = some k → 3 ≤ (msg.drop 5).count ';' → ';' ∉ k.timestamp →
        k.timestamp = afterLastSemicolon (msg.drop 5)) := by
  have hk3 : ∀ k, dekodujKURA msg = some k → k.timestamp = afterSemicolons 3 (msg.drop 5) := by
    intro k hk
    unfold dekodujKURA at hk
    simp only at hk
    split at hk
    · simp only [Option.some.injEq] at hk
      rw [← hk]
      exact kuraTimestamp_eq _ 0 (by norm_num)
    · exact absurd hk (by simp)
  refine ⟨fun p hp => dekodujDANE_timestamp msg p hp, hk3, fun k hk h3 hts => ?_⟩
  rw [hk3 k hk] at hts ⊢
  exact afterSemicolons_eq_afterLast _ h3 hts

set_option maxRecDepth 100000 in
/-- The frames of scenarios B and E. -/
theorem decoded_timestamp_witness :
    (∃ p, dekodujDANE "DANE;5;22.32;61.65;1220;15;51;15:55:06 Wed, Jan 07 2026".toList =
          some p ∧
        p.data_i_czas =
          afterLastSemicolon
            ("DANE;5;22.32;61.65;1220;15;51;15:55:06 Wed, Jan 07 2026".toList.drop 5)) ∧
      (∃ k, dekodujKURA "KURA;7;AB12CD;-0.37;23:44:15 Wed, Jan 28 2026".toList = some k ∧
        k.timestamp =
          afterSemicolons 3 ("KURA;7;AB12CD;-0.37;23:44:15 Wed, Jan 28 2026".toList.drop 5)) ∧
      afterLastSemicolon
          ("DANE;5;22.32;61.65;1220;15;51;15:55:06 Wed, Jan 07 2026".toList.drop 5) =
        "15:55:06 Wed, Jan 07 2026".toList ∧
      afterSemicolons 3 ("KURA;7;AB12CD;-0.37;23:44:15 Wed, Jan 28 2026".toList.drop 5) =
        "23:44:15 Wed, Jan 28 2026".toList := by
  refine ⟨?_, ?_, by decide, by decide⟩
  · obtain ⟨p, hp⟩ := dekodujDANE_isSome
      "DANE;5;22.32;61.65;1220;15;51;15:55:06 Wed, Jan 07 2026".toList (by decide)
    exact ⟨p, hp, (decoded_timestamp _).1 p hp⟩
  · obtain ⟨k, hk, _⟩ := dekodujKURA_isSome
      "KURA;7;AB12CD;-0.37;23:44:15 Wed, Jan 28 2026".toList (by decide)
    exact ⟨k, hk, (decoded_timestamp _).2.1 k hk⟩

end Kurnik


/-! ## A lost broker, the time request, one line through the queue -/

namespace Kurnik

theorem readLines_acc (s cur : Text) (hs : '\n' ∉ s) :
    readLines (s ++ ['\n']) cur = [cur ++ s] := by
  induction s generalizing cur with
  | nil => simp [readLines]
  | cons c t ih =>
    have hc : c ≠ '\n' := fun e => hs (by simp [e])
    have ht : '\n' ∉ t := fun e => hs (by simp [e])
    show readLines (c :: (t ++ ['\n'])) cur = [cur ++ c :: t]
    simp only [readLines, if_neg hc]
    rw [ih _ ht]
    simp

/-- C26. For every non-empty line that holds no newline and has no white
space at either end: recording it as undelivered into an empty (or missing)
waitlist and then running a drain whose forward succeeds leaves the archive
with exactly the content that recording the line as delivered would have
produced, and leaves no waitlist file. -/
theorem undelivered_then_drained (h : Hub) (line : Text) (pub : Nat → PublishResult)
    (hne : line ≠ []) (hnl : '\n' ∉ line) (htrim : trim line = line)
    (hempty : h.sd.transfer_waitlist.getD [] = []) (hok : (pub 0).ok) :
    (PonowWyslijZKolejki { h with sd := ZapiszDanePakiet h.sd line false } true
          pub).sd.backup_data =
        (ZapiszDanePakiet h.sd line true).backup_data ∧
      (PonowWyslijZKolejki { h with sd := ZapiszDanePakiet h.sd line false } true
          pub).sd.transfer_waitlist = none ∧
      (PonowWyslijZKolejki { h with sd := ZapiszDanePakiet h.sd line false } true
          pub).published = h.published ++ [(h.topic, line)] := by
  have hw : ({ h with sd := ZapiszDanePakiet h.sd line false } : Hub).sd.transfer_waitlist =
      some (line ++ ['\n']) := by
    simp [ZapiszDanePakiet, appendFile_waitlist, hempty]
  have hb : ({ h with sd := ZapiszDanePakiet h.sd line false } : Hub).sd.backup_data =
      h.sd.backup_data := by
    simp [ZapiszDanePakiet, appendFile_waitlist]
  have hp : pendingLines (line ++ ['\n']) = [line] := by
    unfold pendingLines
    rw [readLines_acc line [] hnl]
    simp [pendingOf, htrim, hne]
  have hf : forwarded pub [line] 0 = [line] := by
    unfold PublishResult.ok at hok
    simp [forwarded, hok]
  rw [PonowWyslijZKolejki_connected _ pub _ hw, hp, hf, hb]
  refine ⟨?_, ?_, ?_⟩
  · simp [appendLines, ZapiszDanePakiet, appendFile_backup]
  · simp
  · simp

set_option maxRecDepth 100000 in
/-- The line of scenario B through a missing waitlist. -/
theorem undelivered_then_drained_witness :
    "5;22.32;61.65;1220;15;51;15:55:06 Wed, Jan 07 2026".toList ≠ [] ∧
      '\n' ∉ "5;22.32;61.65;1220;15;51;15:55:06 Wed, Jan 07 2026".toList ∧
      trim "5;22.32;61.65;1220;15;51;15:55:06 Wed, Jan 07 2026".toList =
        "5;22.32;61.65;1220;15;51;15:55:06 Wed, Jan 07 2026".toList ∧
      (PonowWyslijZKolejki
            { hubWith (some "1;2\n".toList) none with
              sd := ZapiszDanePakiet (hubWith (some "1;2\n".toList) none).sd
                "5;22.32;61.65;1220;15;51;15:55:06 Wed, Jan 07 2026".toList false }
            true pubOk).sd.backup_data =
          (ZapiszDanePakiet (hubWith (some "1;2\n".toList) none).sd
            "5;22.32;61.65;1220;15;51;15:55:06 Wed, Jan 07 2026".toList true).backup_data ∧
      (PonowWyslijZKolejki
            { hubWith (some "1;2\n".toList) none with
              sd := ZapiszDanePakiet (hubWith (some "1;2\n".toList) none).sd
                "5;22.32;61.65;1220;15;51;15:55:06 Wed, Jan 07 2026".toList false }
            true pubOk).sd.transfer_waitlist = none :=
  ⟨by decide, by decide, by decide,
    (undelivered_then_drained (hubWith (some "1;2\n".toList) none) _ pubOk (by decide)
      (by decide) (by decide) rfl ⟨Nat.one_ne_zero, rfl⟩).1,
    (undelivered_then_drained (hubWith (some "1;2\n".toList) none) _ pubOk (by decide)
      (by decide) (by decide) rfl ⟨Nat.one_ne_zero, rfl⟩).2.1⟩

end Kurnik

namespace Czujnik

open Kurnik

theorem krok_with_time (l : Leaf) (z : Zdarzenie) (ht : l.czy_ma_czas = true) :
    (krok l z).czy_ma_czas = true ∧
      ((krok l z).taskZapytajCzas = true → l.taskZapytajCzas = true) ∧
      (krok l z).broadcasts = l.broadcasts := by
  cases z with
  | odebrano sender msg =>
    by_cases hs : msg.take 4 = "SYNC".toList
    · simp only [krok, receivedCallback, if_pos hs]
      exact ⟨trivial, fun h => absurd h (by simp), trivial⟩
    · simp only [krok, receivedCallback, if_neg hs]
      exact ⟨ht, id, trivial⟩
  | zmianaPolaczen nodes => simp [krok, changedConnectionCallback, ht]
  | czasNaZapytanie =>
    cases hq : l.taskZapytajCzas <;> simp [krok, zapytajOCzas, ht, hq]
  | czasNaOdczyt odczyt =>
    by_cases hr : l.root_id = 0
    · simp [krok, wyslijOdczyt, ht, hr]
    · simp [krok, wyslijOdczyt, ht, hr]

theorem przebieg_with_time (zdarzenia : List Zdarzenie) :
    ∀ l : Leaf, l.czy_ma_czas = true →
      (przebieg l zdarzenia).czy_ma_czas = true ∧
        ((przebieg l zdarzenia).taskZapytajCzas = true → l.taskZapytajCzas = true) ∧
        (przebieg l zdarzenia).broadcasts = l.broadcasts := by
  induction zdarzenia with
  | nil => intro l ht; exact ⟨ht, id, rfl⟩
  | cons z zs ih =>
    intro l ht
    obtain ⟨h1, h2, h3⟩ := krok_with_time l z ht
    obtain ⟨h4, h5, h6⟩ := ih (krok l z) h1
    exact ⟨h4, fun h => h2 (h5 h), h6.trans h3⟩

theorem krok_enables (l : Leaf) (z : Zdarzenie) (hoff : l.taskZapytajCzas = false)
    (hon : (krok l z).taskZapytajCzas = true) :
    ∃ nodes, z = Zdarzenie.zmianaPolaczen nodes ∧ 0 < nodes ∧ l.czy_ma_czas = false := by
  cases z with
  | odebrano sender msg =>
    by_cases hs : msg.take 4 = "SYNC".toList
    · simp only [krok, receivedCallback, if_pos hs] at hon
      exact absurd hon (by simp)
    · simp only [krok, receivedCallback, if_neg hs, hoff] at hon
      exact absurd hon (by simp)
  | zmianaPolaczen nodes =>
    by_cases hc : 0 < nodes ∧ l.czy_ma_czas = false
    · exact ⟨nodes, rfl, hc.1, hc.2⟩
    · simp only [krok, changedConnectionCallback, if_neg hc, hoff] at hon
      exact absurd hon (by simp)
  | czasNaZapytanie =>
    by_cases ht : l.czy_ma_czas = false
    · simp [krok, zapytajOCzas, ht, hoff] at hon
    · simp [krok, zapytajOCzas, ht, hoff] at hon
  | czasNaOdczyt odczyt =>
    by_cases ht : l.czy_ma_czas = true
    · by_cases hr : l.root_id = 0
      · simp [krok, wyslijOdczyt, ht, hr, hoff] at hon
      · simp [krok, wyslijOdczyt, ht, hr, hoff] at hon
    · simp [krok, wyslijOdczyt, ht, hoff] at hon

/-- C25. On the leaf a step turns the time-request task from disabled to
enabled only when it is a connection change that finds at least one peer while
the leaf has no time.  Once the leaf has time, in every execution that follows
(frames received, connection changes, runs of the two tasks) it keeps having
time, the time-request task is not enabled unless it was enabled already, and
no `TIME` frame is broadcast: the time-request callback leaves the leaf as it
is. -/
theorem time_request_gated (l : Leaf) :
    (∀ z, l.taskZapytajCzas = false → (krok l z).taskZapytajCzas = true →
        ∃ nodes, z = Zdarzenie.zmianaPolaczen nodes ∧ 0 < nodes ∧ l.czy_ma_czas = false) ∧
      (l.czy_ma_czas = true →
        zapytajOCzas l = l ∧
          ∀ zdarzenia,
            (przebieg l zdarzenia).czy_ma_czas = true ∧
              ((przebieg l zdarzenia).taskZapytajCzas = true → l.taskZapytajCzas = true) ∧
              (przebieg l zdarzenia).broadcasts = l.broadcasts) := by
  refine ⟨fun z hoff hon => krok_enables l z hoff hon, fun ht => ⟨?_, fun zs => ?_⟩⟩
  · simp [zapytajOCzas, ht]
  · exact przebieg_with_time zs l ht

set_option maxRecDepth 100000 in
/-- A leaf synchronised by node 7, then a foreign frame, a new peer and the
time-request task coming due. -/
theorem time_request_gated_witness :
    (receivedCallback Leaf.boot 7 "SYNC1767801306".toList).czy_ma_czas = true ∧
      (przebieg (receivedCallback Leaf.boot 7 "SYNC1767801306".toList)
          [Zdarzenie.odebrano 9 "TIME".toList, Zdarzenie.zmianaPolaczen 2,
            Zdarzenie.czasNaZapytanie]).czy_ma_czas = true ∧
      (przebieg (receivedCallback Leaf.boot 7 "SYNC1767801306".toList)
          [Zdarzenie.odebrano 9 "TIME".toList, Zdarzenie.zmianaPolaczen 2,
            Zdarzenie.czasNaZapytanie]).taskZapytajCzas = false ∧
      (przebieg (receivedCallback Leaf.boot 7 "SYNC1767801306".toList)
          [Zdarzenie.odebrano 9 "TIME".toList, Zdarzenie.zmianaPolaczen 2,
            Zdarzenie.czasNaZapytanie]).broadcasts = [] ∧
      (krok Leaf.boot (Zdarzenie.zmianaPolaczen 1)).taskZapytajCzas = true ∧
      ∃ nodes, Zdarzenie.zmianaPolaczen 1 = Zdarzenie.zmianaPolaczen nodes ∧ 0 < nodes ∧
        Leaf.boot.czy_ma_czas = false :=
  ⟨by decide,
    (((time_request_gated (receivedCallback Leaf.boot 7 "SYNC1767801306".toList)).2
      (by decide)).2 _).1,
    by decide, by decide, by decide,
    (time_request_gated Leaf.boot).1 (Zdarzenie.zmianaPolaczen 1) rfl (by decide)⟩

/-- C27. For every hardware address of the root, the mesh name the root hosts
(`KurnikMesh_` followed by the address without its colons) passes the filter
of the leaf's first-boot scan: it starts with the name the leaf looks for, so
a scan that lists it has it among its candidates. -/
theorem root_name_passes_filter (macAddr : Text) :
    startsWith (MESH_PREFIX macAddr) KurnikMesh = true ∧
      ∀ (sieci : List Siec) (n : Siec), n ∈ sieci → n.ssid = MESH_PREFIX macAddr →
        n ∈ kandydaci sieci := by
  have h : startsWith (MESH_PREFIX macAddr) KurnikMesh = true := by
    simp [startsWith, MESH_PREFIX, KurnikMesh]
  refine ⟨h, fun sieci n hn he => ?_⟩
  unfold kandydaci
  exact List.mem_filter.mpr ⟨hn, by rw [he]; exact h⟩

set_option maxRecDepth 100000 in
/-- The address `A1:B2:C3:D4:E5:F6`. -/
theorem root_name_passes_filter_witness :
    MESH_PREFIX "A1:B2:C3:D4:E5:F6".toList = "KurnikMesh_A1B2C3D4E5F6".toList ∧
      startsWith (MESH_PREFIX "A1:B2:C3:D4:E5:F6".toList) KurnikMesh = true ∧
      Siec.mk (MESH_PREFIX "A1:B2:C3:D4:E5:F6".toList) (-70) 11 ∈
        kandydaci [Siec.mk "dom".toList (-40) 1,
          Siec.mk (MESH_PREFIX "A1:B2:C3:D4:E5:F6".toList) (-70) 11] :=
  ⟨by decide, (root_name_passes_filter _).1,
    (root_name_passes_filter "A1:B2:C3:D4:E5:F6".toList).2 _ _ (by decide) rfl⟩

end Czujnik

/-! ## The tag id of a tag-weight frame -/

namespace Kurnik

theorem semicolon_not_isspace : isspace ';' = false := by decide

theorem semicolon_not_isdigit : isdigit ';' = false := by decide

/-- What `%d` consumes holds no `;`. -/
theorem scanInt_consumed (s t : Text) (v : Int) (h : scanInt s = some (v, t)) :
    ∃ pre, s = pre ++ t ∧ ';' ∉ pre := by
  unfold scanInt at h
  simp only at h
  split at h
  · exact absurd h (by simp)
  · simp only [Option.some.injEq, Prod.mk.injEq] at h
    have h1 : s = s.takeWhile isspace ++ s.dropWhile isspace :=
      (List.takeWhile_append_dropWhile _ _).symm
    have hws : ';' ∉ s.takeWhile isspace := by
      intro hm
      have := List.mem_takeWhile_imp hm
      rw [semicolon_not_isspace] at this
      exact absurd this (by simp)
    have hsign : ∃ sg, s.dropWhile isspace = sg ++ (scanSign (s.dropWhile isspace)).2 ∧
        ';' ∉ sg := by
      unfold scanSign
      split
      · rename_i t0 heq
        exact ⟨['-'], by rw [heq]; rfl, by decide⟩
      · rename_i t0 heq
        exact ⟨['+'], by rw [heq]; rfl, by decide⟩
      · exact ⟨[], rfl, by simp⟩
    obtain ⟨sg, hsg, hsgn⟩ := hsign
    have h2 : (scanSign (s.dropWhile isspace)).2 =
        (scanSign (s.dropWhile isspace)).2.takeWhile isdigit ++
          (scanSign (s.dropWhile isspace)).2.dropWhile isdigit :=
      (List.takeWhile_append_dropWhile _ _).symm
    have hds : ';' ∉ (scanSign (s.dropWhile isspace)).2.takeWhile isdigit := by
      intro hm
      have := List.mem_takeWhile_imp hm
      rw [semicolon_not_isdigit] at this
      exact absurd this (by simp)
    refine ⟨s.takeWhile isspace ++ sg ++
        (scanSign (s.dropWhile isspace)).2.takeWhile isdigit, ?_, ?_⟩
    · rw [← h.2, List.append_assoc, List.append_assoc, ← h2, ← hsg, ← h1]
    · simp only [List.mem_append, not_or]
      exact ⟨⟨hws, hsgn⟩, hds⟩

theorem dropWhile_not_mem (pre t : Text) (h : ';' ∉ pre) :
    (pre ++ ';' :: t).dropWhile (fun c => c != ';') = ';' :: t := by
  refine (takeWhile_append_cons (fun c => c != ';') pre ';' t ?_ (by simp)).2
  intro a ha
  have : a ≠ ';' := fun e => h (e ▸ ha)
  simpa using this

/-- When the three fields of a `KURA` payload parse, the text between its
first and second `;` has between 1 and 15 characters. -/
theorem kura_tag_bounds (payload : Text) (h : 3 ≤ (sscanf payload kuraFormat).length) :
    (((payload.dropWhile (fun c => c != ';')).drop 1).takeWhile (fun c => c != ';')) ≠ [] ∧
      (((payload.dropWhile (fun c => c != ';')).drop 1).takeWhile
        (fun c => c != ';')).length ≤ 15 := by
  unfold kuraFormat sscanf at h
  cases hi : scanInt payload with
  | none => simp [hi] at h
  | some p =>
    obtain ⟨v, t⟩ := p
    simp only [hi] at h
    obtain ⟨pre, hpre, hno⟩ := scanInt_consumed payload t v hi
    cases t with
    | nil => simp [sscanf] at h
    | cons x u =>
      unfold sscanf at h
      by_cases hx : x = ';'
      · subst hx
        simp only [if_true] at h
        rw [hpre, dropWhile_not_mem pre u hno]
        simp only [List.drop_succ_cons, List.drop_zero]
        unfold sscanf at h
        unfold scanSet15 at h
        simp only at h
        by_cases hw : (u.takeWhile (fun c => c != ';')).take 15 = []
        · simp [hw] at h
        · simp only [if_neg hw] at h
          have hne : u.takeWhile (fun c => c != ';') ≠ [] := by
            intro e
            exact hw (by rw [e]; rfl)
          refine ⟨hne, ?_⟩
          by_contra hlong
          have hlong2 : 15 < (u.takeWhile (fun c => c != ';')).length := Nat.lt_of_not_le hlong
          have hlen : ((u.takeWhile (fun c => c != ';')).take 15).length = 15 := by
            rw [List.length_take]
            omega
          rw [hlen] at h
          have hu : u = u.takeWhile (fun c => c != ';') ++ u.dropWhile (fun c => c != ';') :=
            (List.takeWhile_append_dropWhile _ _).symm
          have hdrop : u.drop 15 =
              (u.takeWhile (fun c => c != ';')).drop 15 ++ u.dropWhile (fun c => c != ';') := by
            conv_lhs => rw [hu]
            rw [List.drop_append_of_le_length (Nat.le_of_lt hlong2)]
          obtain ⟨y, ys, hy⟩ := List.exists_cons_of_ne_nil
            (l := (u.takeWhile (fun c => c != ';')).drop 15)
            (by
              intro e
              have := congrArg List.length e
              rw [List.length_drop] at this
              simp at this
              omega)
          have hymem : y ∈ u.takeWhile (fun c => c != ';') :=
            List.mem_of_mem_drop (by rw [hy]; simp)
          have hyne : y ≠ ';' := by
            have := List.mem_takeWhile_imp hymem
            simpa using this
          rw [hdrop, hy] at h
          simp only [List.cons_append] at h
          unfold sscanf at h
          simp [hyne] at h
      · simp [hx] at h

/-- C28. A `KURA` frame whose tag id field (the text between the first and the
second `;` of the payload) is empty or longer than 15 characters is dropped by
the root: fewer than three fields parse, no record is decoded from it and the
hub is left as it is, so nothing is published and no cut tag id is
forwarded. -/
theorem KURA_bad_tag_dropped (h : Hub) (msg : Text) (r : PublishResult) (akt_czas : Nat)
    (ht : msg.take 4 = "KURA".toList)
    (hbad : kuraTagField msg = [] ∨ 15 < (kuraTagField msg).length) :
    kuraParseCount msg < 3 ∧ dekodujKURA msg = none ∧
      receivedCallback h msg r akt_czas = h ∧
      (receivedCallback h msg r akt_czas).published = h.published := by
  have hc : kuraParseCount msg < 3 := by
    by_contra hge
    obtain ⟨h1, h2⟩ := kura_tag_bounds (msg.drop 5) (Nat.le_of_not_lt hge)
    unfold kuraTagField at hbad
    rcases hbad with hb | hb
    · exact h1 hb
    · omega
  have hd := dekodujKURA_isNone msg hc
  have hr := receivedCallback_KURA_dropped h msg r akt_czas ht hd
  exact ⟨hc, hd, hr, by rw [hr]⟩

set_option maxRecDepth 100000 in
/-- A frame whose tag id has 16 characters, and a frame without a tag id. -/
theorem KURA_bad_tag_dropped_witness :
    ("KURA;7;0123456789ABCDEF;-0.37;23:44:15".toList).take 4 = "KURA".toList ∧
      15 < (kuraTagField "KURA;7;0123456789ABCDEF;-0.37;23:44:15".toList).length ∧
      (kuraParseCount "KURA;7;0123456789ABCDEF;-0.37;23:44:15".toList < 3 ∧
        dekodujKURA "KURA;7;0123456789ABCDEF;-0.37;23:44:15".toList = none ∧
        receivedCallback (hubWith (some []) (some []))
            "KURA;7;0123456789ABCDEF;-0.37;23:44:15".toList (PublishResult.mk 1 true) 0 =
          hubWith (some []) (some []) ∧
        (receivedCallback (hubWith (some []) (some []))
            "KURA;7;0123456789ABCDEF;-0.37;23:44:15".toList
            (PublishResult.mk 1 true) 0).published =
          (hubWith (some []) (some [])).published) ∧
      kuraTagField "KURA;7;;-0.37;23:44:15".toList = [] ∧
      kuraParseCount "KURA;7;0123456789ABCDEF;-0.37;23:44:15".toList = 2 ∧
      kuraParseCount "KURA;7;;-0.37;23:44:15".toList = 1 :=
  ⟨by decide, by decide,
    KURA_bad_tag_dropped _ _ _ 0 (by decide) (Or.inr (by decide)), by decide, by decide,
    by decide⟩

end Kurnik

/-! ## Persistent memory -/

namespace Kurnik

theorem read_write (e : EEPROM) (a b v : Nat) :
    (e.write a v).read b = if b = a then v % 256 else e.read b := by
  unfold EEPROM.read EEPROM.write
  by_cases h : b = a
  · simp [h]
  · simp [h]

theorem read_zapiszBajty (s : Text) :
    ∀ (e : EEPROM) (address a : Nat),
      (zapiszBajty e address s).read a =
        if address ≤ a ∧ a < address + s.length then
          (((s.get? (a - address)).map Char.toNat).getD 0) % 256
        else e.read a := by
  induction s with
  | nil =>
    intro e address a
    have h0 : ¬ (address ≤ a ∧ a < address + ([] : Text).length) := by
      simp only [List.length_nil]
      omega
    rw [if_neg h0]
    rfl
  | cons c t ih =>
    intro e address a
    simp only [zapiszBajty, ih, read_write, List.length_cons]
    by_cases h1 : a = address
    · subst h1
      have h2 : ¬ (a + 1 ≤ a ∧ a < a + 1 + t.length) := by omega
      have h3 : a ≤ a ∧ a < a + (t.length + 1) := by omega
      simp [h2, h3]
    · by_cases h2 : address + 1 ≤ a ∧ a < address + 1 + t.length
      · have h3 : address ≤ a ∧ a < address + (t.length + 1) := by omega
        have h4 : a - address = (a - (address + 1)) + 1 := by omega
        rw [if_pos h2, if_pos h3, h4, List.get?_cons_succ]
      · have h3 : ¬ (address ≤ a ∧ a < address + (t.length + 1)) := by omega
        rw [if_neg h2, if_neg h3, if_neg h1]

theorem read_zerujBajty (count : Nat) :
    ∀ (e : EEPROM) (address a : Nat),
      (zerujBajty e address count).read a =
        if address ≤ a ∧ a < address + count then 0 else e.read a := by
  induction count with
  | zero =>
    intro e address a
    have h0 : ¬ (address ≤ a ∧ a < address + 0) := by omega
    rw [if_neg h0]
    rfl
  | succ n ih =>
    intro e address a
    simp only [zerujBajty, ih, read_write]
    by_cases h1 : a = address
    · subst h1
      have h2 : ¬ (a + 1 ≤ a ∧ a < a + 1 + n) := by omega
      have h3 : a ≤ a ∧ a < a + (n + 1) := by omega
      simp [h2, h3]
    · by_cases h2 : address + 1 ≤ a ∧ a < address + 1 + n
      · have h3 : address ≤ a ∧ a < address + (n + 1) := by omega
        rw [if_pos h2, if_pos h3]
      · have h3 : ¬ (address ≤ a ∧ a < address + (n + 1)) := by omega
        rw [if_neg h2, if_neg h3, if_neg h1]

theorem range_map_eq_map {α β : Type} (s : List α) (f : Nat → β) (g : α → β)
    (h : ∀ i a, s.get? i = some a → f i = g a) :
    (List.range s.length).map f = s.map g := by
  apply List.ext_get?
  intro i
  by_cases hi : i < s.length
  · have h1 : s.get? i = some (s.get ⟨i, hi⟩) := List.get?_eq_get hi
    simp only [List.get?_eq_getElem?, List.getElem?_map, List.getElem?_range hi,
      Option.map_some']
    rw [List.get?_eq_getElem?] at h1
    rw [h1, Option.map_some', h i _ (by rw [List.get?_eq_getElem?]; exact h1)]
  · have h1 : s.length ≤ i := Nat.le_of_not_lt hi
    simp [List.getElem?_eq_none, h1]

theorem strlen_of_cstring (s : Text) (hs : jestCString s) : strlen s = s.length := by
  unfold strlen
  rw [(takeWhile_all _ s ?_).1]
  intro a ha
  have h0 := (hs a ha).1
  have : a ≠ Char.ofNat 0 := by
    intro e
    rw [e] at h0
    exact absurd h0 (by decide)
  simpa using this

theorem cstr_of_cstring (s : Text) (hs : jestCString s) : cstr (s.map Char.toNat) = s := by
  unfold cstr
  have h1 : (s.map Char.toNat).takeWhile (fun b => b != 0) = s.map Char.toNat := by
    apply List.takeWhile_eq_self_iff.mpr
    intro b hb
    obtain ⟨c, hc, hcb⟩ := List.mem_map.mp hb
    have := (hs c hc).1
    simp
    omega
  rw [h1, List.map_map]
  have : (Char.ofNat ∘ Char.toNat) = id := by
    funext c
    simp
  rw [this, List.map_id]

theorem czytajBajty_zapisane (e : EEPROM) (address : Nat) (s : Text) (hs : jestCString s)
    (hr : ∀ i, i < s.length →
      e.read (address + i) = (((s.get? i).map Char.toNat).getD 0) % 256) :
    czytajBajty e address s.length = s.map Char.toNat := by
  unfold czytajBajty
  apply range_map_eq_map
  intro i a hia
  have hi : i < s.length := by
    by_contra hn
    rw [List.get?_eq_none.mpr (Nat.le_of_not_lt hn)] at hia
    exact absurd hia (by simp)
  rw [hr i hi, hia]
  have ha : a ∈ s := List.get?_mem hia
  have := (hs a ha).2
  simp only [Option.map_some', Option.getD_some]
  exact Nat.mod_eq_of_lt this

/-- C30. For every network name of 1 to 32 characters and every password of
0 to 64 characters (C strings: bytes, none of them NUL), loading the
credentials after saving them answers true and restores exactly the saved
name and password, whatever the EEPROM held before the save and whatever the
globals held before the load. -/
theorem credentials_roundtrip (e : EEPROM) (ssid pass : Text) (c : Bool) (w0 : Wifi)
    (hs : jestCString ssid) (hp : jestCString pass)
    (hs1 : 1 ≤ ssid.length) (hs2 : ssid.length ≤ 32) (hp2 : pass.length ≤ 64) :
    WczytanieDanychEEPROM
        (ZapiszDaneDoEEPROM e { wifi_ssid := ssid, wifi_password := pass, wifiConfigured := c })
        w0 =
      (true, { wifi_ssid := ssid, wifi_password := pass, wifiConfigured := true }) := by
  have hl1 : strlen ssid % 256 = ssid.length := by
    rw [strlen_of_cstring ssid hs]
    exact Nat.mod_eq_of_lt (by omega)
  have hl2 : strlen pass % 256 = pass.length := by
    rw [strlen_of_cstring pass hp]
    exact Nat.mod_eq_of_lt (by omega)
  have hn1 : ¬ (ssid.length > SSID_MAX) := by unfold SSID_MAX; omega
  have hn2 : ¬ (pass.length > PASS_MAX) := by unfold PASS_MAX; omega
  have hE : ZapiszDaneDoEEPROM e
      { wifi_ssid := ssid, wifi_password := pass, wifiConfigured := c } =
      zapiszBajty ((zapiszBajty (e.write SSID_LEN_ADDR ssid.length) SSID_ADDR ssid).write
        PASS_LEN_ADDR pass.length) PASS_ADDR pass := by
    simp only [ZapiszDaneDoEEPROM, hl1, hl2, if_neg hn1, if_neg hn2, List.take_length]
  have hr0 : ∀ a,
      (zapiszBajty ((zapiszBajty (e.write SSID_LEN_ADDR ssid.length) SSID_ADDR ssid).write
        PASS_LEN_ADDR pass.length) PASS_ADDR pass).read a =
      if 34 ≤ a ∧ a < 34 + pass.length then (((pass.get? (a - 34)).map Char.toNat).getD 0) % 256
      else if a = 33 then pass.length % 256
      else if 1 ≤ a ∧ a < 1 + ssid.length then
        (((ssid.get? (a - 1)).map Char.toNat).getD 0) % 256
      else if a = 0 then ssid.length % 256 else e.read a := by
    intro a
    simp only [read_zapiszBajty, read_write, PASS_ADDR, PASS_LEN_ADDR, SSID_ADDR, SSID_MAX,
      SSID_LEN_ADDR]
  rw [hE]
  have hlen : (zapiszBajty ((zapiszBajty (e.write SSID_LEN_ADDR ssid.length) SSID_ADDR
      ssid).write PASS_LEN_ADDR pass.length) PASS_ADDR pass).read SSID_LEN_ADDR =
      ssid.length := by
    rw [hr0]
    have h1 : ¬ (34 ≤ SSID_LEN_ADDR ∧ SSID_LEN_ADDR < 34 + pass.length) := by
      unfold SSID_LEN_ADDR; omega
    have h2 : ¬ (SSID_LEN_ADDR = 33) := by unfold SSID_LEN_ADDR; omega
    have h3 : ¬ (1 ≤ SSID_LEN_ADDR ∧ SSID_LEN_ADDR < 1 + ssid.length) := by
      unfold SSID_LEN_ADDR; omega
    rw [if_neg h1, if_neg h2, if_neg h3, if_pos (by rfl)]
    exact Nat.mod_eq_of_lt (by omega)
  have hplen : (zapiszBajty ((zapiszBajty (e.write SSID_LEN_ADDR ssid.length) SSID_ADDR
      ssid).write PASS_LEN_ADDR pass.length) PASS_ADDR pass).read PASS_LEN_ADDR =
      pass.length := by
    rw [hr0]
    have h0 : PASS_LEN_ADDR = 33 := rfl
    have h1 : ¬ (34 ≤ PASS_LEN_ADDR ∧ PASS_LEN_ADDR < 34 + pass.length) := by
      rw [h0]; omega
    rw [if_neg h1, if_pos h0]
    exact Nat.mod_eq_of_lt (by omega)
  have hbad : ¬ (ssid.length = 255 ∨ ssid.length = 0 ∨ ssid.length > SSID_MAX) := by
    unfold SSID_MAX; omega
  have hbad2 : ¬ (pass.length = 255 ∨ pass.length > PASS_MAX) := by
    unfold PASS_MAX; omega
  have hmin1 : min ssid.length SSID_MAX = ssid.length := by unfold SSID_MAX; omega
  have hmin2 : min pass.length PASS_MAX = pass.length := by unfold PASS_MAX; omega
  have hS := czytajBajty_zapisane
    (zapiszBajty ((zapiszBajty (e.write SSID_LEN_ADDR ssid.length) SSID_ADDR ssid).write
      PASS_LEN_ADDR pass.length) PASS_ADDR pass) SSID_ADDR ssid hs (by
      intro i hi
      rw [hr0]
      have h0 : SSID_ADDR = 1 := rfl
      have h1 : ¬ (34 ≤ SSID_ADDR + i ∧ SSID_ADDR + i < 34 + pass.length) := by
        rw [h0]; omega
      have h2 : ¬ (SSID_ADDR + i = 33) := by rw [h0]; omega
      have h3 : 1 ≤ SSID_ADDR + i ∧ SSID_ADDR + i < 1 + ssid.length := by
        rw [h0]; omega
      have h4 : SSID_ADDR + i - 1 = i := by rw [h0]; omega
      rw [if_neg h1, if_neg h2, if_pos h3, h4])
  have hP := czytajBajty_zapisane
    (zapiszBajty ((zapiszBajty (e.write SSID_LEN_ADDR ssid.length) SSID_ADDR ssid).write
      PASS_LEN_ADDR pass.length) PASS_ADDR pass) PASS_ADDR pass hp (by
      intro i hi
      rw [hr0]
      have h0 : PASS_ADDR = 34 := rfl
      have h3 : 34 ≤ PASS_ADDR + i ∧ PASS_ADDR + i < 34 + pass.length := by
        rw [h0]; omega
      have h4 : PASS_ADDR + i - 34 = i := by rw [h0]; omega
      rw [if_pos h3, h4])
  unfold WczytanieDanychEEPROM
  simp only [hlen, hplen, if_neg hbad, if_neg hbad2, hmin1, hmin2, hS, hP,
    cstr_of_cstring ssid hs, cstr_of_cstring pass hp]

set_option maxRecDepth 100000 in
/-- A name of 9 characters and a password of 12, saved over an erased
EEPROM. -/
theorem credentials_roundtrip_witness :
    jestCString "kurnik-ap".toList ∧ jestCString "tajne-haslo1".toList ∧
      1 ≤ "kurnik-ap".toList.length ∧ "kurnik-ap".toList.length ≤ 32 ∧
      "tajne-haslo1".toList.length ≤ 64 ∧
      WczytanieDanychEEPROM
          (ZapiszDaneDoEEPROM EEPROM.pusta
            { wifi_ssid := "kurnik-ap".toList, wifi_password := "tajne-haslo1".toList,
              wifiConfigured := false })
          Wifi.boot =
        (true,
          { wifi_ssid := "kurnik-ap".toList, wifi_password := "tajne-haslo1".toList,
            wifiConfigured := true }) :=
  ⟨by decide, by decide, by decide, by decide, by decide,
    credentials_roundtrip EEPROM.pusta _ _ false Wifi.boot (by decide) (by decide) (by decide)
      (by decide) (by decide)⟩

end Kurnik

namespace Czujnik

open Kurnik

theorem read_zapiszSSIDPetla (ssid : Text) (n : Nat) :
    ∀ (e : EEPROM) (i a : Nat),
      (zapiszSSIDPetla ssid e i n).read a =
        if i ≤ a ∧ a < i + n then (((ssid.get? a).map Char.toNat).getD 0) % 256
        else e.read a := by
  induction n with
  | zero =>
    intro e i a
    have h0 : ¬ (i ≤ a ∧ a < i + 0) := by omega
    rw [if_neg h0]
    rfl
  | succ n ih =>
    intro e i a
    have hstep : ∀ e1 : EEPROM, (e1.read a = if a = i then
        (((ssid.get? i).map Char.toNat).getD 0) % 256 else e.read a) →
        (zapiszSSIDPetla ssid e1 (i + 1) n).read a =
          if i ≤ a ∧ a < i + (n + 1) then (((ssid.get? a).map Char.toNat).getD 0) % 256
          else e.read a := by
      intro e1 he1
      rw [ih, he1]
      by_cases h1 : a = i
      · subst h1
        have h2 : ¬ (a + 1 ≤ a ∧ a < a + 1 + n) := by omega
        have h3 : a ≤ a ∧ a < a + (n + 1) := by omega
        rw [if_neg h2, if_pos h3, if_pos rfl]
      · by_cases h2 : i + 1 ≤ a ∧ a < i + 1 + n
        · have h3 : i ≤ a ∧ a < i + (n + 1) := by omega
          rw [if_pos h2, if_pos h3]
        · have h3 : ¬ (i ≤ a ∧ a < i + (n + 1)) := by omega
          rw [if_neg h2, if_neg h3, if_neg h1]
    unfold zapiszSSIDPetla
    cases hg : ssid.get? i with
    | none =>
      apply hstep
      rw [read_write, hg]
      simp [EEPROM_SSID_ADDR]
    | some c =>
      apply hstep
      rw [read_write, hg]
      simp [EEPROM_SSID_ADDR]

theorem odczytajSSIDPetla_zapisane (e : EEPROM) (ssid : Text) (hs : jestCString ssid)
    (hr : ∀ a, a < 64 → e.read a = (((ssid.get? a).map Char.toNat).getD 0) % 256) (n : Nat) :
    ∀ i, i + n ≤ 64 → odczytajSSIDPetla e i n = ((ssid.drop i).take n).map Char.toNat := by
  induction n with
  | zero => intro i _; simp [odczytajSSIDPetla]
  | succ n ih =>
    intro i hi
    unfold odczytajSSIDPetla
    have hb : e.read (EEPROM_SSID_ADDR + i) =
        (((ssid.get? i).map Char.toNat).getD 0) % 256 := by
      have : EEPROM_SSID_ADDR + i = i := by simp [EEPROM_SSID_ADDR]
      rw [this]
      exact hr i (by omega)
    simp only [hb]
    by_cases hlt : i < ssid.length
    · have hg : ssid.get? i = some (ssid.get ⟨i, hlt⟩) := List.get?_eq_get hlt
      have hmem : ssid.get ⟨i, hlt⟩ ∈ ssid := List.get_mem ssid i hlt
      obtain ⟨h1, h2⟩ := hs _ hmem
      have hd : ssid.drop i = ssid.get ⟨i, hlt⟩ :: ssid.drop (i + 1) := by
        rw [List.get_eq_getElem]
        exact List.drop_eq_getElem_cons hlt
      rw [hg]
      simp only [Option.map_some', Option.getD_some, Nat.mod_eq_of_lt h2]
      rw [if_neg (by omega), ih (i + 1) (by omega), hd]
      rfl
    · have hg : ssid.get? i = none := List.get?_eq_none.mpr (Nat.le_of_not_lt hlt)
      have hd : ssid.drop i = [] := List.drop_eq_nil_of_le (Nat.le_of_not_lt hlt)
      rw [hg, hd]
      simp

/-- C29. For every mesh name of at most 64 characters that holds no NUL (a
text of bytes), reading the persisted name after writing it returns exactly
the name, whatever the EEPROM held before; and reading after `wyczyscEEPROM`
returns the empty string, whatever the EEPROM held before. -/
theorem SSID_roundtrip (e : EEPROM) (s : Text) (hs : jestCString s) (hlen : s.length ≤ 64) :
    odczytajSSIDzEEPROM (zapiszSSIDDoEEPROM e s) = s ∧
      odczytajSSIDzEEPROM (wyczyscEEPROM e) = [] ∧
      odczytajSSIDzEEPROM (wyczyscEEPROM (zapiszSSIDDoEEPROM e s)) = [] := by
  have hclear : ∀ e1 : EEPROM, odczytajSSIDzEEPROM (wyczyscEEPROM e1) = [] := by
    intro e1
    unfold odczytajSSIDzEEPROM wyczyscEEPROM
    rw [read_write]
    simp [EEPROM_MAGIC_VALUE]
  refine ⟨?_, hclear e, hclear _⟩
  have hr : ∀ a, (zapiszSSIDDoEEPROM e s).read a =
      if 0 ≤ a ∧ a < 0 + 64 then (((s.get? a).map Char.toNat).getD 0) % 256
      else (e.write EEPROM_MAGIC_ADDR EEPROM_MAGIC_VALUE).read a := by
    intro a
    unfold zapiszSSIDDoEEPROM
    exact read_zapiszSSIDPetla s 64 _ 0 a
  have hmagic : (zapiszSSIDDoEEPROM e s).read EEPROM_MAGIC_ADDR = EEPROM_MAGIC_VALUE := by
    rw [hr, read_write]
    simp [EEPROM_MAGIC_ADDR, EEPROM_MAGIC_VALUE]
  unfold odczytajSSIDzEEPROM
  rw [hmagic]
  simp only [ne_eq, not_true_eq_false, if_false]
  have hloop := odczytajSSIDPetla_zapisane (zapiszSSIDDoEEPROM e s) s hs (by
    intro a ha
    rw [hr, if_pos (by omega)]) 64 0 (by omega)
  have h64 : EEPROM_SSID_MAX_LEN = 64 := rfl
  rw [h64, hloop, List.drop_zero, List.take_of_length_le hlen, List.map_map]
  have : (Char.ofNat ∘ Char.toNat) = id := by
    funext c
    simp
  rw [this, List.map_id]

set_option maxRecDepth 100000 in
/-- The name of a root's mesh written over an erased EEPROM and read back. -/
theorem SSID_roundtrip_witness :
    jestCString "KurnikMesh_A1B2C3D4E5F6".toList ∧
      "KurnikMesh_A1B2C3D4E5F6".toList.length ≤ 64 ∧
      (odczytajSSIDzEEPROM (zapiszSSIDDoEEPROM EEPROM.pusta "KurnikMesh_A1B2C3D4E5F6".toList) =
          "KurnikMesh_A1B2C3D4E5F6".toList ∧
        odczytajSSIDzEEPROM (wyczyscEEPROM EEPROM.pusta) = [] ∧
        odczytajSSIDzEEPROM
            (wyczyscEEPROM
              (zapiszSSIDDoEEPROM EEPROM.pusta "KurnikMesh_A1B2C3D4E5F6".toList)) = []) ∧
      odczytajSSIDzEEPROM EEPROM.pusta = [] :=
  ⟨by decide, by decide, SSID_roundtrip EEPROM.pusta _ (by decide) (by decide), by decide⟩

end Czujnik

/-! ## The reset command -/

namespace Kurnik

theorem WczytanieDanychEEPROM_ResetPamiec (e : EEPROM) (w : Wifi) :
    WczytanieDanychEEPROM (ResetPamiec e) w = (false, w) := by
  have h0 : (ResetPamiec e).read SSID_LEN_ADDR = 255 := by
    unfold ResetPamiec
    simp only [read_zerujBajty, read_write, PASS_ADDR, PASS_LEN_ADDR, SSID_ADDR, SSID_MAX,
      PASS_MAX, SSID_LEN_ADDR]
    simp
  unfold WczytanieDanychEEPROM
  simp [h0]

theorem zbierzPliki_all (root : List Wpis) :
    ∀ acc : List Text,
      acc.length + (root.filter (fun w => !w.isDirectory)).length ≤ 50 →
      zbierzPliki root acc =
        acc ++ (root.filter (fun w => !w.isDirectory)).map (fun w => sciezka w.name) := by
  induction root with
  | nil => intro acc _; simp [zbierzPliki]
  | cons file rest ih =>
    intro acc hle
    cases hd : file.isDirectory with
    | true =>
      have hf : (file :: rest).filter (fun w => !w.isDirectory) =
          rest.filter (fun w => !w.isDirectory) := by
        simp [List.filter_cons, hd]
      rw [hf] at hle ⊢
      unfold zbierzPliki
      by_cases hlt : acc.length < 50
      · simp only [if_pos hlt, hd, Bool.not_true, Bool.false_eq_true, if_false]
        exact ih acc hle
      · have h0 : (rest.filter (fun w => !w.isDirectory)).length = 0 := by omega
        rw [if_neg hlt, List.length_eq_zero.mp h0]
        simp
    | false =>
      have hf : (file :: rest).filter (fun w => !w.isDirectory) =
          file :: rest.filter (fun w => !w.isDirectory) := by
        simp [List.filter_cons, hd]
      rw [hf] at hle ⊢
      simp only [List.length_cons] at hle
      unfold zbierzPliki
      have hlt : acc.length < 50 := by omega
      simp only [if_pos hlt, hd, Bool.not_false, if_true]
      rw [ih (acc ++ [sciezka file.name]) (by simp; omega)]
      simp

theorem foldl_deleteFileKarta (paths : List Text) :
    ∀ root : List Wpis,
      paths.foldl deleteFileKarta root =
        root.filter (fun w => w.isDirectory || decide (sciezka w.name ∉ paths)) := by
  induction paths with
  | nil => intro root; simp
  | cons p ps ih =>
    intro root
    rw [List.foldl_cons, ih]
    unfold deleteFileKarta
    rw [List.filter_filter]
    apply List.filter_congr
    intro w _
    cases w.isDirectory
    · simp only [Bool.false_or, List.mem_cons, not_or, Bool.decide_and, ne_eq, decide_not]
      rw [Bool.and_comm]
    · simp

/-- When the root directory holds at most 50 files, `WyczyscKarteSD` leaves no
file in it. -/
theorem WyczyscKarteSD_clears (karta : Option (List Wpis)) (hle : liczbaPlikow karta ≤ 50)
    (path : Text) : plik (WyczyscKarteSD karta) path = none := by
  cases karta with
  | none => rfl
  | some root =>
    unfold liczbaPlikow at hle
    simp only at hle
    unfold WyczyscKarteSD plik
    simp only [Option.map_eq_none']
    rw [zbierzPliki_all root [] (by simpa using hle), foldl_deleteFileKarta]
    apply List.find?_eq_none.mpr
    intro w hw
    obtain ⟨hw1, hw2⟩ := List.mem_filter.mp hw
    cases hd : w.isDirectory with
    | true => simp
    | false =>
      exfalso
      rw [hd] at hw2
      simp only [Bool.false_or, List.nil_append, decide_eq_true_eq] at hw2
      apply hw2
      exact List.mem_map.mpr ⟨w, List.mem_filter.mpr ⟨hw1, by simp [hd]⟩, rfl⟩

set_option maxRecDepth 1000000 in
/-- C23, as stated, fails: on a card whose root directory lists 50 files in
front of the archive, the `reset` command removes the 50 and leaves the
archive, with its content, on the card. -/
theorem reset_leaves_archive :
    liczbaPlikow (kartaZPlikami 50) = 51 ∧
      plik (kartaZPlikami 50) backup_path = some "5;1.00\n".toList ∧
      plik (resetKurnik
          { eeprom := EEPROM.pusta, karta := kartaZPlikami 50, wifi := Wifi.boot,
            topic := "kurnik/".toList }).karta backup_path = some "5;1.00\n".toList := by
  decide

/-- C23, amended.  For every prior state of the persistent memory and of a
storage card whose root directory opens and holds at most 50 files, after
the `reset` command the stored credentials are unavailable
(`WczytanieDanychEEPROM` answers false and leaves the globals as they are) and
no file is left in the root directory: neither the archive nor the waitlist
exists any more. -/
theorem reset_clears (s : Trwale) (w : Wifi) (hopen : s.karta.isSome = true)
    (hle : liczbaPlikow s.karta ≤ 50) :
    WczytanieDanychEEPROM (resetKurnik s).eeprom w = (false, w) ∧
      (resetKurnik s).karta.isSome = true ∧
      plik (resetKurnik s).karta backup_path = none ∧
      plik (resetKurnik s).karta waitlist_path = none ∧
      kolejki (resetKurnik s).karta = { backup_data := none, transfer_waitlist := none } ∧
      ∀ path, plik (resetKurnik s).karta path = none := by
  have hall : ∀ path, plik (resetKurnik s).karta path = none :=
    fun path => WyczyscKarteSD_clears s.karta hle path
  have hsome : (resetKurnik s).karta.isSome = true := by
    unfold resetKurnik WyczyscKarteSD
    cases hk : s.karta with
    | none => rw [hk] at hopen; exact absurd hopen (by simp)
    | some root => rfl
  refine ⟨WczytanieDanychEEPROM_ResetPamiec s.eeprom w, hsome, hall _, hall _, ?_, hall⟩
  unfold kolejki
  rw [hall, hall]

set_option maxRecDepth 1000000 in
/-- A hub with stored credentials and a card that holds the two queue files
and a directory. -/
theorem reset_clears_witness :
    liczbaPlikow (some [Wpis.mk "System Volume Information".toList true [],
        Wpis.mk "backup_data.txt".toList false "5;1.00\n".toList,
        Wpis.mk "/transfer_waitlist.txt".toList false "6;2.00\n".toList]) ≤ 50 ∧
      (WczytanieDanychEEPROM
          (ZapiszDaneDoEEPROM EEPROM.pusta
            { wifi_ssid := "kurnik-ap".toList, wifi_password := "tajne-haslo1".toList,
              wifiConfigured := true })
          Wifi.boot).1 = true ∧
      plik (some [Wpis.mk "System Volume Information".toList true [],
        Wpis.mk "backup_data.txt".toList false "5;1.00\n".toList,
        Wpis.mk "/transfer_waitlist.txt".toList false "6;2.00\n".toList]) waitlist_path =
        some "6;2.00\n".toList ∧
      (WczytanieDanychEEPROM
          (resetKurnik
            { eeprom := ZapiszDaneDoEEPROM EEPROM.pusta
                { wifi_ssid := "kurnik-ap".toList, wifi_password := "tajne-haslo1".toList,
                  wifiConfigured := true }
              karta := some [Wpis.mk "System Volume Information".toList true [],
                Wpis.mk "backup_data.txt".toList false "5;1.00\n".toList,
                Wpis.mk "/transfer_waitlist.txt".toList false "6;2.00\n".toList]
              wifi := { wifi_ssid := "kurnik-ap".toList,
                        wifi_password := "tajne-haslo1".toList, wifiConfigured := true }
              topic := "kurnik/".toList }).eeprom Wifi.boot = (false, Wifi.boot) ∧
        plik (resetKurnik
            { eeprom := ZapiszDaneDoEEPROM EEPROM.pusta
                { wifi_ssid := "kurnik-ap".toList, wifi_password := "tajne-haslo1".toList,
                  wifiConfigured := true }
              karta := some [Wpis.mk "System Volume Information".toList true [],
                Wpis.mk "backup_data.txt".toList false "5;1.00\n".toList,
                Wpis.mk "/transfer_waitlist.txt".toList false "6;2.00\n".toList]
              wifi := { wifi_ssid := "kurnik-ap".toList,
                        wifi_password := "tajne-haslo1".toList, wifiConfigured := true }
              topic := "kurnik/".toList }).karta backup_path = none ∧
        plik (resetKurnik
            { eeprom := ZapiszDaneDoEEPROM EEPROM.pusta
                { wifi_ssid := "kurnik-ap".toList, wifi_password := "tajne-haslo1".toList,
                  wifiConfigured := true }
              karta := some [Wpis.mk "System Volume Information".toList true [],
                Wpis.mk "backup_data.txt".toList false "5;1.00\n".toList,
                Wpis.mk "/transfer_waitlist.txt".toList false "6;2.00\n".toList]
              wifi := { wifi_ssid := "kurnik-ap".toList,
                        wifi_password := "tajne-haslo1".toList, wifiConfigured := true }
              topic := "kurnik/".toList }).karta waitlist_path = none) :=
  ⟨by decide, by decide, by decide,
    (reset_clears _ Wifi.boot (by decide) (by decide)).1,
    (reset_clears _ Wifi.boot (by decide) (by decide)).2.2.1,
    (reset_clears _ Wifi.boot (by decide) (by decide)).2.2.2.1⟩

end Kurnik

/-! ## The scan of the leaf -/

namespace Czujnik

open Kurnik

/-- The scanning loop in first-boot mode: the signal strength it ends with
bounds every candidate and the strength it started with, and its state is
either the one it started with or that of a candidate. -/
theorem skanujPetla_any (m : Text) (sieci : List Siec) :
    ∀ (zk : Int) (ns : Text) (nr : Int),
      (∀ n ∈ kandydaci sieci, n.rssi ≤ (skanujPetla true m sieci zk ns nr).2.2) ∧
        nr ≤ (skanujPetla true m sieci zk ns nr).2.2 ∧
        (skanujPetla true m sieci zk ns nr = (zk, ns, nr) ∨
          ∃ n ∈ kandydaci sieci,
            skanujPetla true m sieci zk ns nr = (n.kanal, n.ssid, n.rssi)) := by
  induction sieci with
  | nil =>
    intro zk ns nr
    simp [skanujPetla, kandydaci]
  | cons x rest ih =>
    intro zk ns nr
    by_cases hp : startsWith x.ssid KurnikMesh = true
    · have hk : kandydaci (x :: rest) = x :: kandydaci rest := by
        simp [kandydaci, List.filter_cons, hp]
      by_cases hr : x.rssi > nr
      · have hs : skanujPetla true m (x :: rest) zk ns nr =
            skanujPetla true m rest x.kanal x.ssid x.rssi := by
          simp [skanujPetla, hp, hr]
        obtain ⟨h1, h2, h3⟩ := ih x.kanal x.ssid x.rssi
        rw [hs, hk]
        refine ⟨?_, by omega, ?_⟩
        · intro n hn
          rcases List.mem_cons.mp hn with e | e
          · rw [e]; exact h2
          · exact h1 n e
        · right
          rcases h3 with e | ⟨n, hn, e⟩
          · exact ⟨x, by simp, e⟩
          · exact ⟨n, by simp [hn], e⟩
      · have hs : skanujPetla true m (x :: rest) zk ns nr =
            skanujPetla true m rest zk ns nr := by
          simp [skanujPetla, hp, hr]
        obtain ⟨h1, h2, h3⟩ := ih zk ns nr
        rw [hs, hk]
        refine ⟨?_, h2, ?_⟩
        · intro n hn
          rcases List.mem_cons.mp hn with e | e
          · rw [e]; omega
          · exact h1 n e
        · rcases h3 with e | ⟨n, hn, e⟩
          · exact Or.inl e
          · exact Or.inr ⟨n, by simp [hn], e⟩
    · have hk : kandydaci (x :: rest) = kandydaci rest := by
        simp [kandydaci, List.filter_cons, hp]
      have hs : skanujPetla true m (x :: rest) zk ns nr =
          skanujPetla true m rest zk ns nr := by
        simp [skanujPetla, hp]
      rw [hs, hk]
      exact ih zk ns nr

/-- On a leaf with no mesh name yet, when the scan holds a network that starts
with `KurnikMesh_` and is stronger than -100 dBm, `skanujSiecMesh` selects a
network with that start whose signal strength is maximal among all of them,
stores its name as the mesh name and returns its channel. -/
theorem skanujSiecMesh_strongest (w : Start) (sieci : List Siec) (hw : w.mesh_ssid = [])
    (hk : ∀ n ∈ sieci, 0 < n.kanal) (hs : ∃ n ∈ kandydaci sieci, -100 < n.rssi) :
    ∃ n ∈ kandydaci sieci,
      (∀ m ∈ kandydaci sieci, m.rssi ≤ n.rssi) ∧
        (skanujSiecMesh w sieci).1 = n.kanal ∧
        (skanujSiecMesh w sieci).2 = { w with mesh_ssid := n.ssid, mesh_channel := n.kanal } := by
  obtain ⟨h1, _, h3⟩ := skanujPetla_any w.mesh_ssid sieci 0 [] (-100)
  obtain ⟨s, hsm, hsr⟩ := hs
  have hgt := h1 s hsm
  rcases h3 with e | ⟨n, hn, e⟩
  · rw [e] at hgt
    simp only at hgt
    omega
  · refine ⟨n, hn, ?_, ?_⟩
    · intro m hm
      have := h1 m hm
      rw [e] at this
      exact this
    · have hpos : n.kanal > 0 := hk n (List.mem_filter.mp hn).1
      have hd : decide (w.mesh_ssid.length = 0) = true := by simp [hw]
      unfold skanujSiecMesh
      simp only [hd, e, if_true, if_pos hpos]
      exact ⟨trivial, trivial⟩

/-- On a leaf with no mesh name yet, a scan without any network that starts
with `KurnikMesh_` gives 0 and no mesh name. -/
theorem skanujSiecMesh_none (w : Start) (sieci : List Siec) (hw : w.mesh_ssid = [])
    (hs : kandydaci sieci = []) :
    (skanujSiecMesh w sieci).1 = 0 ∧
      (skanujSiecMesh w sieci).2 = { w with mesh_channel := 0 } := by
  obtain ⟨_, _, h3⟩ := skanujPetla_any w.mesh_ssid sieci 0 [] (-100)
  have e : skanujPetla true w.mesh_ssid sieci 0 [] (-100) = (0, [], -100) := by
    rcases h3 with e | ⟨n, hn, _⟩
    · exact e
    · rw [hs] at hn
      exact absurd hn (by simp)
  have hd : decide (w.mesh_ssid.length = 0) = true := by simp [hw]
  unfold skanujSiecMesh
  simp only [hd, e, if_true]
  exact ⟨rfl, rfl⟩

set_option maxRecDepth 100000 in
/-- C21, the code at the failing scan.  A leaf with no persisted name scans
one network, `KurnikMesh_A1B2C3D4E5F6` on channel 6 at -100 dBm.  The name
passes the filter, yet `skanujSiecMesh` returns 0, the mesh name stays empty
and `InicjalizacjaMesh` returns without `mesh.init` and without a task; at
-99 dBm the same network is selected. -/
theorem weak_mesh_not_found :
    startsWith "KurnikMesh_A1B2C3D4E5F6".toList KurnikMesh = true ∧
      odczytajSSIDzEEPROM EEPROM.pusta = [] ∧
      (skanujSiecMesh (Start.boot EEPROM.pusta)
          [Siec.mk "KurnikMesh_A1B2C3D4E5F6".toList (-100) 6]).1 = 0 ∧
      (skanujSiecMesh (Start.boot EEPROM.pusta)
          [Siec.mk "KurnikMesh_A1B2C3D4E5F6".toList (-100) 6]).2.mesh_ssid = [] ∧
      (InicjalizacjaMesh (Start.boot EEPROM.pusta)
          [Siec.mk "KurnikMesh_A1B2C3D4E5F6".toList (-100) 6] true).mesh_init = none ∧
      (InicjalizacjaMesh (Start.boot EEPROM.pusta)
          [Siec.mk "KurnikMesh_A1B2C3D4E5F6".toList (-100) 6] true).zadania = [] ∧
      (skanujSiecMesh (Start.boot EEPROM.pusta)
          [Siec.mk "KurnikMesh_A1B2C3D4E5F6".toList (-99) 6]).1 = 6 ∧
      (InicjalizacjaMesh (Start.boot EEPROM.pusta)
          [Siec.mk "KurnikMesh_A1B2C3D4E5F6".toList (-99) 6] true).mesh_init =
        some ("KurnikMesh_A1B2C3D4E5F6".toList, 6) := by
  decide

theorem skanujPetla_named (N : Text) (sieci : List Siec) :
    ∀ (zk : Int) (ns : Text) (nr : Int),
      skanujPetla false N sieci zk ns nr =
        match sieci.find? (fun n => decide (n.ssid = N)) with
        | some n => (n.kanal, ns, nr)
        | none => (zk, ns, nr) := by
  induction sieci with
  | nil => intro zk ns nr; rfl
  | cons x rest ih =>
    intro zk ns nr
    by_cases hx : x.ssid = N
    · simp [skanujPetla, hx, List.find?_cons]
    · simp [skanujPetla, hx, List.find?_cons, ih]

theorem skanujSiecMesh_named (w : Start) (sieci : List Siec) (N : Text) (hne : N ≠ []) :
    (skanujSiecMesh { w with mesh_ssid := N } sieci).1 =
        (match sieci.find? (fun n => decide (n.ssid = N)) with
          | some n => n.kanal
          | none => 0) ∧
      (skanujSiecMesh { w with mesh_ssid := N } sieci).2.mesh_ssid = N ∧
      (skanujSiecMesh { w with mesh_ssid := N } sieci).2.eeprom = w.eeprom ∧
      (skanujSiecMesh { w with mesh_ssid := N } sieci).2.mesh_init = w.mesh_init ∧
      (skanujSiecMesh { w with mesh_ssid := N } sieci).2.zadania = w.zadania ∧
      (skanujSiecMesh { w with mesh_ssid := N } sieci).2.taskWyslijOdczyt = w.taskWyslijOdczyt ∧
      (skanujSiecMesh { w with mesh_ssid := N } sieci).2.polaczony_z_mesh =
        w.polaczony_z_mesh := by
  have hd : decide (N.length = 0) = false := by
    simp [hne]
  unfold skanujSiecMesh
  simp only [hd, skanujPetla_named]
  cases sieci.find? (fun n => decide (n.ssid = N)) with
  | none => simp
  | some n =>
    by_cases hpos : n.kanal > 0
    · simp [hpos]
    · simp [hpos]

theorem InicjalizacjaMesh_persisted (w : Start) (sieci : List Siec) (wykryto : Bool)
    (N : Text) (hN : odczytajSSIDzEEPROM w.eeprom = N) (hne : N ≠ []) :
    InicjalizacjaMesh w sieci wykryto =
      if (skanujSiecMesh { w with mesh_ssid := N } sieci).1 = 0 then
        { (skanujSiecMesh { w with mesh_ssid := N } sieci).2 with
          mesh_channel := (skanujSiecMesh { w with mesh_ssid := N } sieci).1 }
      else
        dolaczDoMesh
          { (skanujSiecMesh { w with mesh_ssid := N } sieci).2 with
            mesh_channel := (skanujSiecMesh { w with mesh_ssid := N } sieci).1 } wykryto := by
  have hlen : ¬ (N.length = 0) := fun e => hne (List.length_eq_zero.mp e)
  unfold InicjalizacjaMesh
  simp only [hN, if_neg hlen]

/-- C22. On a leaf with persisted name N, for every scan: if some scanned
network is named exactly N, `skanujSiecMesh` returns the channel of the first
such network and, that channel being a channel number (not 0), the leaf calls
`mesh.init` with N and that channel and registers its tasks; if none is,
`skanujSiecMesh` returns 0 and `InicjalizacjaMesh` returns without `mesh.init`,
without a task added or enabled, and the persisted name is still N. -/
theorem persisted_name_scan (w : Start) (sieci : List Siec) (wykryto : Bool) (N : Text)
    (hN : odczytajSSIDzEEPROM w.eeprom = N) (hne : N ≠ []) :
    ((∃ n ∈ sieci, n.ssid = N) →
        ∃ n ∈ sieci, n.ssid = N ∧
          (skanujSiecMesh { w with mesh_ssid := N } sieci).1 = n.kanal ∧
          (n.kanal ≠ 0 →
            (InicjalizacjaMesh w sieci wykryto).mesh_init = some (N, n.kanal) ∧
              (InicjalizacjaMesh w sieci wykryto).zadania =
                w.zadania ++ [Zadanie.taskWyslijOdczyt, Zadanie.taskZapytajCzas] ∧
              (InicjalizacjaMesh w sieci wykryto).taskWyslijOdczyt = true ∧
              odczytajSSIDzEEPROM (InicjalizacjaMesh w sieci wykryto).eeprom = N)) ∧
      ((∀ n ∈ sieci, n.ssid ≠ N) →
        (skanujSiecMesh { w with mesh_ssid := N } sieci).1 = 0 ∧
          (InicjalizacjaMesh w sieci wykryto).mesh_init = w.mesh_init ∧
          (InicjalizacjaMesh w sieci wykryto).zadania = w.zadania ∧
          (InicjalizacjaMesh w sieci wykryto).taskWyslijOdczyt = w.taskWyslijOdczyt ∧
          (InicjalizacjaMesh w sieci wykryto).eeprom = w.eeprom ∧
          odczytajSSIDzEEPROM (InicjalizacjaMesh w sieci wykryto).eeprom = N) := by
  obtain ⟨s1, s2, s3, s4, s5, s6, _⟩ := skanujSiecMesh_named w sieci N hne
  have hI := InicjalizacjaMesh_persisted w sieci wykryto N hN hne
  constructor
  · intro hex
    obtain ⟨n0, hn0, hn0N⟩ := hex
    cases hf : sieci.find? (fun n => decide (n.ssid = N)) with
    | none =>
      have := List.find?_eq_none.mp hf n0 hn0
      simp [hn0N] at this
    | some n =>
      have hmem : n ∈ sieci := List.mem_of_find?_eq_some hf
      have hnN : n.ssid = N := by
        have := List.find?_some hf
        simpa using this
      rw [hf] at s1
      simp only at s1
      refine ⟨n, hmem, hnN, s1, ?_⟩
      intro hk
      have hk2 : ¬ ((skanujSiecMesh { w with mesh_ssid := N } sieci).1 = 0) := by
        rw [s1]; exact hk
      rw [hI, if_neg hk2]
      refine ⟨?_, ?_, ?_, ?_⟩
      · show some ((skanujSiecMesh { w with mesh_ssid := N } sieci).2.mesh_ssid,
          (skanujSiecMesh { w with mesh_ssid := N } sieci).1) = some (N, n.kanal)
        rw [s1, s2]
      · show (skanujSiecMesh { w with mesh_ssid := N } sieci).2.zadania ++ _ = _
        rw [s5]
      · rfl
      · show odczytajSSIDzEEPROM (skanujSiecMesh { w with mesh_ssid := N } sieci).2.eeprom = N
        rw [s3]
        exact hN
  · intro hnone
    have hf : sieci.find? (fun n => decide (n.ssid = N)) = none := by
      apply List.find?_eq_none.mpr
      intro n hn
      simpa using hnone n hn
    rw [hf] at s1
    simp only at s1
    rw [hI, if_pos s1]
    refine ⟨s1, s4, s5, s6, s3, ?_⟩
    show odczytajSSIDzEEPROM (skanujSiecMesh { w with mesh_ssid := N } sieci).2.eeprom = N
    rw [s3]
    exact hN

set_option maxRecDepth 100000 in
/-- A leaf that persisted `KurnikMesh_A1B2C3D4E5F6`; the scan finds it on
channel 11 behind a foreign network, and a second scan does not find it. -/
theorem persisted_name_scan_witness :
    odczytajSSIDzEEPROM (zapiszSSIDDoEEPROM EEPROM.pusta "KurnikMesh_A1B2C3D4E5F6".toList) =
        "KurnikMesh_A1B2C3D4E5F6".toList ∧
      "KurnikMesh_A1B2C3D4E5F6".toList ≠ [] ∧
      (skanujSiecMesh
          { Start.boot (zapiszSSIDDoEEPROM EEPROM.pusta "KurnikMesh_A1B2C3D4E5F6".toList) with
            mesh_ssid := "KurnikMesh_A1B2C3D4E5F6".toList }
          [Siec.mk "dom".toList (-40) 1,
            Siec.mk "KurnikMesh_A1B2C3D4E5F6".toList (-70) 11]).1 = 11 ∧
      (InicjalizacjaMesh
          (Start.boot (zapiszSSIDDoEEPROM EEPROM.pusta "KurnikMesh_A1B2C3D4E5F6".toList))
          [Siec.mk "dom".toList (-40) 1,
            Siec.mk "KurnikMesh_A1B2C3D4E5F6".toList (-70) 11] true).mesh_init =
        some ("KurnikMesh_A1B2C3D4E5F6".toList, 11) ∧
      (InicjalizacjaMesh
          (Start.boot (zapiszSSIDDoEEPROM EEPROM.pusta "KurnikMesh_A1B2C3D4E5F6".toList))
          [Siec.mk "dom".toList (-40) 1] true).mesh_init =
        (Start.boot (zapiszSSIDDoEEPROM EEPROM.pusta
          "KurnikMesh_A1B2C3D4E5F6".toList)).mesh_init ∧
      (InicjalizacjaMesh
          (Start.boot (zapiszSSIDDoEEPROM EEPROM.pusta "KurnikMesh_A1B2C3D4E5F6".toList))
          [Siec.mk "dom".toList (-40) 1] true).zadania =
        (Start.boot (zapiszSSIDDoEEPROM EEPROM.pusta
          "KurnikMesh_A1B2C3D4E5F6".toList)).zadania :=
  ⟨by decide, by decide, by decide, by decide,
    ((persisted_name_scan
      (Start.boot (zapiszSSIDDoEEPROM EEPROM.pusta "KurnikMesh_A1B2C3D4E5F6".toList))
      [Siec.mk "dom".toList (-40) 1] true "KurnikMesh_A1B2C3D4E5F6".toList (by decide)
      (by decide)).2 (by decide)).2.1,
    ((persisted_name_scan
      (Start.boot (zapiszSSIDDoEEPROM EEPROM.pusta "KurnikMesh_A1B2C3D4E5F6".toList))
      [Siec.mk "dom".toList (-40) 1] true "KurnikMesh_A1B2C3D4E5F6".toList (by decide)
      (by decide)).2 (by decide)).2.2.1⟩

end Czujnik

/-! ## A corrupt frame in front of a valid one -/

namespace Kurnik

end Kurnik
